import Mathlib

/-!
# Manual proximity query engine (LibproxManualProximity)

A shallow embedding of `src/libspace/plugins/prox/LibproxManualProximity.cpp`
(with the declarations of `LibproxProximityBase.hpp`) and theorems about it.

Conventions of the embedding:

* identifiers (`UUID`, `OHDP::NodeID`, pointers) are natural numbers, the null
  value being `0`;
* a C++ `assert` that fails, a dereferenced null handler, a loop that has not
  finished within the supplied fuel and an exception thrown by a library are the
  ways a computation can fail; they are the constructors of `Failure`;
* calls made on objects that live outside the file (the libprox query handler,
  the libprox query, the main strand) are recorded in call logs, in call order;
* machine integers are natural numbers reduced modulo their width where the
  source increments them (`uint32 count`, the `uint64` sequence number).
-/

namespace Sirikata

/-! ## Basic types -/

/-- Object and node identifiers (`UUID`). -/
abbrev UUID := Nat

/-- The null identifier `UUID::null()`. -/
def UUID.null : UUID := 0

/-- Object host identifiers (`OHDP::NodeID`). -/
abbrev NodeID := Nat

/-- The default-constructed `OHDP::NodeID`. -/
def NodeID.null : NodeID := 0

/-- Addresses of libprox queries (`ProxQuery*`). -/
abbrev ProxQueryPtr := Nat

/-- Addresses of per-client sequence number counters (`SeqNoPtr`). -/
abbrev SeqNoPtr := Nat

/-- Identifier of a query handler index (`ProxIndexID`). -/
abbrev ProxIndexID := Nat

/-- Identifier of a space server (`ServerID`). -/
abbrev ServerID := Nat

/-- Simulation time stamps (`Time`), in microseconds. -/
abbrev Time := Nat

/-- The ways a computation of the embedding can fail. -/
inductive Failure where
  | assertion
  | nullPointer
  | outOfFuel
  | exception
  deriving DecidableEq, Repr

/-- The enumeration `ObjectClass` of `LibproxProximityBase.hpp`. -/
inductive ObjectClass where
  | OBJECT_CLASS_STATIC
  | OBJECT_CLASS_DYNAMIC
  deriving DecidableEq, Repr

open ObjectClass

/-- The enumerator `NUM_OBJECT_CLASSES`. -/
def NUM_OBJECT_CLASSES : Int := 2

/-- The integer value of an enumerator of `ObjectClass`. -/
def ObjectClass.toInt : ObjectClass → Int
  | OBJECT_CLASS_STATIC => 0
  | OBJECT_CLASS_DYNAMIC => 1

/-- The values taken by `i` in `for(int i = 0; i < NUM_OBJECT_CLASSES; i++)`. -/
def objectClasses : List ObjectClass := [OBJECT_CLASS_STATIC, OBJECT_CLASS_DYNAMIC]

/-! ## Query handlers and their pending swap buckets -/

/-- The type `ObjectIDSet`: a set of object identifiers, kept as a list without
duplicates.  The iteration order of the C++ container is not specified; the
embedding iterates in insertion order and no theorem relies on that order. -/
abbrev ObjectIDSet := List UUID

/-- The operation `ObjectIDSet::insert`. -/
def ObjectIDSet.insert (s : ObjectIDSet) (o : UUID) : ObjectIDSet :=
  if o ∈ s then s else s ++ [o]

/-- Modelled from the spec: the libprox query handler
(`Prox::RTreeManualQueryHandler`, not part of the sources).  Its contents are a
set of objects changed only by `addObject` and `removeObject`; `addr` is the
address of the handler object, and the remaining fields are the arguments the
constructor passes to `initialize`: the static-objects flag, the replicated
flag, and the two leading arguments bound into the `handlerShouldHandleObject`
callback. -/
structure ProxQueryHandler where
  addr : Nat
  objects : List UUID
  staticOnly : Bool
  replicated : Bool
  boundIsStaticHandler : Bool
  boundIsGlobalHandler : Bool
  deriving DecidableEq, Repr

/-- Modelled from the spec: `contains_object(uuid)` of the query handler. -/
def ProxQueryHandler.containsObject (h : ProxQueryHandler) (o : UUID) : Bool :=
  decide (o ∈ h.objects)

/-- Modelled from the spec: `add_object(uuid)` of the query handler, as an
insertion into the set of contained objects. -/
def ProxQueryHandler.addObject (h : ProxQueryHandler) (o : UUID) : ProxQueryHandler :=
  { h with objects := if o ∈ h.objects then h.objects else h.objects ++ [o] }

/-- Modelled from the spec: `remove_object` of the query handler; removing
an unknown object is a no-op.  The second argument of the C++ call does not
change which objects are contained. -/
def ProxQueryHandler.removeObject (h : ProxQueryHandler) (o : UUID) (_flag : Bool) :
    ProxQueryHandler :=
  { h with objects := h.objects.filter (fun x => x ≠ o) }

/-- Modelled from the spec: `tick(now)` of the query handler advances the
queries; it does not change which objects are contained. -/
def ProxQueryHandler.tick (h : ProxQueryHandler) (_t : Time) : ProxQueryHandler := h

/-- The structure `ProxQueryHandlerData`: a handler slot (possibly `NULL`) with
its buckets of pending additions and removals. -/
structure ProxQueryHandlerData where
  handler : Option ProxQueryHandler
  additions : ObjectIDSet
  removals : ObjectIDSet
  deriving DecidableEq, Repr

/-- An array `ProxQueryHandlerData[NUM_OBJECT_CLASSES]`. -/
structure HandlerArray where
  staticData : ProxQueryHandlerData
  dynamicData : ProxQueryHandlerData
  deriving DecidableEq, Repr

/-- Array read `handlers[c]`. -/
def HandlerArray.get (qh : HandlerArray) : ObjectClass → ProxQueryHandlerData
  | OBJECT_CLASS_STATIC => qh.staticData
  | OBJECT_CLASS_DYNAMIC => qh.dynamicData

/-- Array write `handlers[c] = d`. -/
def HandlerArray.set (qh : HandlerArray) (c : ObjectClass) (d : ProxQueryHandlerData) :
    HandlerArray :=
  match c with
  | OBJECT_CLASS_STATIC => { qh with staticData := d }
  | OBJECT_CLASS_DYNAMIC => { qh with dynamicData := d }

/-- The objects contained in the handler of class `c` (none for a null slot). -/
def HandlerArray.objectsOf (qh : HandlerArray) (c : ObjectClass) : List UUID :=
  match (qh.get c).handler with
  | none => []
  | some h => h.objects

/-- The call `handlers[c].handler->containsObject(o)`; dereferencing a null
handler fails. -/
def HandlerArray.containsObject (qh : HandlerArray) (c : ObjectClass) (o : UUID) :
    Except Failure Bool :=
  match (qh.get c).handler with
  | none => .error .nullPointer
  | some h => .ok (h.containsObject o)

/-- Short-circuit conjunction `a && b` whose right operand may fail. -/
def andThen (a : Bool) (b : Except Failure Bool) : Except Failure Bool :=
  if a then b else .ok false

/-- Short-circuit disjunction `a || b` of two operands that may fail. -/
def orElse (a b : Except Failure Bool) : Except Failure Bool :=
  match a with
  | .error e => .error e
  | .ok true => .ok true
  | .ok false => b

/-- The function `LibproxManualProximity::handleCheckObjectClassForHandlers`. -/
def handleCheckObjectClassForHandlers (objid : UUID) (is_static : Bool)
    (handlers : HandlerArray) : Except Failure HandlerArray :=
  match orElse (andThen is_static (handlers.containsObject OBJECT_CLASS_STATIC objid))
      (andThen (!is_static) (handlers.containsObject OBJECT_CLASS_DYNAMIC objid)) with
  | .error e => .error e
  | .ok true => .ok handlers
  | .ok false =>
    -- Validate that the other handler has the object.
    match orElse (andThen is_static (handlers.containsObject OBJECT_CLASS_DYNAMIC objid))
        (andThen (!is_static) (handlers.containsObject OBJECT_CLASS_STATIC objid)) with
    | .error e => .error e
    | .ok false => .error .assertion
    | .ok true =>
      -- If it wasn't in the right place, switch it.
      let swap_out := if is_static then OBJECT_CLASS_DYNAMIC else OBJECT_CLASS_STATIC
      let swap_in := if is_static then OBJECT_CLASS_STATIC else OBJECT_CLASS_DYNAMIC
      let h1 := handlers.set swap_out
        { handlers.get swap_out with removals := (handlers.get swap_out).removals.insert objid }
      .ok (h1.set swap_in
        { h1.get swap_in with additions := (h1.get swap_in).additions.insert objid })

/-- The function `LibproxManualProximity::trySwapHandlers` on the object host
handlers (the flag `is_local` is not used by the source). -/
def trySwapHandlers (_is_local : Bool) (objid : UUID) (is_static : Bool)
    (mOHQueryHandler : HandlerArray) : Except Failure HandlerArray :=
  handleCheckObjectClassForHandlers objid is_static mOHQueryHandler

/-- Modelled from the spec: `processExpiredStaticObjectTimeouts` of the base
class (`LibproxProximityBase.cpp` is not part of the sources).  For every
expired timeout whose object is still tracked and still static it requests a
swap to the static handler through `trySwapHandlers`; `expired` lists the
`(is_local, objid)` records of these requests in expiration order. -/
def processExpiredStaticObjectTimeouts :
    List (Bool × UUID) → HandlerArray → Except Failure HandlerArray
  | [], qh => .ok qh
  | (l, o) :: rest, qh =>
    match trySwapHandlers l o true qh with
    | .error e => .error e
    | .ok qh1 => processExpiredStaticObjectTimeouts rest qh1

/-- A call made by `tickQueryHandler` on the handler of a class.  The Boolean of
`removeObject` is the second argument of the C++ call. -/
inductive HandlerCall where
  | removeObject (c : ObjectClass) (o : UUID) (flag : Bool)
  | tick (c : ObjectClass)
  | addObject (c : ObjectClass) (o : UUID)
  deriving DecidableEq, Repr

/-- The body of the loop of `tickQueryHandler` for class `i`: drain the removals
of the class, tick its handler, drain its additions.  The calls are logged in
call order. -/
def tickQueryHandlerClass (simT : Time) (qh : HandlerArray) (i : ObjectClass) :
    HandlerArray × List HandlerCall :=
  match (qh.get i).handler with
  | none => (qh, [])
  | some h =>
    let h1 := (qh.get i).removals.foldl (fun hh o => hh.removeObject o true) h
    let h2 := h1.tick simT
    let h3 := (qh.get i).additions.foldl (fun hh o => hh.addObject o) h2
    (qh.set i { handler := some h3, additions := [], removals := [] },
      (qh.get i).removals.map (fun o => HandlerCall.removeObject i o true)
        ++ [HandlerCall.tick i]
        ++ (qh.get i).additions.map (fun o => HandlerCall.addObject i o))

/-- The loop `for(int i = 0; i < NUM_OBJECT_CLASSES; i++)` of `tickQueryHandler`
over the classes listed. -/
def tickQueryHandlerLoop (simT : Time) :
    List ObjectClass → HandlerArray → HandlerArray × List HandlerCall
  | [], qh => (qh, [])
  | i :: rest, qh =>
    let r1 := tickQueryHandlerClass simT qh i
    let r2 := tickQueryHandlerLoop simT rest r1.1
    (r2.1, r1.2 ++ r2.2)

/-- The function `LibproxManualProximity::tickQueryHandler`: process the expired
static-object timeouts, then for each class drain removals, tick, drain
additions.  Returns the new handler array and the log of handler calls.  The
poller calls the function on `mOHQueryHandler`, the array the timeout processing
writes to through `trySwapHandlers`. -/
def tickQueryHandler (simT : Time) (expired : List (Bool × UUID)) (qh : HandlerArray) :
    Except Failure (HandlerArray × List HandlerCall) :=
  match processExpiredStaticObjectTimeouts expired qh with
  | .error e => .error e
  | .ok qh1 => .ok (tickQueryHandlerLoop simT objectClasses qh1)

/-! ## Object admission -/

/-- A 32-bit floating point number, kept as its bit pattern: the code embedded
here only copies such values or hands them to `velocityIsStatic`. -/
abbrev float32 := Nat

/-- The type `Vector3f`. -/
structure Vector3f where
  x : float32
  y : float32
  z : float32
  deriving DecidableEq, Repr

/-- The type `Quaternion`. -/
structure Quaternion where
  w : float32
  x : float32
  y : float32
  z : float32
  deriving DecidableEq, Repr

/-- The type `TimedMotionVector3f`: an update time, a position and a velocity. -/
structure TimedMotionVector3f where
  updateTime : Time
  position : Vector3f
  velocity : Vector3f
  deriving DecidableEq, Repr

/-- The type `TimedMotionQuaternion`. -/
structure TimedMotionQuaternion where
  updateTime : Time
  position : Quaternion
  velocity : Quaternion
  deriving DecidableEq, Repr

/-- The type `BoundingSphere3f`. -/
structure BoundingSphere3f where
  center : Vector3f
  radius : float32
  deriving DecidableEq, Repr

/-- The type `AggregateBoundingInfo`. -/
structure AggregateBoundingInfo where
  centerOffset : Vector3f
  centerBoundsRadius : float32
  maxObjectRadius : float32
  deriving DecidableEq, Repr

/-- The function `LibproxManualProximity::handlerShouldHandleObject`.  The
member `mSeparateDynamicObjects` and the static helper `velocityIsStatic` of the
base class (its definition is not part of the sources) are parameters. -/
def handlerShouldHandleObject (mSeparateDynamicObjects : Bool)
    (velocityIsStatic : Vector3f → Bool)
    (is_static_handler is_global_handler : Bool) (_obj_id : UUID)
    (is_local _is_aggregate : Bool) (pos : TimedMotionVector3f)
    (_region : BoundingSphere3f) (_maxSize : float32) : Bool :=
  -- First classify by local vs. replica.
  if !is_local && !is_global_handler then false
  -- If we're not doing the static/dynamic split, then this is a non-issue
  else if !mSeparateDynamicObjects then true
  else
    let is_static := velocityIsStatic pos.velocity
    if (is_static && is_static_handler) || (!is_static && !is_static_handler) then true
    else false

/-- The handler slot the constructor `LibproxManualProximity::LibproxManualProximity`
builds for class `i`: `NULL` when `i >= mNumQueryHandlers`, otherwise a new,
empty handler initialised with `object_static_objects` and `false`.  The
address of the new handler object is `i + 1`. -/
def constructHandler (mSeparateDynamicObjects : Bool) (mNumQueryHandlers : Int)
    (i : ObjectClass) : ProxQueryHandlerData :=
  if i.toInt ≥ mNumQueryHandlers then
    { handler := none, additions := [], removals := [] }
  else
    let object_static_objects :=
      mSeparateDynamicObjects && decide (i = OBJECT_CLASS_STATIC)
    { handler := some
        { addr := (i.toInt + 1).toNat
          objects := []
          staticOnly := object_static_objects
          replicated := false
          boundIsStaticHandler := object_static_objects
          boundIsGlobalHandler := false }
      additions := []
      removals := [] }

/-- The array `mOHQueryHandler` as left by the constructor. -/
def constructHandlers (mSeparateDynamicObjects : Bool) (mNumQueryHandlers : Int) :
    HandlerArray :=
  { staticData := constructHandler mSeparateDynamicObjects mNumQueryHandlers OBJECT_CLASS_STATIC
    dynamicData := constructHandler mSeparateDynamicObjects mNumQueryHandlers OBJECT_CLASS_DYNAMIC }

/-- The admission callback installed in a handler: `handlerShouldHandleObject`
with the two leading arguments the constructor bound for that handler. -/
def ProxQueryHandler.shouldHandleObject (h : ProxQueryHandler)
    (mSeparateDynamicObjects : Bool) (velocityIsStatic : Vector3f → Bool)
    (obj_id : UUID) (is_local is_aggregate : Bool) (pos : TimedMotionVector3f)
    (region : BoundingSphere3f) (maxSize : float32) : Bool :=
  handlerShouldHandleObject mSeparateDynamicObjects velocityIsStatic
    h.boundIsStaticHandler h.boundIsGlobalHandler obj_id is_local is_aggregate pos region maxSize

/-! ## Object host queries: state of the proximity object -/

/-- A task posted to the main strand with `mContext->mainStrand->post`: the
bound member function and its bound arguments. -/
inductive MainStrandTask where
  | handleAddOHLocSubscriptionWithID (subscriber : NodeID) (observed : UUID)
      (index_id : ProxIndexID)
  | handleRemoveOHLocSubscriptionWithID (subscriber : NodeID) (observed : UUID)
      (index_id : ProxIndexID)
  | handleRemoveAllOHLocSubscription (subscriber : NodeID)
  deriving DecidableEq, Repr

/-- The enumeration `IndexProperties::DynamicClassification` of the protocol. -/
inductive DynamicClassification where
  | Static
  | Dynamic
  deriving DecidableEq, Repr

/-- The enumeration `ObjectAddition::Type` of the protocol. -/
inductive AdditionType where
  | Object
  | Aggregate
  deriving DecidableEq, Repr

/-- The enumeration `ObjectRemoval::Type` of the protocol. -/
inductive RemovalType where
  | Permanent
  | Transient
  deriving DecidableEq, Repr

/-- The protocol message `IndexProperties`; an unset field is `none`. -/
structure IndexProperties where
  id : Option ProxIndexID
  index_id : Option String
  dynamic_classification : Option DynamicClassification
  deriving DecidableEq, Repr

/-- The protocol message `ObjectAddition`; an unset field is `none`. -/
structure ObjectAddition where
  object : UUID
  seqno : Nat
  location : TimedMotionVector3f
  orientation : TimedMotionQuaternion
  aggregate_bounds : AggregateBoundingInfo
  mesh : Option String
  physics : Option String
  parent : Option UUID
  type : AdditionType
  deriving DecidableEq, Repr

/-- The protocol message `ObjectRemoval`. -/
structure ObjectRemoval where
  object : UUID
  seqno : Nat
  type : RemovalType
  deriving DecidableEq, Repr

/-- The protocol message `ProximityUpdate`. -/
structure ProximityUpdate where
  index_properties : Option IndexProperties
  addition : List ObjectAddition
  removal : List ObjectRemoval
  deriving DecidableEq, Repr

/-- The protocol message `ProximityResults`. -/
structure ProximityResults where
  t : Time
  update : List ProximityUpdate
  deriving DecidableEq, Repr

/-- Object message ports; only `OBJECT_PORT_PROXIMITY` is used here. -/
inductive ObjectPort where
  | OBJECT_PORT_PROXIMITY
  deriving DecidableEq, Repr

open ObjectPort

/-- The message built by `createObjectMessage`.  The payload is the structured
`ProximityResults` that `serializePBJMessage` encodes. -/
structure ObjectMessage where
  source_server : ServerID
  source_object : UUID
  source_port : ObjectPort
  dest_object : UUID
  dest_port : ObjectPort
  payload : ProximityResults
  deriving DecidableEq, Repr

/-- The helper `createObjectMessage`. -/
def createObjectMessage (source_server : ServerID) (src : UUID) (src_port : ObjectPort)
    (dest : UUID) (dest_port : ObjectPort) (payload : ProximityResults) : ObjectMessage :=
  { source_server := source_server, source_object := src, source_port := src_port,
    dest_object := dest, dest_port := dest_port, payload := payload }

/-- The type `OHResult`: the destination object host and the message. -/
abbrev OHResult := NodeID × ObjectMessage

/-- The members of `LibproxManualProximity` used by the object host query code,
together with the two pieces of outside state that code writes: the counters
behind the `SeqNoPtr` pointers and the queue of the main strand.  `nextQuery`
is the address the next `registerQuery` returns: every registered query gets an
address that was never used before. -/
structure State where
  mSeparateDynamicObjects : Bool
  mNumQueryHandlers : Int
  mOHQueryHandler : HandlerArray
  mOHQueries : ObjectClass → NodeID → Option ProxQueryPtr
  mInvertedOHQueries : ProxQueryPtr → Option NodeID
  mOHSeqNos : NodeID → Option SeqNoPtr
  seqNoValue : SeqNoPtr → Nat
  mOHResults : List OHResult
  mOHResultsToSend : List OHResult
  mainStrand : List MainStrandTask
  nextQuery : ProxQueryPtr

/-- The state left by the constructor `LibproxManualProximity::LibproxManualProximity`
for the given values of the base class members `mSeparateDynamicObjects` and
`mNumQueryHandlers`; `seqNoValue` gives the counters of the sessions. -/
def construct (mSeparateDynamicObjects : Bool) (mNumQueryHandlers : Int)
    (seqNoValue : SeqNoPtr → Nat) : State :=
  { mSeparateDynamicObjects := mSeparateDynamicObjects
    mNumQueryHandlers := mNumQueryHandlers
    mOHQueryHandler := constructHandlers mSeparateDynamicObjects mNumQueryHandlers
    mOHQueries := fun _ _ => none
    mInvertedOHQueries := fun _ => none
    mOHSeqNos := fun _ => none
    seqNoValue := seqNoValue
    mOHResults := []
    mOHResultsToSend := []
    mainStrand := []
    nextQuery := 1 }

/-- The call `mContext->mainStrand->post(task)`. -/
def State.post (st : State) (task : MainStrandTask) : State :=
  { st with mainStrand := st.mainStrand ++ [task] }

/-- The part of `SpaceContext` read by the query code: the simulation time
`mContext->simTime()`, the server identifier `mContext->id()`, and the value of
the option `PROX_MAX_PER_RESULT` (a `uint32`). -/
structure Context where
  simTime : Time
  id : ServerID
  PROX_MAX_PER_RESULT : Nat

/-- The function `LibproxManualProximity::getSeqNoInfo`. -/
def getSeqNoInfo (node : NodeID) (st : State) : Except Failure SeqNoPtr :=
  match st.mOHSeqNos node with
  | none => .error .assertion
  | some p => .ok p

/-- The function `LibproxManualProximity::eraseSeqNoInfo`. -/
def eraseSeqNoInfo (node : NodeID) (st : State) : State :=
  match st.mOHSeqNos node with
  | none => st
  | some _ => { st with mOHSeqNos := Function.update st.mOHSeqNos node none }

/-! ## Command dispatch -/

/-- Modelled from the spec: a JSON value as read by `json_spirit`
(the library is not part of the sources). -/
inductive JsonValue where
  | null
  | bool (b : Bool)
  | int (i : Int)
  | real (bits : Nat)
  | str (s : String)
  | array (a : List JsonValue)
  | object (o : List (String × JsonValue))

/-- Modelled from the spec: the member of an object stored under `key`. -/
def JsonValue.member (v : JsonValue) (key : String) : Option JsonValue :=
  match v with
  | .object o => (o.find? (fun kv => kv.1 == key)).map (fun kv => kv.2)
  | _ => none

/-- Modelled from the spec: `contains(key)`. -/
def JsonValue.contains (v : JsonValue) (key : String) : Bool :=
  (v.member key).isSome

/-- Modelled from the spec: `getString(key, default)`, the default being
returned when the field is missing or is not a string. -/
def JsonValue.getString (v : JsonValue) (key : String) (dflt : String) : String :=
  match v.member key with
  | some (.str s) => s
  | _ => dflt

/-- Modelled from the spec: `isArray()`. -/
def JsonValue.isArray : JsonValue → Bool
  | .array _ => true
  | _ => false

/-- Modelled from the spec: `getArray(key)`, used after the field has been
checked to be an array. -/
def JsonValue.getArray (v : JsonValue) (key : String) : List JsonValue :=
  match v.member key with
  | some (.array a) => a
  | _ => []

/-- A call made by the command handlers on a libprox handler or query.
`registerQuery c q` is the call on the handler of class `c` that returned the
query `q`; `setEventListener q snapshot` carries the state of the proximity
object at the moment of the call (the listener can call back at once). -/
inductive QueryCall (σ : Type) where
  | registerQuery (c : ObjectClass) (pos : TimedMotionVector3f) (bounds : BoundingSphere3f)
      (max_size : float32) (q : ProxQueryPtr)
  | setEventListener (q : ProxQueryPtr) (snapshot : σ)
  | refine (q : ProxQueryPtr) (node : UUID)
  | coarsen (q : ProxQueryPtr) (node : UUID)
  | deleteQuery (q : ProxQueryPtr)

/-- The body of the loop of the `"init"` branch of `handleObjectHostProxMessage`
for class `i`. -/
def initQueryClass (ctx : Context) (id : NodeID) (st : State) (i : ObjectClass) :
    State × List (QueryCall State) :=
  match (st.mOHQueryHandler.get i).handler with
  | none => (st, [])
  | some _ =>
    let pos : TimedMotionVector3f := ⟨ctx.simTime, ⟨0, 0, 0⟩, ⟨0, 0, 0⟩⟩
    let bounds : BoundingSphere3f := ⟨⟨0, 0, 0⟩, 0⟩
    let max_size : float32 := 0
    let q := st.nextQuery
    let st1 := { st with nextQuery := q + 1 }
    let st2 := { st1 with
      mOHQueries := Function.update st1.mOHQueries i
        (Function.update (st1.mOHQueries i) id (some q)) }
    let st3 := { st2 with
      mInvertedOHQueries := Function.update st2.mInvertedOHQueries q (some id) }
    -- Set the listener last since it can trigger callbacks
    (st3, [QueryCall.registerQuery i pos bounds max_size q, QueryCall.setEventListener q st3])

/-- The loop over the classes of the `"init"` branch. -/
def initQueryLoop (ctx : Context) (id : NodeID) :
    List ObjectClass → State → State × List (QueryCall State)
  | [], st => (st, [])
  | i :: rest, st =>
    let r1 := initQueryClass ctx id st i
    let r2 := initQueryLoop ctx id rest r1.1
    (r2.1, r1.2 ++ r2.2)

/-- The conversion loop of the `"refine"` and `"coarsen"` branches: `none` when
an element is not a string (the source returns from the handler), otherwise the
identifiers pushed to the vector. -/
def parseNodes (uuidOfString : String → UUID) : List JsonValue → Option (List UUID)
  | [] => some []
  | .str s :: rest =>
    match parseNodes uuidOfString rest with
    | none => none
    | some l => some (uuidOfString s :: l)
  | _ :: _ => none

/-- The loop over the classes of the `"refine"` (`coarsen = false`) and
`"coarsen"` (`coarsen = true`) branches. -/
def refineQueryLoop (coarsen : Bool) (id : NodeID) (nodes : List UUID) (st : State) :
    List ObjectClass → List (QueryCall State)
  | [] => []
  | kls :: rest =>
    (match (st.mOHQueryHandler.get kls).handler with
      | none => []
      | some _ =>
        match st.mOHQueries kls id with
        | none => []
        | some q =>
          nodes.map (fun n => if coarsen then QueryCall.coarsen q n else QueryCall.refine q n))
      ++ refineQueryLoop coarsen id nodes st rest

/-- The body of the loop of `destroyQuery` for class `i`. -/
def destroyQueryClass (id : NodeID) (st : State) (i : ObjectClass) :
    State × List (QueryCall State) :=
  match (st.mOHQueryHandler.get i).handler with
  | none => (st, [])
  | some _ =>
    match st.mOHQueries i id with
    | none => (st, [])
    | some q =>
      let st1 := { st with
        mOHQueries := Function.update st.mOHQueries i
          (Function.update (st.mOHQueries i) id none) }
      let st2 := { st1 with
        mInvertedOHQueries := Function.update st1.mInvertedOHQueries q none }
      (st2, [QueryCall.deleteQuery q])

/-- The loop over the classes of `destroyQuery`. -/
def destroyQueryLoop (id : NodeID) :
    List ObjectClass → State → State × List (QueryCall State)
  | [], st => (st, [])
  | i :: rest, st =>
    let r1 := destroyQueryClass id st i
    let r2 := destroyQueryLoop id rest r1.1
    (r2.1, r1.2 ++ r2.2)

/-- The function `LibproxManualProximity::destroyQuery`. -/
def destroyQuery (id : NodeID) (st : State) : State × List (QueryCall State) :=
  let r := destroyQueryLoop id objectClasses st
  (((eraseSeqNoInfo id r.1).post (MainStrandTask.handleRemoveAllOHLocSubscription id)), r.2)

/-- The function `LibproxManualProximity::handleObjectHostSessionEnded`. -/
def handleObjectHostSessionEnded (id : NodeID) (st : State) :
    State × List (QueryCall State) :=
  destroyQuery id st

/-- The function `LibproxManualProximity::handleObjectHostProxMessage`.  The
argument `query_params` is the outcome of decoding `data` and reading its
`query_parameters` as JSON (`none` when `json::read` fails); `uuidOfString` is
the constructor `UUID(String, UUID::HumanReadable())`. -/
def handleObjectHostProxMessage (uuidOfString : String → UUID) (ctx : Context)
    (id : NodeID) (query_params : Option JsonValue) (seqNo : SeqNoPtr) (st : State) :
    State × List (QueryCall State) :=
  -- Handle the seqno update
  let st0 :=
    match st.mOHSeqNos id with
    | none => { st with mOHSeqNos := Function.update st.mOHSeqNos id (some seqNo) }
    | some _ => st
  match query_params with
  | none => (st0, [])
  | some params =>
    let action := params.getString "action" ""
    if action.isEmpty then (st0, [])
    else if action = "init" then initQueryLoop ctx id objectClasses st0
    else if action = "refine" then
      if !params.contains "nodes" || !((params.member "nodes").elim false JsonValue.isArray) then
        (st0, [])
      else
        match parseNodes uuidOfString (params.getArray "nodes") with
        | none => (st0, [])
        | some refine_nodes => (st0, refineQueryLoop false id refine_nodes st0 objectClasses)
    else if action = "coarsen" then
      if !params.contains "nodes" || !((params.member "nodes").elim false JsonValue.isArray) then
        (st0, [])
      else
        match parseNodes uuidOfString (params.getArray "nodes") with
        | none => (st0, [])
        | some coarsen_nodes => (st0, refineQueryLoop true id coarsen_nodes st0 objectClasses)
    else if action = "destroy" then destroyQuery id st0
    else (st0, [])

/-- A command that reaches the proximity strand: a message of an object host
with the sequence number pointer of its session, or the end of its session. -/
inductive Command where
  | message (id : NodeID) (query_params : Option JsonValue) (seqNo : SeqNoPtr)
  | sessionEnded (id : NodeID)

/-- One command handled on the proximity strand. -/
def handleCommand (uuidOfString : String → UUID) (ctx : Context) (st : State) :
    Command → State × List (QueryCall State)
  | .message id query_params seqNo =>
    handleObjectHostProxMessage uuidOfString ctx id query_params seqNo st
  | .sessionEnded id => handleObjectHostSessionEnded id st

/-- A sequence of commands handled in order; the call logs are concatenated. -/
def handleCommands (uuidOfString : String → UUID) (ctx : Context) :
    List Command → State → State × List (QueryCall State)
  | [], st => (st, [])
  | c :: rest, st =>
    let r1 := handleCommand uuidOfString ctx st c
    let r2 := handleCommands uuidOfString ctx rest r1.1
    (r2.1, r1.2 ++ r2.2)

/-! ## Query event pipeline -/

/-- The enumeration `QueryEvent::ObjectType` of libprox. -/
inductive QueryEventObjectType where
  | Normal
  | Imposter
  deriving DecidableEq, Repr

/-- The enumeration `QueryEvent::Permanence` of libprox. -/
inductive QueryEventPermanence where
  | Transient
  | Permanent
  deriving DecidableEq, Repr

/-- An addition of a libprox query event: `id()`, `parent()`, `type()`. -/
structure QueryEventAddition where
  id : UUID
  parent : UUID
  type : QueryEventObjectType
  deriving DecidableEq, Repr

/-- A removal of a libprox query event: `id()`, `permanent()`. -/
structure QueryEventRemoval where
  id : UUID
  permanent : QueryEventPermanence
  deriving DecidableEq, Repr

/-- The type `ProxQueryEvent`: `indexID()`, `additions()`, `removals()`. -/
structure ProxQueryEvent where
  indexID : ProxIndexID
  additions : List QueryEventAddition
  removals : List QueryEventRemoval
  deriving DecidableEq, Repr

/-- The type `QueryEventList`. -/
abbrev QueryEventList := List ProxQueryEvent

/-- The object behind a `ProxQuery*`: its address and the address of the
handler returned by `handler()`. -/
structure ProxQuery where
  addr : ProxQueryPtr
  handler : Nat
  deriving DecidableEq, Repr

/-- The part of `CBRLocationServiceCache` read by `queryHasEvents`. -/
structure LocationServiceCache where
  tracking : UUID → Bool
  location : UUID → TimedMotionVector3f
  orientation : UUID → TimedMotionQuaternion
  bounds : UUID → AggregateBoundingInfo
  mesh : UUID → String
  physics : UUID → String

/-- The handler pointer stored in a slot, `0` for `NULL`. -/
def ProxQueryHandlerData.handlerAddr (d : ProxQueryHandlerData) : Nat :=
  match d.handler with
  | none => 0
  | some h => h.addr

/-- The expression `(*seqNoPtr)++` on the 64-bit counter: the value read and
the state with the counter incremented. -/
def State.postIncrSeqNo (st : State) (seqNoPtr : SeqNoPtr) : Nat × State :=
  (st.seqNoValue seqNoPtr,
    { st with
      seqNoValue := Function.update st.seqNoValue seqNoPtr
        ((st.seqNoValue seqNoPtr + 1) % 2 ^ 64) })

/-- The local variables of `queryHasEvents` that change while one event is
processed, next to the state of the proximity object: the counter `count`
(a `uint32`) and the update `event_results` under construction. -/
structure EventWork where
  st : State
  count : Nat
  event_results : ProximityUpdate

/-- The body of the loop over `evt.additions()` for index `aidx`. -/
def queryHasEventsAddition (ctx : Context) (cache : LocationServiceCache)
    (query : ProxQuery) (query_id : NodeID) (seqNoPtr : SeqNoPtr) (evt : ProxQueryEvent)
    (aidx : Nat) (a : QueryEventAddition) (w : EventWork) : Except Failure EventWork :=
  let objid := a.id
  if cache.tracking objid then
    let count := (w.count + 1) % 2 ^ 32
    let st1 := w.st.post (MainStrandTask.handleAddOHLocSubscriptionWithID query_id objid evt.indexID)
    let r := st1.postIncrSeqNo seqNoPtr
    let seqNo := r.1
    let st2 := r.2
    let mesh := cache.mesh objid
    let phy := cache.physics objid
    let addition : ObjectAddition :=
      { object := objid
        seqno := seqNo
        location := cache.location objid
        orientation := cache.orientation objid
        aggregate_bounds := cache.bounds objid
        mesh := if mesh.length > 0 then some mesh else none
        physics := if phy.length > 0 then some phy else none
        parent := none
        type :=
          if a.type = QueryEventObjectType.Normal then AdditionType.Object
          else AdditionType.Aggregate }
    let index_props : IndexProperties :=
      match w.event_results.index_properties with
      | some p => p
      | none => { id := none, index_id := none, dynamic_classification := none }
    let parentid := a.parent
    if parentid ≠ UUID.null then
      .ok { st := st2, count := count,
            event_results := { w.event_results with
              addition := w.event_results.addition ++ [{ addition with parent := some parentid }] } }
    else if aidx = 0 ∧ evt.additions.length = 1 ∧ evt.removals.length = 0 then
      let index_props1 := { index_props with index_id := some (toString ctx.id) }
      if query.handler = (st2.mOHQueryHandler.get OBJECT_CLASS_STATIC).handlerAddr then
        .ok { st := st2, count := count,
              event_results := { w.event_results with
                index_properties := some { index_props1 with
                  dynamic_classification := some DynamicClassification.Static }
                addition := w.event_results.addition ++ [addition] } }
      else if query.handler = (st2.mOHQueryHandler.get OBJECT_CLASS_DYNAMIC).handlerAddr then
        .ok { st := st2, count := count,
              event_results := { w.event_results with
                index_properties := some { index_props1 with
                  dynamic_classification := some DynamicClassification.Dynamic }
                addition := w.event_results.addition ++ [addition] } }
      else .error .assertion
    else
      .ok { st := st2, count := count,
            event_results := { w.event_results with
              addition := w.event_results.addition ++ [addition] } }
  else .ok w

/-- The loop `for(uint32 aidx = 0; aidx < evt.additions().size(); aidx++)`,
from index `aidx` over the additions that remain. -/
def queryHasEventsAdditions (ctx : Context) (cache : LocationServiceCache)
    (query : ProxQuery) (query_id : NodeID) (seqNoPtr : SeqNoPtr) (evt : ProxQueryEvent) :
    Nat → List QueryEventAddition → EventWork → Except Failure EventWork
  | _, [], w => .ok w
  | aidx, a :: rest, w =>
    match queryHasEventsAddition ctx cache query query_id seqNoPtr evt aidx a w with
    | .error e => .error e
    | .ok w1 => queryHasEventsAdditions ctx cache query query_id seqNoPtr evt (aidx + 1) rest w1

/-- The body of the loop over `evt.removals()`. -/
def queryHasEventsRemoval (query_id : NodeID) (seqNoPtr : SeqNoPtr) (evt : ProxQueryEvent)
    (r : QueryEventRemoval) (w : EventWork) : EventWork :=
  let objid := r.id
  let count := (w.count + 1) % 2 ^ 32
  let st1 := w.st.post
    (MainStrandTask.handleRemoveOHLocSubscriptionWithID query_id objid evt.indexID)
  let p := st1.postIncrSeqNo seqNoPtr
  let removal : ObjectRemoval :=
    { object := objid
      seqno := p.1
      type :=
        if r.permanent = QueryEventPermanence.Permanent then RemovalType.Permanent
        else RemovalType.Transient }
  { st := p.2, count := count,
    event_results := { w.event_results with removal := w.event_results.removal ++ [removal] } }

/-- The loop `for(uint32 ridx = 0; ridx < evt.removals().size(); ridx++)`. -/
def queryHasEventsRemovals (query_id : NodeID) (seqNoPtr : SeqNoPtr) (evt : ProxQueryEvent) :
    List QueryEventRemoval → EventWork → EventWork
  | [], w => w
  | r :: rest, w =>
    queryHasEventsRemovals query_id seqNoPtr evt rest
      (queryHasEventsRemoval query_id seqNoPtr evt r w)

/-- The body of the inner `while` loop of `queryHasEvents` for the event at the
front of the list: a new update tagged with the index identifier, then the
additions, then the removals. -/
def queryHasEventsEvent (ctx : Context) (cache : LocationServiceCache)
    (query : ProxQuery) (query_id : NodeID) (seqNoPtr : SeqNoPtr) (evt : ProxQueryEvent)
    (st : State) (count : Nat) : Except Failure EventWork :=
  let event_results : ProximityUpdate :=
    { index_properties :=
        some { id := some evt.indexID, index_id := none, dynamic_classification := none }
      addition := []
      removal := [] }
  match queryHasEventsAdditions ctx cache query query_id seqNoPtr evt 0 evt.additions
      { st := st, count := count, event_results := event_results } with
  | .error e => .error e
  | .ok w => .ok (queryHasEventsRemovals query_id seqNoPtr evt evt.removals w)

/-- The local variables of `queryHasEvents` while one result frame is filled:
the state, the counter, the updates added to `prox_results` so far and the
events still in `evts`. -/
structure FrameWork where
  st : State
  count : Nat
  update : List ProximityUpdate
  evts : QueryEventList

/-- The inner loop `while(count < max_count && !evts.empty())`. -/
def queryHasEventsFrame (ctx : Context) (cache : LocationServiceCache)
    (query : ProxQuery) (query_id : NodeID) (seqNoPtr : SeqNoPtr) (max_count : Nat) :
    QueryEventList → State → Nat → List ProximityUpdate → Except Failure FrameWork
  | [], st, count, update => .ok { st := st, count := count, update := update, evts := [] }
  | evt :: rest, st, count, update =>
    if count < max_count then
      match queryHasEventsEvent ctx cache query query_id seqNoPtr evt st count with
      | .error e => .error e
      | .ok w =>
        queryHasEventsFrame ctx cache query query_id seqNoPtr max_count rest w.st w.count
          (update ++ [w.event_results])
    else .ok { st := st, count := count, update := update, evts := evt :: rest }

/-- The outer loop `while(!evts.empty())`: one result frame per iteration, pushed
to `mOHResults`.  Each iteration uses one unit of fuel. -/
def queryHasEventsLoop (ctx : Context) (cache : LocationServiceCache)
    (query : ProxQuery) (query_id : NodeID) (seqNoPtr : SeqNoPtr) (max_count : Nat) :
    Nat → QueryEventList → State → Except Failure State
  | _, [], st => .ok st
  | 0, _ :: _, _ => .error .outOfFuel
  | fuel + 1, evt :: rest, st =>
    match queryHasEventsFrame ctx cache query query_id seqNoPtr max_count (evt :: rest) st 0 [] with
    | .error e => .error e
    | .ok f =>
      let prox_results : ProximityResults := { t := ctx.simTime, update := f.update }
      let obj_msg := createObjectMessage ctx.id UUID.null OBJECT_PORT_PROXIMITY
        UUID.null OBJECT_PORT_PROXIMITY prox_results
      queryHasEventsLoop ctx cache query query_id seqNoPtr max_count fuel f.evts
        { f.st with mOHResults := f.st.mOHResults ++ [(query_id, obj_msg)] }

/-- The lookup `mInvertedOHQueries[query]`: `operator[]` inserts a default
constructed `OHDP::NodeID` when the query has no entry. -/
def State.invertedOHQuery (st : State) (query : ProxQueryPtr) : NodeID × State :=
  match st.mInvertedOHQueries query with
  | some id => (id, st)
  | none =>
    (NodeID.null,
      { st with
        mInvertedOHQueries := Function.update st.mInvertedOHQueries query (some NodeID.null) })

/-- The function `LibproxManualProximity::queryHasEvents`; `evts` is the list
filled by `query->popEvents(evts)` and `fuel` bounds the number of result
frames. -/
def queryHasEvents (ctx : Context) (cache : LocationServiceCache) (fuel : Nat)
    (query : ProxQuery) (evts : QueryEventList) (st : State) : Except Failure State :=
  let max_count := ctx.PROX_MAX_PER_RESULT
  let r := st.invertedOHQuery query.addr
  let query_id := r.1
  match getSeqNoInfo query_id r.2 with
  | .error e => .error e
  | .ok seqNoPtr => queryHasEventsLoop ctx cache query query_id seqNoPtr max_count fuel evts r.2

/-- The sequence numbers carried by the records of an update, additions first. -/
def ProximityUpdate.seqnos (u : ProximityUpdate) : List Nat :=
  u.addition.map (fun a => a.seqno) ++ u.removal.map (fun r => r.seqno)

/-- The sequence numbers carried by the records of a list of results, in the
order of the results, of their updates and of the records in each update. -/
def resultSeqnos (rs : List OHResult) : List Nat :=
  (rs.map (fun r => (r.2.payload.update.map ProximityUpdate.seqnos).flatten)).flatten

/-- The number of records `queryHasEvents` emits for an event: its additions
whose object is tracked by the cache, and its removals. -/
def ProxQueryEvent.numRecords (cache : LocationServiceCache) (evt : ProxQueryEvent) : Nat :=
  (evt.additions.filter (fun a => cache.tracking a.id)).length + evt.removals.length

/-- The number of records `queryHasEvents` emits for a list of events. -/
def numRecords (cache : LocationServiceCache) (evts : QueryEventList) : Nat :=
  (evts.map (ProxQueryEvent.numRecords cache)).sum

/-! ## Introspection commands -/

/-- The first position of character `c` in a string (`std::string::find`),
`none` for `npos`. -/
def findChar (c : Char) : List Char → Option Nat
  | [] => none
  | x :: rest => if x = c then some 0 else (findChar c rest).map (fun i => i + 1)

/-- The last position of character `c` in a string (`std::string::rfind`),
`none` for `npos`. -/
def rfindChar (c : Char) : List Char → Option Nat
  | [] => none
  | x :: rest =>
    match rfindChar c rest with
    | some i => some (i + 1)
    | none => if x = c then some 0 else none

/-- The arrays of handlers a handler name can select; the object host handlers
`mOHQueryHandler` are the only ones of this class. -/
inductive HandlerArrayRef where
  | mOHQueryHandler
  deriving DecidableEq, Repr

/-- The outcome of `parseHandlerName`: the returned Boolean and the values
written through `handlers_out` and `class_out` (`none` when nothing was
written). -/
structure ParsedHandlerName where
  result : Bool
  handlers_out : Option HandlerArrayRef
  class_out : Option ObjectClass
  deriving DecidableEq, Repr

/-- The function `LibproxManualProximity::parseHandlerName`. -/
def parseHandlerName (name : String) : ParsedHandlerName :=
  -- Should be of the form xxx-queries.yyy-objects, containing only 1 .
  match findChar '.' name.toList with
  | none => { result := false, handlers_out := none, class_out := none }
  | some dot_pos =>
    if rfindChar '.' name.toList ≠ some dot_pos then
      { result := false, handlers_out := none, class_out := none }
    else
      let handler_part := String.mk (name.toList.take dot_pos)
      if handler_part = "oh-queries" then
        let class_part := String.mk (name.toList.drop (dot_pos + 1))
        if class_part = "dynamic-objects" then
          { result := true, handlers_out := some HandlerArrayRef.mOHQueryHandler,
            class_out := some OBJECT_CLASS_DYNAMIC }
        else if class_part = "static-objects" then
          { result := true, handlers_out := some HandlerArrayRef.mOHQueryHandler,
            class_out := some OBJECT_CLASS_STATIC }
        else
          { result := false, handlers_out := some HandlerArrayRef.mOHQueryHandler,
            class_out := none }
      else { result := false, handlers_out := none, class_out := none }

/-- Modelled from the spec: a `Command::Result`, the structured key/value
result of an introspection command, as the list of its fields. -/
abbrev CommandResult := List (String × JsonValue)

/-- Modelled from the spec: `Command::EmptyResult()`. -/
def EmptyResult : CommandResult := []

/-- Modelled from the spec: `result.put(key, value)` sets the field `key`. -/
def CommandResult.put (r : CommandResult) (key : String) (value : JsonValue) : CommandResult :=
  r.filter (fun kv => kv.1 != key) ++ [(key, value)]

/-- Modelled from the spec: the value of the field `key` of a result. -/
def CommandResult.field (r : CommandResult) (key : String) : Option JsonValue :=
  (r.find? (fun kv => kv.1 == key)).map (fun kv => kv.2)

/-- Modelled from the spec: `getString(key)` without a default; the library
throws when the field is not a string. -/
def JsonValue.getStringStrict (v : JsonValue) (key : String) : Except Failure String :=
  match v.member key with
  | some (.str s) => .ok s
  | _ => .error .exception

/-- The function `LibproxManualProximity::commandForceRebuild`.  It returns the
state of the proximity object and the result handed to `cmdr->result`. -/
def commandForceRebuild (cmd : JsonValue) (st : State) :
    Except Failure (State × CommandResult) :=
  let result := EmptyResult
  if !cmd.contains "handler" then
    .ok (st, result.put "error"
      (.str "Ill-formatted request: handler not specified or invalid."))
  else
    match cmd.getStringStrict "handler" with
    | .error e => .error e
    | .ok name =>
      if !(parseHandlerName name).result then
        .ok (st, result.put "error"
          (.str "Ill-formatted request: handler not specified or invalid."))
      else
        .ok (st, result.put "error"
          (.str "Rebuilding manual proximity processors isn't supported yet."))

/-! ## Main thread: shipping the object host results -/

/-- The loop `while(!mOHResultsToSend.empty())` of `poll`: the front result is
passed to `sendObjectHostResult`, its message is deleted and it is popped.
Returns the queue that is left and the `sendObjectHostResult` calls in call
order. -/
def pollSendLoop : List OHResult → List OHResult × List OHResult
  | [] => ([], [])
  | msg_front :: rest =>
    let r := pollSendLoop rest
    (r.1, msg_front :: r.2)

/-- The function `LibproxManualProximity::poll`.  The call `sendQueryRequests()`
only logs a warning per server and writes no member modelled here.  Then
`mOHResults` is swapped with an empty deque, the results taken are appended to
`mOHResultsToSend`, and that queue is sent from the front.  Returns the new
state and the log of the `sendObjectHostResult` calls (a function of the base
class that queues the message on the stream of the node). -/
def poll (st : State) : State × List OHResult :=
  let oh_results_copy := st.mOHResults
  let st1 := { st with
    mOHResults := []
    mOHResultsToSend := st.mOHResultsToSend ++ oh_results_copy }
  let r := pollSendLoop st1.mOHResultsToSend
  ({ st1 with mOHResultsToSend := r.1 }, r.2)

/-! ## Notions used to state the properties -/

/-- Whether the handler stored in a slot takes an object: the admission callback
the constructor installed in it, `false` for a null slot. -/
def ProxQueryHandlerData.takesObject (d : ProxQueryHandlerData)
    (mSeparateDynamicObjects : Bool) (velocityIsStatic : Vector3f → Bool)
    (obj_id : UUID) (is_local is_aggregate : Bool) (pos : TimedMotionVector3f)
    (region : BoundingSphere3f) (maxSize : float32) : Bool :=
  match d.handler with
  | none => false
  | some h =>
    h.shouldHandleObject mSeparateDynamicObjects velocityIsStatic obj_id is_local is_aggregate
      pos region maxSize

/-- In a call log, some call `a` is made before some call `b`. -/
def occursBefore (a b : HandlerCall) (log : List HandlerCall) : Prop :=
  ∃ l1 l2 l3, log = l1 ++ a :: l2 ++ b :: l3

/-- The class swapped out of by a request with the given `is_static`. -/
def swapOut (is_static : Bool) : ObjectClass :=
  if is_static then OBJECT_CLASS_DYNAMIC else OBJECT_CLASS_STATIC

/-- The class swapped into by a request with the given `is_static`. -/
def swapIn (is_static : Bool) : ObjectClass :=
  if is_static then OBJECT_CLASS_STATIC else OBJECT_CLASS_DYNAMIC

/-- A call log is drained in three global phases: no `tick` call is made before
a `removeObject` call and no `addObject` call is made before a `tick` call,
whatever the handlers of the calls. -/
def drainedInPhases (log : List HandlerCall) : Prop :=
  (∀ c o f c2, ¬ occursBefore (HandlerCall.tick c2) (HandlerCall.removeObject c o f) log) ∧
  (∀ c o c2, ¬ occursBefore (HandlerCall.addObject c o) (HandlerCall.tick c2) log)

/-- A call log is drained in three phases handler by handler: on each handler
no `tick` is made before a `removeObject` and no `addObject` before a `tick`. -/
def drainedPerHandler (log : List HandlerCall) : Prop :=
  (∀ c o f, ¬ occursBefore (HandlerCall.tick c) (HandlerCall.removeObject c o f) log) ∧
  (∀ c o, ¬ occursBefore (HandlerCall.addObject c o) (HandlerCall.tick c) log)

/-- The calls `tickQueryHandler` makes on the handler of a slot of class `i`:
none for a null slot, otherwise one `removeObject` per pending removal, the
`tick`, one `addObject` per pending addition. -/
def classCalls (d : ProxQueryHandlerData) (i : ObjectClass) : List HandlerCall :=
  match d.handler with
  | none => []
  | some _ =>
    d.removals.map (fun o => HandlerCall.removeObject i o true)
      ++ [HandlerCall.tick i]
      ++ d.additions.map (fun o => HandlerCall.addObject i o)

/-- The handler array after a swap of `objid` has been recorded: `objid` is
inserted into the removals of the swap-out class and the additions of the
swap-in class. -/
def recordSwap (objid : UUID) (is_static : Bool) (handlers : HandlerArray) : HandlerArray :=
  (handlers.set (swapOut is_static)
      { handlers.get (swapOut is_static) with
        removals := (handlers.get (swapOut is_static)).removals.insert objid }).set
    (swapIn is_static)
    { (handlers.set (swapOut is_static)
          { handlers.get (swapOut is_static) with
            removals := (handlers.get (swapOut is_static)).removals.insert objid }).get
        (swapIn is_static) with
      additions :=
        ((handlers.set (swapOut is_static)
          { handlers.get (swapOut is_static) with
            removals := (handlers.get (swapOut is_static)).removals.insert objid }).get
          (swapIn is_static)).additions.insert objid }

/-- The class of the handler a call is made on. -/
def HandlerCall.objectClass : HandlerCall → ObjectClass
  | .removeObject c _ _ => c
  | .tick c => c
  | .addObject c _ => c

/-- A static handler that holds object `7`. -/
def exampleStaticHandler : ProxQueryHandler :=
  { addr := 1, objects := [7], staticOnly := true, replicated := false,
    boundIsStaticHandler := true, boundIsGlobalHandler := false }

/-- A dynamic handler that holds object `9`. -/
def exampleDynamicHandler : ProxQueryHandler :=
  { addr := 2, objects := [9], staticOnly := false, replicated := false,
    boundIsStaticHandler := false, boundIsGlobalHandler := false }

/-- A handler array with both handlers: object `7` is in the static handler,
object `9` in the dynamic handler, and all buckets are empty. -/
def exampleHandlers : HandlerArray :=
  { staticData := { handler := some exampleStaticHandler, additions := [], removals := [] }
    dynamicData := { handler := some exampleDynamicHandler, additions := [], removals := [] } }

/-- The handler array `exampleHandlers` with a swap of object `7` from the static
to the dynamic handler pending, as recorded by
`handleCheckObjectClassForHandlers 7 false`. -/
def examplePendingToDynamic : HandlerArray :=
  { staticData := { exampleHandlers.staticData with removals := [7] }
    dynamicData := { exampleHandlers.dynamicData with additions := [7] } }

/-- The handler array `exampleHandlers` with a swap of object `9` from the dynamic
to the static handler pending, as recorded by
`handleCheckObjectClassForHandlers 9 true`. -/
def examplePendingToStatic : HandlerArray :=
  { staticData := { exampleHandlers.staticData with additions := [9] }
    dynamicData := { exampleHandlers.dynamicData with removals := [9] } }

/-- The effect of tearing down client `id`, from state `st` to state `st2`: in
every class with a handler `mOHQueries` has no entry for `id` and the query that
was stored there is gone from `mInvertedOHQueries`; `mOHSeqNos` has no entry for
`id`; the entries of every other client in `mOHQueries` and `mOHSeqNos` are
unchanged, and so is the entry in `mInvertedOHQueries` of every query that was
not stored for `id`. -/
def clientDestroyed (id : NodeID) (st st2 : State) : Prop :=
  (∀ c, (st.mOHQueryHandler.get c).handler ≠ none → st2.mOHQueries c id = none) ∧
  (∀ c q, (st.mOHQueryHandler.get c).handler ≠ none → st.mOHQueries c id = some q →
    st2.mInvertedOHQueries q = none) ∧
  st2.mOHSeqNos id = none ∧
  (∀ id2, id2 ≠ id →
    (∀ c, st2.mOHQueries c id2 = st.mOHQueries c id2) ∧ st2.mOHSeqNos id2 = st.mOHSeqNos id2) ∧
  (∀ q, (∀ c, st.mOHQueries c id ≠ some q) →
    st2.mInvertedOHQueries q = st.mInvertedOHQueries q)

/-- The queries returned by the `registerQuery` calls of a log on the handler of
class `c`, in call order. -/
def registeredQueries {σ : Type} (c : ObjectClass) : List (QueryCall σ) → List ProxQueryPtr
  | [] => []
  | .registerQuery c2 _ _ _ q :: rest =>
    if c2 = c then q :: registeredQueries c rest else registeredQueries c rest
  | _ :: rest => registeredQueries c rest

/-- The states of the proximity object at the `setEventListener` calls of a log
on query `q`, in call order. -/
def listenerSnapshots {σ : Type} (q : ProxQueryPtr) : List (QueryCall σ) → List σ
  | [] => []
  | .setEventListener q2 snapshot :: rest =>
    if q2 = q then snapshot :: listenerSnapshots q rest else listenerSnapshots q rest
  | _ :: rest => listenerSnapshots q rest

/-- The command `{"action": "init"}`. -/
def exampleInit : JsonValue := .object [("action", .str "init")]

/-- The command `{"action": "destroy"}`. -/
def exampleDestroy : JsonValue := .object [("action", .str "destroy")]

/-- A context: time `100`, server `4`, at most two entries per result. -/
def exampleContext : Context := { simTime := 100, id := 4, PROX_MAX_PER_RESULT := 2 }

/-- Client `55` sends `init` twice and then `destroy`, on a session whose sequence
number counter is at address `77`. -/
def exampleDoubleInit : List Command :=
  [Command.message 55 (some exampleInit) 77, Command.message 55 (some exampleInit) 77,
    Command.message 55 (some exampleDestroy) 77]

/-- The state reached from the constructor (split enabled, two handlers, all
counters at `0`) by the commands `exampleDoubleInit`. -/
def exampleAfterDoubleInit : State :=
  (handleCommands (fun _ => 0) exampleContext exampleDoubleInit
    (construct true 2 (fun _ => 0))).1

/-- A location cache that tracks every object except `13`. -/
def exampleCache : LocationServiceCache :=
  { tracking := fun o => o != 13
    location := fun _ => ⟨0, ⟨0, 0, 0⟩, ⟨0, 0, 0⟩⟩
    orientation := fun _ => ⟨0, ⟨0, 0, 0, 0⟩, ⟨0, 0, 0, 0⟩⟩
    bounds := fun _ => ⟨⟨0, 0, 0⟩, 0, 0⟩
    mesh := fun _ => ""
    physics := fun _ => "" }

/-- A sequence of `queryHasEvents` calls made one after the other; each call comes
with its fuel, its query and the events popped from the query. -/
def queryHasEventsCalls (ctx : Context) (cache : LocationServiceCache) :
    List (Nat × ProxQuery × QueryEventList) → State → Except Failure State
  | [], st => .ok st
  | call :: rest, st =>
    match queryHasEvents ctx cache call.1 call.2.1 call.2.2 st with
    | .error e => .error e
    | .ok st1 => queryHasEventsCalls ctx cache rest st1

/-- The number of records emitted by a sequence of `queryHasEvents` calls. -/
def numRecordsCalls (cache : LocationServiceCache) (calls : List (Nat × ProxQuery × QueryEventList)) :
    Nat :=
  (calls.map (fun call => numRecords cache call.2.2)).sum

/-- The members that `queryHasEvents` reads but does not write are the same in
two states. -/
def sameQueryMaps (st st2 : State) : Prop :=
  st2.mOHQueryHandler = st.mOHQueryHandler ∧
  st2.mInvertedOHQueries = st.mInvertedOHQueries ∧
  st2.mOHSeqNos = st.mOHSeqNos ∧
  st2.mOHQueries = st.mOHQueries

/-- The query was registered with one of the two object host handlers. -/
def ProxQuery.ofHandlers (query : ProxQuery) (st : State) : Prop :=
  query.handler = (st.mOHQueryHandler.get OBJECT_CLASS_STATIC).handlerAddr ∨
  query.handler = (st.mOHQueryHandler.get OBJECT_CLASS_DYNAMIC).handlerAddr

/-- Three events of index `3`: the lone addition of the root `11`; the additions
of `12`, `13` (not tracked by `exampleCache`) and `14` under `11` with the
removal of `20`; the removal of `21`. -/
def exampleEvents : QueryEventList :=
  [ { indexID := 3, additions := [⟨11, 0, .Normal⟩], removals := [] },
    { indexID := 3
      additions := [⟨12, 11, .Normal⟩, ⟨13, 11, .Normal⟩, ⟨14, 11, .Imposter⟩]
      removals := [⟨20, .Permanent⟩] },
    { indexID := 3, additions := [], removals := [⟨21, .Transient⟩] } ]

/-- The state after the constructor (split enabled, two handlers, all counters
at `10`) and one `init` of client `55`, whose counter is at address `77`. -/
def exampleAfterInit : State :=
  (handleObjectHostProxMessage (fun _ => 0) exampleContext 55 (some exampleInit) 77
    (construct true 2 (fun _ => 10))).1

/-- The queries of client `id`, in class order: for each class with a handler,
the query stored in `mOHQueries` for `id`, if any. -/
def clientQueries (st : State) (id : NodeID) : List ObjectClass → List ProxQueryPtr
  | [] => []
  | c :: rest =>
    (match (st.mOHQueryHandler.get c).handler, st.mOHQueries c id with
      | some _, some q => [q]
      | _, _ => []) ++ clientQueries st id rest

/-- The state after the first statement of `handleObjectHostProxMessage`: the
sequence number pointer passed with the message is stored for client `id` unless
the client already has one. -/
def State.withSeqNo (st : State) (id : NodeID) (seqNo : SeqNoPtr) : State :=
  match st.mOHSeqNos id with
  | none => { st with mOHSeqNos := Function.update st.mOHSeqNos id (some seqNo) }
  | some _ => st

/-- Whether a JSON value is a string (`isString()`). -/
def JsonValue.isString : JsonValue → Bool
  | .str _ => true
  | _ => false

/-- Whether a message is a well-formed command with action `"destroy"`. -/
def isDestroyMessage (query_params : Option JsonValue) : Bool :=
  match query_params with
  | none => false
  | some params => decide (params.getString "action" "" = "destroy")

/-- Whether a message is dropped without looking at the queries: its
`query_parameters` is not valid JSON, or its action is missing, empty, or none
of `init`, `refine`, `coarsen`, `destroy`. -/
def isIgnoredMessage (query_params : Option JsonValue) : Bool :=
  match query_params with
  | none => true
  | some params =>
    decide (params.getString "action" "" ≠ "init" ∧ params.getString "action" "" ≠ "refine" ∧
      params.getString "action" "" ≠ "coarsen" ∧ params.getString "action" "" ≠ "destroy")

/-- The command `{"action": "refine", "nodes": ["a", "b"]}`. -/
def exampleRefine : JsonValue :=
  .object [("action", .str "refine"), ("nodes", .array [.str "a", .str "b"])]

/-- The command `{"action": "coarsen", "nodes": ["a", 1, "b"]}`, whose second node
is not a string. -/
def exampleBadCoarsen : JsonValue :=
  .object [("action", .str "coarsen"), ("nodes", .array [.str "a", .int 1, .str "b"])]

/-- The command `{"action": "jump"}`, whose action is unknown. -/
def exampleUnknown : JsonValue := .object [("action", .str "jump")]

/-- A conversion of node names to identifiers: the length of the name. -/
def exampleUuidOfString (s : String) : UUID := s.length

/-- The introspection command `{"handler": "oh-queries.static-objects"}`. -/
def exampleForceRebuild : JsonValue :=
  .object [("handler", .str "oh-queries.static-objects")]

/-- An addition record with its sequence number set to `0`. -/
def ObjectAddition.clearSeqno (a : ObjectAddition) : ObjectAddition := { a with seqno := 0 }

/-- A removal record with its sequence number set to `0`. -/
def ObjectRemoval.clearSeqno (r : ObjectRemoval) : ObjectRemoval := { r with seqno := 0 }

/-- An update with the sequence numbers of its records set to `0`. -/
def ProximityUpdate.clearSeqnos (u : ProximityUpdate) : ProximityUpdate :=
  { u with
    addition := u.addition.map ObjectAddition.clearSeqno
    removal := u.removal.map ObjectRemoval.clearSeqno }

/-- The addition record described for an addition of an event, apart from its
sequence number: the object, its data from the location cache, the parent if it
is not null, and the type. -/
def expectedAddition (cache : LocationServiceCache) (a : QueryEventAddition) : ObjectAddition :=
  { object := a.id
    seqno := 0
    location := cache.location a.id
    orientation := cache.orientation a.id
    aggregate_bounds := cache.bounds a.id
    mesh := if (cache.mesh a.id).length > 0 then some (cache.mesh a.id) else none
    physics := if (cache.physics a.id).length > 0 then some (cache.physics a.id) else none
    parent := if a.parent ≠ UUID.null then some a.parent else none
    type :=
      if a.type = QueryEventObjectType.Normal then AdditionType.Object
      else AdditionType.Aggregate }

/-- The removal record described for a removal of an event, apart from its
sequence number. -/
def expectedRemoval (r : QueryEventRemoval) : ObjectRemoval :=
  { object := r.id
    seqno := 0
    type :=
      if r.permanent = QueryEventPermanence.Permanent then RemovalType.Permanent
      else RemovalType.Transient }

/-- An initial root announcement that is emitted: the event consists of exactly
one addition, with a null parent and a tracked object, and of no removal. -/
def ProxQueryEvent.isLoneRootAddition (cache : LocationServiceCache) (evt : ProxQueryEvent) :
    Bool :=
  match evt.additions with
  | [a] => cache.tracking a.id && decide (a.parent = UUID.null) &&
      decide (evt.removals.length = 0)
  | _ => false

/-- The update described for an event, apart from the sequence numbers: the index
identifier, the server identifier and the classification for an initial root
announcement, the tracked additions in order and the removals in order. -/
def expectedUpdate (ctx : Context) (cache : LocationServiceCache) (query : ProxQuery)
    (qh : HandlerArray) (evt : ProxQueryEvent) : ProximityUpdate :=
  { index_properties := some
      { id := some evt.indexID
        index_id := if evt.isLoneRootAddition cache then some (toString ctx.id) else none
        dynamic_classification :=
          if evt.isLoneRootAddition cache then
            some (if query.handler = (qh.get OBJECT_CLASS_STATIC).handlerAddr then
              DynamicClassification.Static else DynamicClassification.Dynamic)
          else none }
    addition := (evt.additions.filter (fun a => cache.tracking a.id)).map (expectedAddition cache)
    removal := evt.removals.map expectedRemoval }

/-- The loc-subscription tasks described for an event of a query of client
`query_id`: an add-subscription per tracked addition, then a remove-subscription
per removal, each with the object and the index identifier of the event. -/
def eventSubscriptions (query_id : NodeID) (cache : LocationServiceCache)
    (evt : ProxQueryEvent) : List MainStrandTask :=
  (evt.additions.filter (fun a => cache.tracking a.id)).map
      (fun a => MainStrandTask.handleAddOHLocSubscriptionWithID query_id a.id evt.indexID) ++
    evt.removals.map
      (fun r => MainStrandTask.handleRemoveOHLocSubscriptionWithID query_id r.id evt.indexID)

/-- The number of addition and removal entries of an update. -/
def ProximityUpdate.numEntries (u : ProximityUpdate) : Nat :=
  u.addition.length + u.removal.length

/-- The index identifier an update is tagged with (`0` if it has none). -/
def ProximityUpdate.indexID (u : ProximityUpdate) : ProxIndexID :=
  match u.index_properties with
  | some p => p.id.getD 0
  | none => 0

/-- The loc-subscription tasks that correspond to the records of an update sent
to `client`: an add-subscription per addition record, then a remove-subscription
per removal record. -/
def ProximityUpdate.subscriptions (client : NodeID) (u : ProximityUpdate) :
    List MainStrandTask :=
  u.addition.map
      (fun a => MainStrandTask.handleAddOHLocSubscriptionWithID client a.object u.indexID) ++
    u.removal.map
      (fun r => MainStrandTask.handleRemoveOHLocSubscriptionWithID client r.object u.indexID)

/-- The updates of a list of results, in the order of the results. -/
def frameUpdates (rs : List OHResult) : List ProximityUpdate :=
  (rs.map (fun r => r.2.payload.update)).flatten

/-- The number of entries of each result of a computation (none if it failed). -/
def resultEntries (r : Except Failure State) : List (List Nat) :=
  match r with
  | .ok st => st.mOHResults.map (fun f => f.2.payload.update.map ProximityUpdate.numEntries)
  | .error _ => []

/-- The index properties of the updates of each result of a computation (none if
it failed). -/
def resultIndexProperties (r : Except Failure State) : List (List (Option IndexProperties)) :=
  match r with
  | .ok st => st.mOHResults.map (fun f => f.2.payload.update.map (fun u => u.index_properties))
  | .error _ => []

/-- The local variables of `queryHasEvents` when the processing of an event
starts: a new update tagged with the index identifier of the event. -/
def EventWork.start (st : State) (count : Nat) (evt : ProxQueryEvent) : EventWork :=
  { st := st, count := count,
    event_results :=
      { index_properties :=
          some { id := some evt.indexID, index_id := none, dynamic_classification := none }
        addition := []
        removal := [] } }

/-- A sequence of `handleCheckObjectClassForHandlers` calls on the same handler
array, one per `(objid, is_static)` pair, in order; the sequence stops at the
first call that fails. -/
def handleCheckCalls : List (UUID × Bool) → HandlerArray → Except Failure HandlerArray
  | [], qh => .ok qh
  | (o, is_static) :: rest, qh =>
    match handleCheckObjectClassForHandlers o is_static qh with
    | .error e => .error e
    | .ok qh1 => handleCheckCalls rest qh1

/-- A swap of object `o` towards the class asked for by `is_static` is pending:
`o` is in the handler it is swapped out of and not in the handler it is swapped
into, it is in the removals bucket of the swap-out class and in the additions
bucket of the swap-in class. -/
def swapPending (o : UUID) (is_static : Bool) (qh : HandlerArray) : Prop :=
  o ∈ qh.objectsOf (swapOut is_static) ∧ o ∉ qh.objectsOf (swapIn is_static) ∧
  o ∈ (qh.get (swapOut is_static)).removals ∧ o ∈ (qh.get (swapIn is_static)).additions

/-- The other object class. -/
def ObjectClass.other : ObjectClass → ObjectClass
  | OBJECT_CLASS_STATIC => OBJECT_CLASS_DYNAMIC
  | OBJECT_CLASS_DYNAMIC => OBJECT_CLASS_STATIC

/-- The buckets of a handler array are consistent with the contents of its
handlers: every object in the additions bucket of a class is absent from the
handler of the class and present in the handler of the other class, every
object in the removals bucket of a class is present in the handler of the
class, and no object is in both buckets of a class. -/
def bucketsConsistent (qh : HandlerArray) : Prop :=
  ∀ c, (∀ x ∈ (qh.get c).additions, x ∉ qh.objectsOf c ∧ x ∈ qh.objectsOf c.other) ∧
    (∀ x ∈ (qh.get c).removals, x ∈ qh.objectsOf c) ∧
    (∀ x, ¬ (x ∈ (qh.get c).additions ∧ x ∈ (qh.get c).removals))

/-- The handler pointers of a handler array. -/
def HandlerArray.handlers (qh : HandlerArray) : ObjectClass → Option ProxQueryHandler :=
  fun c => (qh.get c).handler

/-- The effect of a logged call on the handlers it is made on. -/
def HandlerCall.apply (simT : Time) (hs : ObjectClass → Option ProxQueryHandler) :
    HandlerCall → ObjectClass → Option ProxQueryHandler
  | .removeObject c o f => Function.update hs c ((hs c).map (fun h => h.removeObject o f))
  | .tick c => Function.update hs c ((hs c).map (fun h => h.tick simT))
  | .addObject c o => Function.update hs c ((hs c).map (fun h => h.addObject o))

/-- Replaying a call log from the given handlers, every `addObject` call is made
for an object that its handler does not contain at the time of the call. -/
def addsOnlyAbsent (simT : Time) :
    (ObjectClass → Option ProxQueryHandler) → List HandlerCall → Bool
  | _, [] => true
  | hs, call :: rest =>
    (match call with
      | .addObject c o =>
        (match hs c with
          | some h => !h.containsObject o
          | none => true)
      | _ => true) && addsOnlyAbsent simT (call.apply simT hs) rest

/-! ## Object admission: theorems -/

section Admission

variable (velocityIsStatic : Vector3f → Bool)

/-- C6: a local-only handler refuses replicas.  For every object id, position
and velocity, region, max size, aggregate flag, static-handler flag and value of
`mSeparateDynamicObjects`, `handlerShouldHandleObject` called with
`is_global_handler = false` and `is_local = false` returns `false`. -/
theorem handlerShouldHandleObject_local_handler_refuses_replica
    (mSeparateDynamicObjects is_static_handler : Bool) (obj_id : UUID) (is_aggregate : Bool)
    (pos : TimedMotionVector3f) (region : BoundingSphere3f) (maxSize : float32) :
    handlerShouldHandleObject mSeparateDynamicObjects velocityIsStatic is_static_handler false
      obj_id false is_aggregate pos region maxSize = false := by
  simp [handlerShouldHandleObject]

/-- C7: for an object that passes the local/replica vote, with
`mSeparateDynamicObjects` enabled `handlerShouldHandleObject` returns `true`
exactly when `velocityIsStatic` of the velocity equals `is_static_handler` (so a
static-only handler refuses a velocity that is not static and a dynamic-only
handler refuses a static one); with `mSeparateDynamicObjects` disabled the
object is taken whatever `velocityIsStatic` says. -/
theorem handlerShouldHandleObject_velocity_vote
    (is_static_handler is_global_handler : Bool) (obj_id : UUID)
    (is_local is_aggregate : Bool) (pos : TimedMotionVector3f) (region : BoundingSphere3f)
    (maxSize : float32) (hvote : is_local = true ∨ is_global_handler = true) :
    (handlerShouldHandleObject true velocityIsStatic is_static_handler is_global_handler
        obj_id is_local is_aggregate pos region maxSize = true
      ↔ velocityIsStatic pos.velocity = is_static_handler) ∧
    (is_static_handler = true → velocityIsStatic pos.velocity = false →
      handlerShouldHandleObject true velocityIsStatic is_static_handler is_global_handler
        obj_id is_local is_aggregate pos region maxSize = false) ∧
    (is_static_handler = false → velocityIsStatic pos.velocity = true →
      handlerShouldHandleObject true velocityIsStatic is_static_handler is_global_handler
        obj_id is_local is_aggregate pos region maxSize = false) ∧
    (∀ otherVelocityIsStatic : Vector3f → Bool,
      handlerShouldHandleObject false otherVelocityIsStatic is_static_handler is_global_handler
        obj_id is_local is_aggregate pos region maxSize = true) := by
  rcases hvote with h | h <;> subst h <;>
    cases is_static_handler <;> cases hv : velocityIsStatic pos.velocity <;>
    simp [handlerShouldHandleObject, hv]

end Admission

/-- C7, at a concrete input: a local object with a static velocity and the
static-only handler. -/
theorem handlerShouldHandleObject_velocity_vote_witness :
    (handlerShouldHandleObject true (fun v => decide (v.x = 0)) true false 5 true false
        ⟨0, ⟨1, 2, 3⟩, ⟨0, 0, 0⟩⟩ ⟨⟨0, 0, 0⟩, 0⟩ 0 = true
      ↔ (fun v : Vector3f => decide (v.x = 0)) (⟨0, ⟨1, 2, 3⟩, ⟨0, 0, 0⟩⟩ : TimedMotionVector3f).velocity
          = true) :=
  (handlerShouldHandleObject_velocity_vote (fun v => decide (v.x = 0)) true false 5 true false
    ⟨0, ⟨1, 2, 3⟩, ⟨0, 0, 0⟩⟩ ⟨⟨0, 0, 0⟩, 0⟩ 0 (Or.inl rfl)).1

/-- C5, as stated, fails: with `mSeparateDynamicObjects = false` and two
handlers, both handler instances built by the constructor take a local
object. -/
theorem constructHandlers_both_take_local_object :
    (constructHandlers false 2).staticData.handler.isSome = true ∧
    (constructHandlers false 2).dynamicData.handler.isSome = true ∧
    (constructHandlers false 2).staticData.takesObject false (fun _ => true) 5 true false
      ⟨0, ⟨1, 2, 3⟩, ⟨0, 0, 0⟩⟩ ⟨⟨0, 0, 0⟩, 0⟩ 0 = true ∧
    (constructHandlers false 2).dynamicData.takesObject false (fun _ => true) 5 true false
      ⟨0, ⟨1, 2, 3⟩, ⟨0, 0, 0⟩⟩ ⟨⟨0, 0, 0⟩, 0⟩ 0 = true := by
  decide

/-- C5, amended: with `mSeparateDynamicObjects` enabled, for every object
(local or replica), every velocity and every number of handlers, at most one of
the two handler instances built by the constructor takes the object; with
`mSeparateDynamicObjects` disabled every handler instance that exists takes
every local object and none takes a replica. -/
theorem constructHandlers_takesObject (velocityIsStatic : Vector3f → Bool)
    (mNumQueryHandlers : Int) (obj_id : UUID) (is_local is_aggregate : Bool)
    (pos : TimedMotionVector3f) (region : BoundingSphere3f) (maxSize : float32) :
    ¬ ((constructHandlers true mNumQueryHandlers).staticData.takesObject true velocityIsStatic
          obj_id is_local is_aggregate pos region maxSize = true ∧
        (constructHandlers true mNumQueryHandlers).dynamicData.takesObject true velocityIsStatic
          obj_id is_local is_aggregate pos region maxSize = true) ∧
    (∀ c : ObjectClass,
      ((constructHandlers false mNumQueryHandlers).get c).takesObject false velocityIsStatic
          obj_id is_local is_aggregate pos region maxSize
        = (((constructHandlers false mNumQueryHandlers).get c).handler.isSome && is_local)) := by
  constructor
  · simp only [constructHandlers, constructHandler, ProxQueryHandlerData.takesObject,
      ProxQueryHandler.shouldHandleObject, handlerShouldHandleObject]
    cases hv : velocityIsStatic pos.velocity <;> cases is_local <;>
      by_cases h0 : OBJECT_CLASS_STATIC.toInt ≥ mNumQueryHandlers <;>
      by_cases h1 : OBJECT_CLASS_DYNAMIC.toInt ≥ mNumQueryHandlers <;>
      simp [h0, h1, hv]
  · intro c
    cases c <;> cases is_local <;>
      simp only [constructHandlers, constructHandler, ProxQueryHandlerData.takesObject,
        ProxQueryHandler.shouldHandleObject, handlerShouldHandleObject, HandlerArray.get] <;>
      split_ifs <;> simp_all

/-! ## Swaps between the static and the dynamic handler: lemmas -/

theorem occursBefore_nil (a b : HandlerCall) : ¬ occursBefore a b [] := by
  rintro ⟨l1, l2, l3, h⟩
  have := congrArg List.length h
  simp at this
  omega

theorem occursBefore_cons (a b x : HandlerCall) (l : List HandlerCall) :
    occursBefore a b (x :: l) ↔ (x = a ∧ b ∈ l) ∨ occursBefore a b l := by
  constructor
  · rintro ⟨l1, l2, l3, h⟩
    cases l1 with
    | nil =>
      simp only [List.nil_append, List.cons_append, List.cons.injEq] at h
      exact Or.inl ⟨h.1, by rw [h.2]; simp⟩
    | cons y l1 =>
      simp only [List.cons_append, List.cons.injEq] at h
      exact Or.inr ⟨l1, l2, l3, by simpa using h.2⟩
  · rintro (⟨rfl, hb⟩ | ⟨l1, l2, l3, h⟩)
    · obtain ⟨s, t, rfl⟩ := List.append_of_mem hb
      exact ⟨[], s, t, by simp⟩
    · exact ⟨x :: l1, l2, l3, by simp [h]⟩

theorem occursBefore_append (a b : HandlerCall) (xs ys : List HandlerCall) :
    occursBefore a b (xs ++ ys) ↔
      occursBefore a b xs ∨ (a ∈ xs ∧ b ∈ ys) ∨ occursBefore a b ys := by
  induction xs with
  | nil => simp [occursBefore_nil]
  | cons x xs ih =>
    simp only [List.cons_append, occursBefore_cons, ih, List.mem_append, List.mem_cons]
    constructor
    · rintro (⟨rfl, h | h⟩ | h | ⟨h1, h2⟩ | h)
      · exact Or.inl (Or.inl ⟨rfl, h⟩)
      · exact Or.inr (Or.inl ⟨Or.inl rfl, h⟩)
      · exact Or.inl (Or.inr h)
      · exact Or.inr (Or.inl ⟨Or.inr h1, h2⟩)
      · exact Or.inr (Or.inr h)
    · rintro ((⟨rfl, h⟩ | h) | ⟨h1 | h1, h2⟩ | h)
      · exact Or.inl ⟨rfl, Or.inl h⟩
      · exact Or.inr (Or.inl h)
      · exact Or.inl ⟨h1.symm, Or.inr h2⟩
      · exact Or.inr (Or.inr (Or.inl ⟨h1, h2⟩))
      · exact Or.inr (Or.inr (Or.inr h))

theorem occursBefore_mem_left {a b : HandlerCall} {l : List HandlerCall}
    (h : occursBefore a b l) : a ∈ l := by
  obtain ⟨l1, l2, l3, rfl⟩ := h
  simp

theorem occursBefore_mem_right {a b : HandlerCall} {l : List HandlerCall}
    (h : occursBefore a b l) : b ∈ l := by
  obtain ⟨l1, l2, l3, rfl⟩ := h
  simp

theorem mem_insert_iff (s : ObjectIDSet) (o x : UUID) :
    x ∈ s.insert o ↔ x ∈ s ∨ x = o := by
  unfold ObjectIDSet.insert
  split
  · constructor
    · exact Or.inl
    · rintro (h | rfl)
      · exact h
      · assumption
  · simp

theorem get_set (qh : HandlerArray) (c c2 : ObjectClass) (d : ProxQueryHandlerData) :
    (qh.set c d).get c2 = if c2 = c then d else qh.get c2 := by
  cases c <;> cases c2 <;> simp [HandlerArray.set, HandlerArray.get]

theorem objectsOf_of_handler {qh : HandlerArray} {c : ObjectClass} {h : ProxQueryHandler}
    (hc : (qh.get c).handler = some h) : qh.objectsOf c = h.objects := by
  simp [HandlerArray.objectsOf, hc]

/-- The outcome of `handleCheckObjectClassForHandlers` when both handlers exist:
nothing if the object is in the handler asked for, a recorded swap if it is in
the other one, a failed assertion if it is in neither. -/
theorem handleCheck_eq (o : UUID) (is_static : Bool) (qh : HandlerArray)
    {hs hd : ProxQueryHandler}
    (hS : (qh.get OBJECT_CLASS_STATIC).handler = some hs)
    (hD : (qh.get OBJECT_CLASS_DYNAMIC).handler = some hd) :
    handleCheckObjectClassForHandlers o is_static qh =
      if o ∈ qh.objectsOf (swapIn is_static) then .ok qh
      else if o ∈ qh.objectsOf (swapOut is_static) then .ok (recordSwap o is_static qh)
      else .error .assertion := by
  cases is_static <;>
    by_cases h1 : o ∈ hs.objects <;> by_cases h2 : o ∈ hd.objects <;>
    simp [handleCheckObjectClassForHandlers, HandlerArray.containsObject, andThen, orElse,
      hS, hD, swapIn, swapOut, recordSwap, HandlerArray.objectsOf,
      ProxQueryHandler.containsObject, h1, h2]

theorem recordSwap_handler (o : UUID) (is_static : Bool) (qh : HandlerArray) (c : ObjectClass) :
    ((recordSwap o is_static qh).get c).handler = (qh.get c).handler := by
  cases is_static <;> cases c <;>
    simp [recordSwap, swapIn, swapOut, HandlerArray.set, HandlerArray.get]

theorem recordSwap_removals (o : UUID) (is_static : Bool) (qh : HandlerArray) (c : ObjectClass)
    (x : UUID) :
    x ∈ ((recordSwap o is_static qh).get c).removals ↔
      x ∈ (qh.get c).removals ∨ (x = o ∧ c = swapOut is_static) := by
  cases is_static <;> cases c <;>
    simp [recordSwap, swapIn, swapOut, HandlerArray.set, HandlerArray.get, mem_insert_iff]

theorem recordSwap_additions (o : UUID) (is_static : Bool) (qh : HandlerArray) (c : ObjectClass)
    (x : UUID) :
    x ∈ ((recordSwap o is_static qh).get c).additions ↔
      x ∈ (qh.get c).additions ∨ (x = o ∧ c = swapIn is_static) := by
  cases is_static <;> cases c <;>
    simp [recordSwap, swapIn, swapOut, HandlerArray.set, HandlerArray.get, mem_insert_iff]

theorem recordSwap_objectsOf (o : UUID) (is_static : Bool) (qh : HandlerArray) (c : ObjectClass) :
    (recordSwap o is_static qh).objectsOf c = qh.objectsOf c := by
  simp [HandlerArray.objectsOf, recordSwap_handler]

theorem processExpired_ok (expired : List (Bool × UUID)) :
    ∀ (qh : HandlerArray) (hs hd : ProxQueryHandler),
      (qh.get OBJECT_CLASS_STATIC).handler = some hs →
      (qh.get OBJECT_CLASS_DYNAMIC).handler = some hd →
      (∀ x ∈ expired, x.2 ∈ hs.objects ∨ x.2 ∈ hd.objects) →
      ∃ qh1, processExpiredStaticObjectTimeouts expired qh = .ok qh1 ∧
        (∀ c, (qh1.get c).handler = (qh.get c).handler) ∧
        (∀ c x, x ∈ (qh.get c).removals → x ∈ (qh1.get c).removals) ∧
        (∀ c x, x ∈ (qh.get c).additions → x ∈ (qh1.get c).additions) ∧
        (∀ c x, (∀ y ∈ expired, y.2 ≠ x) →
          ((x ∈ (qh1.get c).removals ↔ x ∈ (qh.get c).removals) ∧
            (x ∈ (qh1.get c).additions ↔ x ∈ (qh.get c).additions))) := by
  induction expired with
  | nil =>
    intro qh hs hd _ _ _
    exact ⟨qh, rfl, fun _ => rfl, fun _ _ h => h, fun _ _ h => h, fun _ _ _ => ⟨Iff.rfl, Iff.rfl⟩⟩
  | cons e rest ih =>
    intro qh hs hd hS hD hknown
    obtain ⟨l, o⟩ := e
    have hstep : ∃ qh0, trySwapHandlers l o true qh = .ok qh0 ∧
        (qh0 = qh ∨ qh0 = recordSwap o true qh) := by
      unfold trySwapHandlers
      rw [handleCheck_eq o true qh hS hD]
      have hk := hknown (l, o) (List.mem_cons_self _ _)
      simp only [objectsOf_of_handler hS, objectsOf_of_handler hD, swapIn, swapOut, if_true]
      by_cases h1 : o ∈ hs.objects
      · exact ⟨qh, by simp [h1], Or.inl rfl⟩
      · have h2 : o ∈ hd.objects := by
          rcases hk with h | h
          · exact absurd h h1
          · exact h
        exact ⟨recordSwap o true qh, by simp [h1, h2], Or.inr rfl⟩
    obtain ⟨qh0, hq0, hcase⟩ := hstep
    have hh0 : ∀ c, (qh0.get c).handler = (qh.get c).handler := by
      intro c
      rcases hcase with rfl | rfl
      · rfl
      · exact recordSwap_handler _ _ _ _
    have hr0 : ∀ c x, x ∈ (qh0.get c).removals ↔
        x ∈ (qh.get c).removals ∨ (qh0 ≠ qh ∧ x = o ∧ c = swapOut true) := by
      intro c x
      rcases hcase with rfl | rfl
      · simp
      · rw [recordSwap_removals]
        constructor
        · rintro (h | h)
          · exact Or.inl h
          · by_cases hx : x ∈ (qh.get c).removals
            · exact Or.inl hx
            · refine Or.inr ⟨?_, h⟩
              intro heq
              have := (recordSwap_removals o true qh c x).2 (Or.inr h)
              rw [heq] at this
              exact hx this
        · rintro (h | ⟨_, h⟩)
          · exact Or.inl h
          · exact Or.inr h
    have ha0 : ∀ c x, x ∈ (qh0.get c).additions ↔
        x ∈ (qh.get c).additions ∨ (qh0 ≠ qh ∧ x = o ∧ c = swapIn true) := by
      intro c x
      rcases hcase with rfl | rfl
      · simp
      · rw [recordSwap_additions]
        constructor
        · rintro (h | h)
          · exact Or.inl h
          · by_cases hx : x ∈ (qh.get c).additions
            · exact Or.inl hx
            · refine Or.inr ⟨?_, h⟩
              intro heq
              have := (recordSwap_additions o true qh c x).2 (Or.inr h)
              rw [heq] at this
              exact hx this
        · rintro (h | ⟨_, h⟩)
          · exact Or.inl h
          · exact Or.inr h
    obtain ⟨qh1, hq1, hh1, hr1, ha1, hn1⟩ :=
      ih qh0 hs hd (by rw [hh0]; exact hS) (by rw [hh0]; exact hD)
        (fun x hx => hknown x (List.mem_cons_of_mem _ hx))
    refine ⟨qh1, ?_, ?_, ?_, ?_, ?_⟩
    · simp [processExpiredStaticObjectTimeouts, hq0, hq1]
    · intro c
      rw [hh1, hh0]
    · intro c x hx
      exact hr1 c x ((hr0 c x).2 (Or.inl hx))
    · intro c x hx
      exact ha1 c x ((ha0 c x).2 (Or.inl hx))
    · intro c x hx
      have hxo : x ≠ o := fun h => hx (l, o) (List.mem_cons_self _ _) h.symm
      obtain ⟨h1, h2⟩ := hn1 c x (fun y hy => hx y (List.mem_cons_of_mem _ hy))
      constructor
      · rw [h1, hr0]
        simp [hxo]
      · rw [h2, ha0]
        simp [hxo]

theorem mem_foldl_removeObject (l : List UUID) (x : UUID) :
    ∀ h : ProxQueryHandler,
      x ∈ (l.foldl (fun hh o => hh.removeObject o true) h).objects ↔ x ∈ h.objects ∧ x ∉ l := by
  induction l with
  | nil => intro h; simp
  | cons o l ih =>
    intro h
    rw [List.foldl_cons, ih]
    simp only [ProxQueryHandler.removeObject, List.mem_filter, List.mem_cons, not_or,
      decide_eq_true_eq]
    tauto

theorem mem_foldl_addObject (l : List UUID) (x : UUID) :
    ∀ h : ProxQueryHandler,
      x ∈ (l.foldl (fun hh o => hh.addObject o) h).objects ↔ x ∈ h.objects ∨ x ∈ l := by
  induction l with
  | nil => intro h; simp
  | cons o l ih =>
    intro h
    rw [List.foldl_cons, ih]
    simp only [ProxQueryHandler.addObject, List.mem_cons]
    by_cases ho : o ∈ h.objects
    · simp only [ho, if_true]
      constructor
      · rintro (h1 | h1)
        · exact Or.inl h1
        · exact Or.inr (Or.inr h1)
      · rintro (h1 | rfl | h1)
        · exact Or.inl h1
        · exact Or.inl ho
        · exact Or.inr h1
    · simp only [ho, if_false, List.mem_append, List.mem_singleton]
      tauto

/-- The log of the loop of `tickQueryHandler`: the calls on the static slot, then
the calls on the dynamic slot. -/
theorem tickQueryHandlerLoop_log (simT : Time) (qh : HandlerArray) :
    (tickQueryHandlerLoop simT objectClasses qh).2 =
      classCalls (qh.get OBJECT_CLASS_STATIC) OBJECT_CLASS_STATIC ++
        classCalls (qh.get OBJECT_CLASS_DYNAMIC) OBJECT_CLASS_DYNAMIC := by
  simp only [tickQueryHandlerLoop, objectClasses, tickQueryHandlerClass, classCalls,
    List.append_nil]
  cases h0 : (qh.get OBJECT_CLASS_STATIC).handler <;>
    cases h1 : (qh.get OBJECT_CLASS_DYNAMIC).handler <;>
    simp [h0, h1, get_set]

/-- The state after the loop of `tickQueryHandler`, for a class with a handler:
both buckets are empty and the handler holds the objects it held that were not
pending removal, and the objects that were pending addition. -/
theorem tickQueryHandlerLoop_state (simT : Time) (qh : HandlerArray) (c : ObjectClass)
    {h : ProxQueryHandler} (hc : (qh.get c).handler = some h) :
    ((tickQueryHandlerLoop simT objectClasses qh).1.get c).additions = [] ∧
    ((tickQueryHandlerLoop simT objectClasses qh).1.get c).removals = [] ∧
    ∀ x, x ∈ (tickQueryHandlerLoop simT objectClasses qh).1.objectsOf c ↔
      (x ∈ h.objects ∧ x ∉ (qh.get c).removals) ∨ x ∈ (qh.get c).additions := by
  cases c <;>
    cases h0 : (qh.get OBJECT_CLASS_STATIC).handler <;>
    cases h1 : (qh.get OBJECT_CLASS_DYNAMIC).handler <;>
    simp_all [tickQueryHandlerLoop, objectClasses, tickQueryHandlerClass, get_set,
      HandlerArray.objectsOf, mem_foldl_addObject, mem_foldl_removeObject,
      ProxQueryHandler.tick]

theorem not_occursBefore_left {a b : HandlerCall} {l : List HandlerCall} (h : a ∉ l) :
    ¬ occursBefore a b l :=
  fun hob => h (occursBefore_mem_left hob)

theorem not_occursBefore_right {a b : HandlerCall} {l : List HandlerCall} (h : b ∉ l) :
    ¬ occursBefore a b l :=
  fun hob => h (occursBefore_mem_right hob)

/-- On the calls of one slot, no `tick` comes before a `removeObject` and no
`addObject` before a `tick`. -/
theorem classCalls_order (d : ProxQueryHandlerData) (i : ObjectClass) :
    (∀ c o f, ¬ occursBefore (HandlerCall.tick c) (HandlerCall.removeObject c o f)
      (classCalls d i)) ∧
    (∀ c o, ¬ occursBefore (HandlerCall.addObject c o) (HandlerCall.tick c) (classCalls d i)) := by
  unfold classCalls
  cases d.handler with
  | none => exact ⟨fun _ _ _ => occursBefore_nil _ _, fun _ _ => occursBefore_nil _ _⟩
  | some h =>
    constructor
    · intro c o f hob
      simp only [occursBefore_append, occursBefore_cons, List.mem_append, List.mem_map,
        List.mem_singleton, List.mem_cons] at hob
      rcases hob with (h1 | ⟨h1, h2⟩ | h1) | ⟨h1, h2⟩ | h1
      · exact not_occursBefore_left (by simp) h1
      · simp at h1
      · rcases h1 with ⟨_, h1⟩ | h1
        · simp at h1
        · exact occursBefore_nil _ _ h1
      · simp at h2
      · exact not_occursBefore_left (by simp) h1
    · intro c o hob
      simp only [occursBefore_append, occursBefore_cons, List.mem_append, List.mem_map,
        List.mem_singleton, List.mem_cons] at hob
      rcases hob with (h1 | ⟨h1, h2⟩ | h1) | ⟨h1, h2⟩ | h1
      · exact not_occursBefore_left (by simp) h1
      · simp at h1
      · rcases h1 with ⟨h1, _⟩ | h1
        · simp at h1
        · exact occursBefore_nil _ _ h1
      · simp at h2
      · exact not_occursBefore_right (by simp) h1

theorem classCalls_objectClass (d : ProxQueryHandlerData) (i : ObjectClass) (a : HandlerCall)
    (ha : a ∈ classCalls d i) : a.objectClass = i := by
  unfold classCalls at ha
  cases hd : d.handler with
  | none => simp [hd] at ha
  | some h =>
    simp only [hd, List.mem_append, List.mem_map, List.mem_singleton] at ha
    rcases ha with (⟨o, _, rfl⟩ | rfl) | ⟨o, _, rfl⟩ <;> rfl

/-- The log of the two slots, static slot first, is drained handler by handler, and
no call on the dynamic handler comes before a call on the static handler. -/
theorem classCalls_append_order (dS dD : ProxQueryHandlerData) :
    drainedPerHandler
      (classCalls dS OBJECT_CLASS_STATIC ++ classCalls dD OBJECT_CLASS_DYNAMIC) ∧
    (∀ a b, a.objectClass = OBJECT_CLASS_DYNAMIC → b.objectClass = OBJECT_CLASS_STATIC →
      ¬ occursBefore a b
        (classCalls dS OBJECT_CLASS_STATIC ++ classCalls dD OBJECT_CLASS_DYNAMIC)) := by
  refine ⟨⟨?_, ?_⟩, ?_⟩
  · intro c o f hob
    rw [occursBefore_append] at hob
    rcases hob with h | ⟨h1, h2⟩ | h
    · exact (classCalls_order dS _).1 c o f h
    · have e1 := classCalls_objectClass _ _ _ h1
      have e2 := classCalls_objectClass _ _ _ h2
      simp only [HandlerCall.objectClass] at e1 e2
      rw [e1] at e2
      cases e2
    · exact (classCalls_order dD _).1 c o f h
  · intro c o hob
    rw [occursBefore_append] at hob
    rcases hob with h | ⟨h1, h2⟩ | h
    · exact (classCalls_order dS _).2 c o h
    · have e1 := classCalls_objectClass _ _ _ h1
      have e2 := classCalls_objectClass _ _ _ h2
      simp only [HandlerCall.objectClass] at e1 e2
      rw [e1] at e2
      cases e2
    · exact (classCalls_order dD _).2 c o h
  · intro a b ha hb hob
    rw [occursBefore_append] at hob
    rcases hob with h | ⟨h1, h2⟩ | h
    · have e1 := classCalls_objectClass _ _ _ (occursBefore_mem_left h)
      rw [ha] at e1
      cases e1
    · have e1 := classCalls_objectClass _ _ _ h1
      rw [ha] at e1
      cases e1
    · have e2 := classCalls_objectClass _ _ _ (occursBefore_mem_right h)
      rw [hb] at e2
      cases e2

theorem classCalls_remove_before_tick {d : ProxQueryHandlerData} {h : ProxQueryHandler}
    (i : ObjectClass) (o : UUID) (hd : d.handler = some h) (ho : o ∈ d.removals) :
    occursBefore (HandlerCall.removeObject i o true) (HandlerCall.tick i) (classCalls d i) := by
  simp only [classCalls, hd, occursBefore_append]
  refine Or.inl (Or.inr (Or.inl ⟨?_, by simp⟩))
  exact List.mem_map.2 ⟨o, ho, rfl⟩

theorem classCalls_tick_before_add {d : ProxQueryHandlerData} {h : ProxQueryHandler}
    (i : ObjectClass) (o : UUID) (hd : d.handler = some h) (ho : o ∈ d.additions) :
    occursBefore (HandlerCall.tick i) (HandlerCall.addObject i o) (classCalls d i) := by
  simp only [classCalls, hd, occursBefore_append]
  refine Or.inr (Or.inl ⟨by simp, ?_⟩)
  exact List.mem_map.2 ⟨o, ho, rfl⟩

theorem handleCheck_scheduled {o : UUID} {is_static : Bool} {qh qh1 : HandlerArray}
    (hcheck : handleCheckObjectClassForHandlers o is_static qh = .ok qh1)
    (hsched : o ∉ qh.objectsOf (swapIn is_static)) :
    ∃ hs hd, (qh.get OBJECT_CLASS_STATIC).handler = some hs ∧
      (qh.get OBJECT_CLASS_DYNAMIC).handler = some hd ∧
      qh1 = recordSwap o is_static qh ∧ o ∈ qh.objectsOf (swapOut is_static) := by
  cases hS : (qh.get OBJECT_CLASS_STATIC).handler with
  | none =>
    cases hD : (qh.get OBJECT_CLASS_DYNAMIC).handler with
    | none =>
      cases is_static <;>
        simp [handleCheckObjectClassForHandlers, HandlerArray.containsObject, andThen, orElse,
          hS, hD] at hcheck
    | some hd =>
      cases is_static
      · by_cases h2 : o ∈ hd.objects
        · simp [swapIn, HandlerArray.objectsOf, hD, h2] at hsched
        · simp [handleCheckObjectClassForHandlers, HandlerArray.containsObject, andThen, orElse,
            hS, hD, ProxQueryHandler.containsObject, h2] at hcheck
      · simp [handleCheckObjectClassForHandlers, HandlerArray.containsObject, andThen, orElse,
          hS, hD] at hcheck
  | some hs =>
    cases hD : (qh.get OBJECT_CLASS_DYNAMIC).handler with
    | none =>
      cases is_static
      · simp [handleCheckObjectClassForHandlers, HandlerArray.containsObject, andThen, orElse,
          hS, hD] at hcheck
      · by_cases h1 : o ∈ hs.objects
        · simp [swapIn, HandlerArray.objectsOf, hS, h1] at hsched
        · simp [handleCheckObjectClassForHandlers, HandlerArray.containsObject, andThen, orElse,
            hS, hD, ProxQueryHandler.containsObject, h1] at hcheck
    | some hd =>
      rw [handleCheck_eq o is_static qh hS hD, if_neg hsched] at hcheck
      by_cases hout : o ∈ qh.objectsOf (swapOut is_static)
      · rw [if_pos hout] at hcheck
        exact ⟨hs, hd, rfl, rfl, (Except.ok.inj hcheck).symm, hout⟩
      · rw [if_neg hout] at hcheck
        cases hcheck

/-! ## Swaps between the static and the dynamic handler: theorems -/

/-- C2: when `handleCheckObjectClassForHandlers` schedules object `o` for a swap
(it returns normally and `o` is not in the handler asked for), in either
direction, then the next `tickQueryHandler` call (whose timeout processing
requests swaps of objects held by a handler) returns and, in its log of handler
calls, `removeObject o` on the swap-out handler comes before that handler's
`tick` and not after it, and `addObject o` on the swap-in handler comes after
the swap-in handler's `tick` and not before it: the removal is seen by a tick
of this call, the addition only by a tick of a later call. -/
theorem tickQueryHandler_swap_order (simT : Time) (expired : List (Bool × UUID))
    (qh qh1 : HandlerArray) (o : UUID) (is_static : Bool)
    (hcheck : handleCheckObjectClassForHandlers o is_static qh = .ok qh1)
    (hsched : o ∉ qh.objectsOf (swapIn is_static))
    (hknown : ∀ x ∈ expired,
      x.2 ∈ qh.objectsOf OBJECT_CLASS_STATIC ∨ x.2 ∈ qh.objectsOf OBJECT_CLASS_DYNAMIC) :
    ∃ qh2 log, tickQueryHandler simT expired qh1 = .ok (qh2, log) ∧
      occursBefore (HandlerCall.removeObject (swapOut is_static) o true)
        (HandlerCall.tick (swapOut is_static)) log ∧
      ¬ occursBefore (HandlerCall.tick (swapOut is_static))
        (HandlerCall.removeObject (swapOut is_static) o true) log ∧
      occursBefore (HandlerCall.tick (swapIn is_static))
        (HandlerCall.addObject (swapIn is_static) o) log ∧
      ¬ occursBefore (HandlerCall.addObject (swapIn is_static) o)
        (HandlerCall.tick (swapIn is_static)) log := by
  obtain ⟨hs, hd, hS, hD, rfl, -⟩ := handleCheck_scheduled hcheck hsched
  have hS1 : ((recordSwap o is_static qh).get OBJECT_CLASS_STATIC).handler = some hs := by
    rw [recordSwap_handler]; exact hS
  have hD1 : ((recordSwap o is_static qh).get OBJECT_CLASS_DYNAMIC).handler = some hd := by
    rw [recordSwap_handler]; exact hD
  rw [objectsOf_of_handler hS, objectsOf_of_handler hD] at hknown
  obtain ⟨qh2, hq2, hh2, hr2, ha2, -⟩ := processExpired_ok expired _ hs hd hS1 hD1 hknown
  have hrem : o ∈ (qh2.get (swapOut is_static)).removals :=
    hr2 _ _ ((recordSwap_removals _ _ _ _ _).2 (Or.inr ⟨rfl, rfl⟩))
  have hadd : o ∈ (qh2.get (swapIn is_static)).additions :=
    ha2 _ _ ((recordSwap_additions _ _ _ _ _).2 (Or.inr ⟨rfl, rfl⟩))
  have hS2 : (qh2.get OBJECT_CLASS_STATIC).handler = some hs := by rw [hh2]; exact hS1
  have hD2 : (qh2.get OBJECT_CLASS_DYNAMIC).handler = some hd := by rw [hh2]; exact hD1
  refine ⟨(tickQueryHandlerLoop simT objectClasses qh2).1,
    (tickQueryHandlerLoop simT objectClasses qh2).2, by simp [tickQueryHandler, hq2], ?_⟩
  rw [tickQueryHandlerLoop_log]
  have hord := (classCalls_append_order (qh2.get OBJECT_CLASS_STATIC)
    (qh2.get OBJECT_CLASS_DYNAMIC)).1
  refine ⟨?_, hord.1 _ _ _, ?_, hord.2 _ _⟩
  · rw [occursBefore_append]
    cases is_static
    · exact Or.inl (classCalls_remove_before_tick _ _ hS2 hrem)
    · exact Or.inr (Or.inr (classCalls_remove_before_tick _ _ hD2 hrem))
  · rw [occursBefore_append]
    cases is_static
    · exact Or.inr (Or.inr (classCalls_tick_before_add _ _ hD2 hadd))
    · exact Or.inl (classCalls_tick_before_add _ _ hS2 hadd)

/-- C2, at a concrete input: object `9` of the dynamic handler is asked to be
static, with no expired timeout. -/
theorem tickQueryHandler_swap_order_witness :
    ∃ qh2 log, tickQueryHandler 0 [] examplePendingToStatic = .ok (qh2, log) ∧
      occursBefore (HandlerCall.removeObject (swapOut true) 9 true)
        (HandlerCall.tick (swapOut true)) log ∧
      ¬ occursBefore (HandlerCall.tick (swapOut true))
        (HandlerCall.removeObject (swapOut true) 9 true) log ∧
      occursBefore (HandlerCall.tick (swapIn true)) (HandlerCall.addObject (swapIn true) 9) log ∧
      ¬ occursBefore (HandlerCall.addObject (swapIn true) 9) (HandlerCall.tick (swapIn true)) log :=
  tickQueryHandler_swap_order 0 [] exampleHandlers examplePendingToStatic 9 true
    rfl (by decide) (by simp)

/-- C3, as stated, fails: with a swap of object `9` from the dynamic to the static
handler pending, `tickQueryHandler` calls `tick` and `addObject` on the static
handler before it calls `removeObject` on the dynamic handler, so its log is not
drained in three global phases. -/
theorem tickQueryHandler_not_drainedInPhases :
    handleCheckObjectClassForHandlers 9 true exampleHandlers = .ok examplePendingToStatic ∧
    ∃ qh2, tickQueryHandler 0 [] examplePendingToStatic =
        .ok (qh2,
          [HandlerCall.tick OBJECT_CLASS_STATIC, HandlerCall.addObject OBJECT_CLASS_STATIC 9,
            HandlerCall.removeObject OBJECT_CLASS_DYNAMIC 9 true,
            HandlerCall.tick OBJECT_CLASS_DYNAMIC]) ∧
      ¬ drainedInPhases
        [HandlerCall.tick OBJECT_CLASS_STATIC, HandlerCall.addObject OBJECT_CLASS_STATIC 9,
          HandlerCall.removeObject OBJECT_CLASS_DYNAMIC 9 true,
          HandlerCall.tick OBJECT_CLASS_DYNAMIC] := by
  refine ⟨rfl, _, rfl, ?_⟩
  intro h
  exact h.1 OBJECT_CLASS_DYNAMIC 9 true OBJECT_CLASS_STATIC
    ⟨[], [HandlerCall.addObject OBJECT_CLASS_STATIC 9], [HandlerCall.tick OBJECT_CLASS_DYNAMIC], rfl⟩

/-- C3, amended: in one `tickQueryHandler` call the handlers are drained one
after the other, the static handler first: the log is the calls on the static
slot followed by the calls on the dynamic slot, each slot with a handler
contributing its pending `removeObject` calls, then its `tick`, then its pending
`addObject` calls.  So on each handler every `removeObject` precedes that
handler's `tick` and every `addObject` follows it, and no call on the dynamic
handler precedes a call on the static handler. -/
theorem tickQueryHandler_drains_handler_by_handler (simT : Time)
    (expired : List (Bool × UUID)) (qh : HandlerArray) (r : HandlerArray × List HandlerCall)
    (hr : tickQueryHandler simT expired qh = .ok r) :
    (∃ qh1, processExpiredStaticObjectTimeouts expired qh = .ok qh1 ∧
      r.2 = classCalls (qh1.get OBJECT_CLASS_STATIC) OBJECT_CLASS_STATIC ++
        classCalls (qh1.get OBJECT_CLASS_DYNAMIC) OBJECT_CLASS_DYNAMIC) ∧
    drainedPerHandler r.2 ∧
    (∀ a b, a.objectClass = OBJECT_CLASS_DYNAMIC → b.objectClass = OBJECT_CLASS_STATIC →
      ¬ occursBefore a b r.2) := by
  unfold tickQueryHandler at hr
  cases hq : processExpiredStaticObjectTimeouts expired qh with
  | error e => simp [hq] at hr
  | ok qh1 =>
    simp only [hq, Except.ok.injEq] at hr
    subst hr
    rw [tickQueryHandlerLoop_log]
    exact ⟨⟨qh1, rfl, rfl⟩, classCalls_append_order _ _⟩

/-- C3 amended, at a concrete input: the pending swap of object `9` to the static
handler. -/
theorem tickQueryHandler_drains_handler_by_handler_witness :
    drainedPerHandler
      [HandlerCall.tick OBJECT_CLASS_STATIC, HandlerCall.addObject OBJECT_CLASS_STATIC 9,
        HandlerCall.removeObject OBJECT_CLASS_DYNAMIC 9 true,
        HandlerCall.tick OBJECT_CLASS_DYNAMIC] :=
  (tickQueryHandler_drains_handler_by_handler 0 [] examplePendingToStatic
    ((tickQueryHandlerLoop 0 objectClasses examplePendingToStatic).1,
      [HandlerCall.tick OBJECT_CLASS_STATIC, HandlerCall.addObject OBJECT_CLASS_STATIC 9,
        HandlerCall.removeObject OBJECT_CLASS_DYNAMIC 9 true,
        HandlerCall.tick OBJECT_CLASS_DYNAMIC]) rfl).2.1

/-- C4, as stated, fails: object `7` is in the static handler only, with its swap
to the dynamic handler pending.  `handleCheckObjectClassForHandlers 7 true`
returns without recording anything, and after the next `tickQueryHandler` the
object is in the dynamic handler and not in the static one, although the last
request asked for the static handler. -/
theorem pending_swap_survives_opposite_request :
    handleCheckObjectClassForHandlers 7 false exampleHandlers = .ok examplePendingToDynamic ∧
    (7 ∈ examplePendingToDynamic.objectsOf OBJECT_CLASS_STATIC ∧
      7 ∉ examplePendingToDynamic.objectsOf OBJECT_CLASS_DYNAMIC) ∧
    handleCheckObjectClassForHandlers 7 true examplePendingToDynamic
      = .ok examplePendingToDynamic ∧
    ∃ qh2 log, tickQueryHandler 0 [] examplePendingToDynamic = .ok (qh2, log) ∧
      7 ∉ qh2.objectsOf OBJECT_CLASS_STATIC ∧ 7 ∈ qh2.objectsOf OBJECT_CLASS_DYNAMIC := by
  refine ⟨rfl, by decide, rfl, _, _, rfl, ?_, ?_⟩ <;> decide

/-- C4, amended: with both handlers present, let object `o` be in exactly one of
the two handlers and in none of the four buckets (no swap of `o` is pending),
and let the timeout processing of the tick request no swap of `o` (and only
swaps of objects held by a handler).  Then
`handleCheckObjectClassForHandlers o is_static` followed by one
`tickQueryHandler` call both return, and afterwards `o` is in exactly one
handler, the static one when `is_static` and the dynamic one otherwise, and the
removals and additions buckets of both handlers are empty. -/
theorem swap_request_then_tick (simT : Time) (expired : List (Bool × UUID))
    (qh : HandlerArray) (o : UUID) (is_static : Bool) (hs hd : ProxQueryHandler)
    (hS : (qh.get OBJECT_CLASS_STATIC).handler = some hs)
    (hD : (qh.get OBJECT_CLASS_DYNAMIC).handler = some hd)
    (hone : (o ∈ hs.objects ∧ o ∉ hd.objects) ∨ (o ∉ hs.objects ∧ o ∈ hd.objects))
    (hfree : ∀ c, o ∉ (qh.get c).removals ∧ o ∉ (qh.get c).additions)
    (hexp : ∀ x ∈ expired, x.2 ≠ o)
    (hknown : ∀ x ∈ expired, x.2 ∈ hs.objects ∨ x.2 ∈ hd.objects) :
    ∃ qh1 qh2 log, handleCheckObjectClassForHandlers o is_static qh = .ok qh1 ∧
      tickQueryHandler simT expired qh1 = .ok (qh2, log) ∧
      (o ∈ qh2.objectsOf OBJECT_CLASS_STATIC ↔ is_static = true) ∧
      (o ∈ qh2.objectsOf OBJECT_CLASS_DYNAMIC ↔ is_static = false) ∧
      (∀ c, (qh2.get c).removals = [] ∧ (qh2.get c).additions = []) := by
  -- the state after the request, with the membership of `o` in its buckets
  have hreq : ∃ qh1, handleCheckObjectClassForHandlers o is_static qh = .ok qh1 ∧
      (∀ c, (qh1.get c).handler = (qh.get c).handler) ∧
      (∀ c, (o ∈ (qh1.get c).removals ↔
          (o ∉ qh.objectsOf (swapIn is_static) ∧ c = swapOut is_static)) ∧
        (o ∈ (qh1.get c).additions ↔
          (o ∉ qh.objectsOf (swapIn is_static) ∧ c = swapIn is_static))) := by
    rw [handleCheck_eq o is_static qh hS hD]
    by_cases hin : o ∈ qh.objectsOf (swapIn is_static)
    · refine ⟨qh, by simp [hin], fun _ => rfl, fun c => ?_⟩
      simp [hin, hfree c]
    · have hout : o ∈ qh.objectsOf (swapOut is_static) := by
        cases is_static <;>
          simp only [swapIn, swapOut, objectsOf_of_handler hS, objectsOf_of_handler hD,
            Bool.false_eq_true, if_false, if_true] at hin ⊢ <;> tauto
      refine ⟨recordSwap o is_static qh, by simp [hin, hout],
        fun c => recordSwap_handler _ _ _ _, fun c => ?_⟩
      rw [recordSwap_removals, recordSwap_additions]
      simp [hin, hfree c]
  obtain ⟨qh1, hq1, hh1, hb1⟩ := hreq
  have hS1 : (qh1.get OBJECT_CLASS_STATIC).handler = some hs := by rw [hh1]; exact hS
  have hD1 : (qh1.get OBJECT_CLASS_DYNAMIC).handler = some hd := by rw [hh1]; exact hD
  obtain ⟨qh2, hq2, hh2, -, -, hn2⟩ := processExpired_ok expired qh1 hs hd hS1 hD1 hknown
  have hS2 : (qh2.get OBJECT_CLASS_STATIC).handler = some hs := by rw [hh2]; exact hS1
  have hD2 : (qh2.get OBJECT_CLASS_DYNAMIC).handler = some hd := by rw [hh2]; exact hD1
  have hstS := tickQueryHandlerLoop_state simT qh2 OBJECT_CLASS_STATIC hS2
  have hstD := tickQueryHandlerLoop_state simT qh2 OBJECT_CLASS_DYNAMIC hD2
  have hbS := hn2 OBJECT_CLASS_STATIC o hexp
  have hbD := hn2 OBJECT_CLASS_DYNAMIC o hexp
  have hb1S := hb1 OBJECT_CLASS_STATIC
  have hb1D := hb1 OBJECT_CLASS_DYNAMIC
  refine ⟨qh1, (tickQueryHandlerLoop simT objectClasses qh2).1,
    (tickQueryHandlerLoop simT objectClasses qh2).2, hq1, by simp [tickQueryHandler, hq2],
    ?_, ?_, ?_⟩
  · rw [hstS.2.2 o, hbS.1, hbS.2, hb1S.1, hb1S.2]
    cases is_static <;> rcases hone with ⟨h1, h2⟩ | ⟨h1, h2⟩ <;>
      simp [swapIn, swapOut, objectsOf_of_handler hS, objectsOf_of_handler hD, h1, h2]
  · rw [hstD.2.2 o, hbD.1, hbD.2, hb1D.1, hb1D.2]
    cases is_static <;> rcases hone with ⟨h1, h2⟩ | ⟨h1, h2⟩ <;>
      simp [swapIn, swapOut, objectsOf_of_handler hS, objectsOf_of_handler hD, h1, h2]
  · intro c
    cases c
    · exact ⟨hstS.2.1, hstS.1⟩
    · exact ⟨hstD.2.1, hstD.1⟩

/-- C4 amended, at a concrete input: object `7` of the static handler is asked to
be dynamic. -/
theorem swap_request_then_tick_witness :
    ∃ qh1 qh2 log, handleCheckObjectClassForHandlers 7 false exampleHandlers = .ok qh1 ∧
      tickQueryHandler 0 [] qh1 = .ok (qh2, log) ∧
      (7 ∈ qh2.objectsOf OBJECT_CLASS_STATIC ↔ false = true) ∧
      (7 ∈ qh2.objectsOf OBJECT_CLASS_DYNAMIC ↔ false = false) ∧
      (∀ c, (qh2.get c).removals = [] ∧ (qh2.get c).additions = []) :=
  swap_request_then_tick 0 [] exampleHandlers 7 false exampleStaticHandler
    exampleDynamicHandler rfl rfl (by decide) (by intro c; cases c <;> decide)
    (by simp) (by simp)

/-! ## Command dispatch: lemmas and theorems -/

theorem eraseSeqNoInfo_fields (id : NodeID) (st : State) :
    (eraseSeqNoInfo id st).mOHSeqNos = Function.update st.mOHSeqNos id none ∧
    (eraseSeqNoInfo id st).mOHQueries = st.mOHQueries ∧
    (eraseSeqNoInfo id st).mInvertedOHQueries = st.mInvertedOHQueries ∧
    (eraseSeqNoInfo id st).mOHQueryHandler = st.mOHQueryHandler := by
  unfold eraseSeqNoInfo
  cases h : st.mOHSeqNos id with
  | none =>
    refine ⟨?_, rfl, rfl, rfl⟩
    funext x
    by_cases hx : x = id
    · subst hx; simp [h]
    · simp [Function.update, hx]
  | some p => exact ⟨rfl, rfl, rfl, rfl⟩

theorem destroyQueryClass_fields (id : NodeID) (st : State) (i : ObjectClass) :
    (destroyQueryClass id st i).1.mOHQueryHandler = st.mOHQueryHandler ∧
    (destroyQueryClass id st i).1.mOHSeqNos = st.mOHSeqNos ∧
    (∀ c id2, (destroyQueryClass id st i).1.mOHQueries c id2 =
      if c = i ∧ id2 = id ∧ (st.mOHQueryHandler.get i).handler ≠ none then none
      else st.mOHQueries c id2) ∧
    (∀ q, (destroyQueryClass id st i).1.mInvertedOHQueries q =
      if (st.mOHQueryHandler.get i).handler ≠ none ∧ st.mOHQueries i id = some q then none
      else st.mInvertedOHQueries q) := by
  unfold destroyQueryClass
  cases hh : (st.mOHQueryHandler.get i).handler with
  | none => simp
  | some h =>
    cases hq : st.mOHQueries i id with
    | none =>
      refine ⟨rfl, rfl, ?_, ?_⟩
      · intro c id2
        by_cases hc : c = i ∧ id2 = id
        · obtain ⟨rfl, rfl⟩ := hc
          simp [hq]
        · simp only [ne_eq, not_false_eq_true, and_true]
          rw [if_neg]
          simpa using hc
      · simp
    | some q =>
      refine ⟨rfl, rfl, ?_, ?_⟩
      · intro c id2
        by_cases hc : c = i
        · subst hc
          by_cases hi : id2 = id
          · subst hi; simp
          · simp [Function.update, hi]
        · simp [Function.update, hc]
      · intro q2
        by_cases hq2 : q2 = q
        · subst hq2; simp
        · have : q ≠ q2 := fun h => hq2 h.symm
          simp [Function.update, hq2, this]

/-- The effect of `destroyQuery` on the maps of the proximity object. -/
theorem destroyQuery_clientDestroyed (id : NodeID) (st : State) :
    clientDestroyed id st (destroyQuery id st).1 := by
  obtain ⟨hS1, hS2, hS3, hS4⟩ := destroyQueryClass_fields id st OBJECT_CLASS_STATIC
  obtain ⟨hD1, hD2, hD3, hD4⟩ :=
    destroyQueryClass_fields id (destroyQueryClass id st OBJECT_CLASS_STATIC).1
      OBJECT_CLASS_DYNAMIC
  obtain ⟨hE1, hE2, hE3, hE4⟩ :=
    eraseSeqNoInfo_fields id
      (destroyQueryClass id (destroyQueryClass id st OBJECT_CLASS_STATIC).1
        OBJECT_CLASS_DYNAMIC).1
  have hq : ∀ c id2, (destroyQuery id st).1.mOHQueries c id2 =
      if id2 = id ∧ (st.mOHQueryHandler.get c).handler ≠ none then none
      else st.mOHQueries c id2 := by
    intro c id2
    simp only [destroyQuery, destroyQueryLoop, objectClasses, State.post, hE2, hD3, hD1, hS3,
      hS1]
    cases c <;> by_cases h1 : id2 = id <;>
      by_cases h2 : (st.mOHQueryHandler.get OBJECT_CLASS_STATIC).handler = none <;>
      by_cases h3 : (st.mOHQueryHandler.get OBJECT_CLASS_DYNAMIC).handler = none <;>
      simp [h1, h2, h3]
  have hinv : ∀ q, (destroyQuery id st).1.mInvertedOHQueries q =
      if (st.mOHQueryHandler.get OBJECT_CLASS_DYNAMIC).handler ≠ none ∧
          st.mOHQueries OBJECT_CLASS_DYNAMIC id = some q then none
      else if (st.mOHQueryHandler.get OBJECT_CLASS_STATIC).handler ≠ none ∧
          st.mOHQueries OBJECT_CLASS_STATIC id = some q then none
      else st.mInvertedOHQueries q := by
    intro q
    simp only [destroyQuery, destroyQueryLoop, objectClasses, State.post, hE3, hD4, hD1, hS4,
      hS3, hS1]
    simp
  have hseq : (destroyQuery id st).1.mOHSeqNos = Function.update st.mOHSeqNos id none := by
    simp only [destroyQuery, destroyQueryLoop, objectClasses, State.post, hE1, hD2, hS2]
  refine ⟨?_, ?_, ?_, ?_, ?_⟩
  · intro c hc
    rw [hq, if_pos ⟨rfl, hc⟩]
  · intro c q hc hcq
    rw [hinv]
    cases c
    · split
      · rfl
      · rw [if_pos ⟨hc, hcq⟩]
    · rw [if_pos ⟨hc, hcq⟩]
  · rw [hseq]; simp
  · intro id2 hid
    refine ⟨fun c => ?_, ?_⟩
    · rw [hq, if_neg (fun h => hid h.1)]
    · rw [hseq]; simp [Function.update, hid]
  · intro q hq2
    rw [hinv, if_neg (fun h => hq2 _ h.2), if_neg (fun h => hq2 _ h.2)]

theorem handleObjectHostProxMessage_destroy (uuidOfString : String → UUID) (ctx : Context)
    (id : NodeID) (params : JsonValue) (seqNo : SeqNoPtr) (st : State)
    (haction : params.getString "action" "" = "destroy") :
    handleObjectHostProxMessage uuidOfString ctx id (some params) seqNo st =
      destroyQuery id
        (match st.mOHSeqNos id with
          | none => { st with mOHSeqNos := Function.update st.mOHSeqNos id (some seqNo) }
          | some _ => st) := by
  simp only [handleObjectHostProxMessage, haction]
  rfl

/-- C8: after `destroyQuery(id)`, whether called directly, by
`handleObjectHostSessionEnded` or by a message whose action is `"destroy"`: for
every object class with a handler `mOHQueries` has no entry for `id` and the
query that was stored there has been removed from `mInvertedOHQueries`;
`mOHSeqNos` has no entry for `id`; the entries of every other client in
`mOHQueries` and `mOHSeqNos`, and the entries in `mInvertedOHQueries` of the
queries that were not stored for `id`, are unchanged. -/
theorem destroyQuery_tears_down_client (id : NodeID) (st : State) :
    clientDestroyed id st (destroyQuery id st).1 ∧
    clientDestroyed id st (handleObjectHostSessionEnded id st).1 ∧
    (∀ (uuidOfString : String → UUID) (ctx : Context) (params : JsonValue) (seqNo : SeqNoPtr),
      params.getString "action" "" = "destroy" →
      clientDestroyed id st
        (handleObjectHostProxMessage uuidOfString ctx id (some params) seqNo st).1) := by
  refine ⟨destroyQuery_clientDestroyed id st, destroyQuery_clientDestroyed id st, ?_⟩
  intro uuidOfString ctx params seqNo haction
  rw [handleObjectHostProxMessage_destroy uuidOfString ctx id params seqNo st haction]
  cases hseq : st.mOHSeqNos id with
  | some p => exact destroyQuery_clientDestroyed id st
  | none =>
    obtain ⟨h1, h2, h3, h4, h5⟩ := destroyQuery_clientDestroyed id
      { st with mOHSeqNos := Function.update st.mOHSeqNos id (some seqNo) }
    refine ⟨h1, h2, h3, ?_, h5⟩
    intro id2 hid
    refine ⟨(h4 id2 hid).1, ?_⟩
    rw [(h4 id2 hid).2]
    simp [Function.update, hid]

/-- C9, the code at the failing input: client `55` sends `init`, `init`,
`destroy`.  After the `destroy` the queries of the second `init` (addresses `3`
and `4`) are gone, but the queries `1` and `2` registered by the first `init`
are still in `mInvertedOHQueries`, associated with client `55`, although the
client has no entry left in `mOHQueries` and `mOHSeqNos`; they were never
deleted, and a `queryHasEvents` call for query `1` fails the assertion of
`getSeqNoInfo`. -/
theorem destroy_after_double_init_leaves_queries :
    exampleAfterDoubleInit.mInvertedOHQueries 1 = some 55 ∧
    exampleAfterDoubleInit.mInvertedOHQueries 2 = some 55 ∧
    exampleAfterDoubleInit.mInvertedOHQueries 3 = none ∧
    exampleAfterDoubleInit.mInvertedOHQueries 4 = none ∧
    (∀ c, exampleAfterDoubleInit.mOHQueries c 55 = none) ∧
    exampleAfterDoubleInit.mOHSeqNos 55 = none ∧
    registeredQueries OBJECT_CLASS_STATIC
      (handleCommands (fun _ => 0) exampleContext exampleDoubleInit
        (construct true 2 (fun _ => 0))).2 = [1, 3] ∧
    (∀ fuel evts, queryHasEvents exampleContext exampleCache fuel ⟨1, 1⟩ evts exampleAfterDoubleInit
      = .error .assertion) := by
  refine ⟨by decide, by decide, by decide, by decide, ?_, by decide, by decide, ?_⟩
  · intro c
    cases c <;> decide
  · intro fuel evts
    have h1 : exampleAfterDoubleInit.mInvertedOHQueries 1 = some 55 := by decide
    have h2 : exampleAfterDoubleInit.mOHSeqNos 55 = none := by decide
    simp [queryHasEvents, State.invertedOHQuery, getSeqNoInfo, h1, h2]

theorem handleObjectHostProxMessage_init (uuidOfString : String → UUID) (ctx : Context)
    (id : NodeID) (params : JsonValue) (seqNo : SeqNoPtr) (st : State)
    (haction : params.getString "action" "" = "init") :
    handleObjectHostProxMessage uuidOfString ctx id (some params) seqNo st =
      initQueryLoop ctx id objectClasses
        (match st.mOHSeqNos id with
          | none => { st with mOHSeqNos := Function.update st.mOHSeqNos id (some seqNo) }
          | some _ => st) := by
  simp only [handleObjectHostProxMessage, haction]
  rfl

theorem initQueryLoop_registers (ctx : Context) (id : NodeID) (st : State) (c : ObjectClass) :
    ((st.mOHQueryHandler.get c).handler = none →
      registeredQueries c (initQueryLoop ctx id objectClasses st).2 = []) ∧
    ((st.mOHQueryHandler.get c).handler ≠ none →
      ∃ q, registeredQueries c (initQueryLoop ctx id objectClasses st).2 = [q] ∧
        (initQueryLoop ctx id objectClasses st).1.mOHQueries c id = some q ∧
        (initQueryLoop ctx id objectClasses st).1.mInvertedOHQueries q = some id ∧
        ∃ snapshot, listenerSnapshots q (initQueryLoop ctx id objectClasses st).2 = [snapshot] ∧
          snapshot.mOHQueries c id = some q ∧ snapshot.mInvertedOHQueries q = some id) := by
  cases c <;>
    cases hS : (st.mOHQueryHandler.get OBJECT_CLASS_STATIC).handler <;>
    cases hD : (st.mOHQueryHandler.get OBJECT_CLASS_DYNAMIC).handler <;>
    simp [initQueryLoop, objectClasses, initQueryClass, hS, hD, registeredQueries,
      listenerSnapshots, Function.update]

/-- C10: handling a message of client `id` whose action is `"init"` makes exactly
one `registerQuery` call on the handler of every object class whose slot is
non-null and none for a null slot; for each such class `c` the new query `q`
satisfies `mOHQueries[c][id] = q` and `mInvertedOHQueries[q] = id` afterwards,
and `setEventListener` is called once on `q`, at a moment when both map entries
are already in place. -/
theorem init_registers_one_query_per_handler (uuidOfString : String → UUID) (ctx : Context)
    (id : NodeID) (params : JsonValue) (seqNo : SeqNoPtr) (st : State) (c : ObjectClass)
    (haction : params.getString "action" "" = "init") :
    ((st.mOHQueryHandler.get c).handler = none →
      registeredQueries c
        (handleObjectHostProxMessage uuidOfString ctx id (some params) seqNo st).2 = []) ∧
    ((st.mOHQueryHandler.get c).handler ≠ none →
      ∃ q, registeredQueries c
          (handleObjectHostProxMessage uuidOfString ctx id (some params) seqNo st).2 = [q] ∧
        (handleObjectHostProxMessage uuidOfString ctx id (some params) seqNo st).1.mOHQueries
          c id = some q ∧
        (handleObjectHostProxMessage uuidOfString ctx id (some params) seqNo
          st).1.mInvertedOHQueries q = some id ∧
        ∃ snapshot,
          listenerSnapshots q
            (handleObjectHostProxMessage uuidOfString ctx id (some params) seqNo st).2
            = [snapshot] ∧
          snapshot.mOHQueries c id = some q ∧ snapshot.mInvertedOHQueries q = some id) := by
  rw [handleObjectHostProxMessage_init uuidOfString ctx id params seqNo st haction]
  cases hseq : st.mOHSeqNos id with
  | some p => exact initQueryLoop_registers ctx id st c
  | none =>
    exact initQueryLoop_registers ctx id
      { st with mOHSeqNos := Function.update st.mOHSeqNos id (some seqNo) } c

/-- C10, at a concrete input: the first `init` of client `55` after the
constructor, for the static class. -/
theorem init_registers_one_query_per_handler_witness :
    ∃ q, registeredQueries OBJECT_CLASS_STATIC
        (handleObjectHostProxMessage (fun _ => 0) exampleContext 55 (some exampleInit) 77
          (construct true 2 (fun _ => 0))).2 = [q] ∧
      (handleObjectHostProxMessage (fun _ => 0) exampleContext 55 (some exampleInit) 77
        (construct true 2 (fun _ => 0))).1.mOHQueries OBJECT_CLASS_STATIC 55 = some q ∧
      (handleObjectHostProxMessage (fun _ => 0) exampleContext 55 (some exampleInit) 77
        (construct true 2 (fun _ => 0))).1.mInvertedOHQueries q = some 55 ∧
      ∃ snapshot,
        listenerSnapshots q
          (handleObjectHostProxMessage (fun _ => 0) exampleContext 55 (some exampleInit) 77
            (construct true 2 (fun _ => 0))).2 = [snapshot] ∧
        snapshot.mOHQueries OBJECT_CLASS_STATIC 55 = some q ∧
        snapshot.mInvertedOHQueries q = some 55 :=
  (init_registers_one_query_per_handler (fun _ => 0) exampleContext 55 exampleInit 77
    (construct true 2 (fun _ => 0)) OBJECT_CLASS_STATIC (by decide)).2 (by decide)

/-! ## Query event pipeline: lemmas -/

theorem sameQueryMaps_refl (st : State) : sameQueryMaps st st := ⟨rfl, rfl, rfl, rfl⟩

theorem sameQueryMaps_trans {st1 st2 st3 : State} (h12 : sameQueryMaps st1 st2)
    (h23 : sameQueryMaps st2 st3) : sameQueryMaps st1 st3 :=
  ⟨h23.1.trans h12.1, h23.2.1.trans h12.2.1, h23.2.2.1.trans h12.2.2.1,
    h23.2.2.2.trans h12.2.2.2⟩

theorem ofHandlers_of_same {query : ProxQuery} {st st2 : State} (h : sameQueryMaps st st2)
    (hq : query.ofHandlers st) : query.ofHandlers st2 := by
  unfold ProxQuery.ofHandlers at *
  rw [h.1]
  exact hq

/-- One iteration of the loop over the additions: it succeeds, leaves the maps
and `mOHResults` alone, and a tracked object gets the current value of the
counter, which is then incremented. -/
theorem queryHasEventsAddition_spec (ctx : Context) (cache : LocationServiceCache)
    (query : ProxQuery) (query_id : NodeID) (p : SeqNoPtr) (evt : ProxQueryEvent) (aidx : Nat)
    (a : QueryEventAddition) (w : EventWork) (hq : query.ofHandlers w.st)
    (hwrap : w.st.seqNoValue p + (if cache.tracking a.id then 1 else 0) < 2 ^ 64) :
    ∃ w2, queryHasEventsAddition ctx cache query query_id p evt aidx a w = .ok w2 ∧
      sameQueryMaps w.st w2.st ∧ w2.st.mOHResults = w.st.mOHResults ∧
      w2.st.seqNoValue p = w.st.seqNoValue p + (if cache.tracking a.id then 1 else 0) ∧
      w2.event_results.addition.map (fun x => x.seqno) =
        w.event_results.addition.map (fun x => x.seqno) ++
          List.range' (w.st.seqNoValue p) (if cache.tracking a.id then 1 else 0) ∧
      w2.event_results.removal = w.event_results.removal := by
  by_cases ht : cache.tracking a.id = true
  · have hmod : (w.st.seqNoValue p + 1) % 2 ^ 64 = w.st.seqNoValue p + 1 := by
      apply Nat.mod_eq_of_lt
      simpa [ht] using hwrap
    have hS : query.handler ≠ (w.st.mOHQueryHandler.get OBJECT_CLASS_STATIC).handlerAddr →
        query.handler = (w.st.mOHQueryHandler.get OBJECT_CLASS_DYNAMIC).handlerAddr := by
      intro h1
      rcases hq with h | h
      · exact absurd h h1
      · exact h
    have hupd : ∀ v : Nat, Function.update w.st.seqNoValue p v p = v := fun v => by simp
    simp only [queryHasEventsAddition, State.post, State.postIncrSeqNo, ht, if_true]
    by_cases hp : a.parent ≠ UUID.null
    · rw [if_pos hp]
      refine ⟨_, rfl, ⟨rfl, rfl, rfl, rfl⟩, rfl, ?_, ?_, rfl⟩
      · exact (hupd _).trans hmod
      · simp
    · rw [if_neg hp]
      by_cases hl : aidx = 0 ∧ evt.additions.length = 1 ∧ evt.removals.length = 0
      · rw [if_pos hl]
        by_cases h1 : query.handler =
            (w.st.mOHQueryHandler.get OBJECT_CLASS_STATIC).handlerAddr
        · rw [if_pos h1]
          refine ⟨_, rfl, ⟨rfl, rfl, rfl, rfl⟩, rfl, ?_, ?_, rfl⟩
          · exact (hupd _).trans hmod
          · simp
        · rw [if_neg h1, if_pos (hS h1)]
          refine ⟨_, rfl, ⟨rfl, rfl, rfl, rfl⟩, rfl, ?_, ?_, rfl⟩
          · exact (hupd _).trans hmod
          · simp
      · rw [if_neg hl]
        refine ⟨_, rfl, ⟨rfl, rfl, rfl, rfl⟩, rfl, ?_, ?_, rfl⟩
        · exact (hupd _).trans hmod
        · simp
  · simp only [queryHasEventsAddition, ht, if_false]
    refine ⟨w, by simp, sameQueryMaps_refl _, rfl, ?_⟩
    simp

/-- The loop over the additions: it succeeds and numbers the tracked additions
consecutively from the current value of the counter. -/
theorem queryHasEventsAdditions_spec (ctx : Context) (cache : LocationServiceCache)
    (query : ProxQuery) (query_id : NodeID) (p : SeqNoPtr) (evt : ProxQueryEvent)
    (l : List QueryEventAddition) :
    ∀ (aidx : Nat) (w : EventWork), query.ofHandlers w.st →
      w.st.seqNoValue p + (l.filter (fun a => cache.tracking a.id)).length < 2 ^ 64 →
      ∃ w2, queryHasEventsAdditions ctx cache query query_id p evt aidx l w = .ok w2 ∧
        sameQueryMaps w.st w2.st ∧ w2.st.mOHResults = w.st.mOHResults ∧
        w2.st.seqNoValue p =
          w.st.seqNoValue p + (l.filter (fun a => cache.tracking a.id)).length ∧
        w2.event_results.addition.map (fun x => x.seqno) =
          w.event_results.addition.map (fun x => x.seqno) ++
            List.range' (w.st.seqNoValue p) (l.filter (fun a => cache.tracking a.id)).length ∧
        w2.event_results.removal = w.event_results.removal := by
  induction l with
  | nil =>
    intro aidx w _ _
    exact ⟨w, rfl, sameQueryMaps_refl _, rfl, by simp, by simp, rfl⟩
  | cons a l ih =>
    intro aidx w hq hwrap
    have hlen : (List.filter (fun a => cache.tracking a.id) (a :: l)).length =
        (if cache.tracking a.id then 1 else 0) +
          (List.filter (fun a => cache.tracking a.id) l).length := by
      by_cases ht : cache.tracking a.id = true
      · simp [List.filter_cons, ht, Nat.add_comm]
      · simp [List.filter_cons, ht]
    rw [hlen] at hwrap ⊢
    obtain ⟨w1, hw1, hs1, hr1, hc1, ha1, hrm1⟩ :=
      queryHasEventsAddition_spec ctx cache query query_id p evt aidx a w hq (by omega)
    obtain ⟨w2, hw2, hs2, hr2, hc2, ha2, hrm2⟩ :=
      ih (aidx + 1) w1 (ofHandlers_of_same hs1 hq) (by rw [hc1]; omega)
    refine ⟨w2, ?_, sameQueryMaps_trans hs1 hs2, hr2.trans hr1, ?_, ?_, hrm2.trans hrm1⟩
    · simp [queryHasEventsAdditions, hw1, hw2]
    · rw [hc2, hc1]; omega
    · rw [ha2, ha1, hc1, List.append_assoc, List.range'_append_1]
      congr 2
      omega

/-- The loop over the removals: it numbers the removals consecutively from the
current value of the counter. -/
theorem queryHasEventsRemovals_spec (query_id : NodeID) (p : SeqNoPtr) (evt : ProxQueryEvent)
    (l : List QueryEventRemoval) :
    ∀ (w : EventWork), w.st.seqNoValue p + l.length < 2 ^ 64 →
      sameQueryMaps w.st (queryHasEventsRemovals query_id p evt l w).st ∧
      (queryHasEventsRemovals query_id p evt l w).st.mOHResults = w.st.mOHResults ∧
      (queryHasEventsRemovals query_id p evt l w).st.seqNoValue p =
        w.st.seqNoValue p + l.length ∧
      (queryHasEventsRemovals query_id p evt l w).event_results.removal.map (fun x => x.seqno) =
        w.event_results.removal.map (fun x => x.seqno) ++
          List.range' (w.st.seqNoValue p) l.length ∧
      (queryHasEventsRemovals query_id p evt l w).event_results.addition =
        w.event_results.addition := by
  induction l with
  | nil =>
    intro w _
    exact ⟨sameQueryMaps_refl _, rfl, by simp [queryHasEventsRemovals],
      by simp [queryHasEventsRemovals], rfl⟩
  | cons r l ih =>
    intro w hwrap
    simp only [List.length_cons] at hwrap
    have hmod : (w.st.seqNoValue p + 1) % 2 ^ 64 = w.st.seqNoValue p + 1 :=
      Nat.mod_eq_of_lt (by omega)
    have hc1 : (queryHasEventsRemoval query_id p evt r w).st.seqNoValue p =
        w.st.seqNoValue p + 1 := by
      have hupd : ∀ v : Nat, Function.update w.st.seqNoValue p v p = v := fun v => by simp
      exact (hupd _).trans hmod
    have hs1 : sameQueryMaps w.st (queryHasEventsRemoval query_id p evt r w).st := by
      simp [sameQueryMaps, queryHasEventsRemoval, State.post, State.postIncrSeqNo]
    have hr1 : (queryHasEventsRemoval query_id p evt r w).st.mOHResults = w.st.mOHResults := by
      simp [queryHasEventsRemoval, State.post, State.postIncrSeqNo]
    have hrm1 : (queryHasEventsRemoval query_id p evt r w).event_results.removal.map
        (fun x => x.seqno) =
          w.event_results.removal.map (fun x => x.seqno) ++ [w.st.seqNoValue p] := by
      simp [queryHasEventsRemoval, State.post, State.postIncrSeqNo]
    have ha1 : (queryHasEventsRemoval query_id p evt r w).event_results.addition =
        w.event_results.addition := by
      simp [queryHasEventsRemoval]
    obtain ⟨hs2, hr2, hc2, hrm2, ha2⟩ :=
      ih (queryHasEventsRemoval query_id p evt r w) (by rw [hc1]; omega)
    refine ⟨sameQueryMaps_trans hs1 hs2, hr2.trans hr1, ?_, ?_, ha2.trans ha1⟩
    · simp only [queryHasEventsRemovals, hc2, hc1, List.length_cons]; omega
    · simp only [queryHasEventsRemovals, hrm2, hrm1, hc1, List.length_cons, List.append_assoc]
      rw [List.range'_succ]
      simp

/-- One event: it succeeds and its records, additions first, are numbered
consecutively from the current value of the counter. -/
theorem queryHasEventsEvent_spec (ctx : Context) (cache : LocationServiceCache)
    (query : ProxQuery) (query_id : NodeID) (p : SeqNoPtr) (evt : ProxQueryEvent)
    (st : State) (count : Nat) (hq : query.ofHandlers st)
    (hwrap : st.seqNoValue p + evt.numRecords cache < 2 ^ 64) :
    ∃ w, queryHasEventsEvent ctx cache query query_id p evt st count = .ok w ∧
      sameQueryMaps st w.st ∧ w.st.mOHResults = st.mOHResults ∧
      w.st.seqNoValue p = st.seqNoValue p + evt.numRecords cache ∧
      w.event_results.seqnos = List.range' (st.seqNoValue p) (evt.numRecords cache) := by
  unfold ProxQueryEvent.numRecords at hwrap ⊢
  obtain ⟨w1, hw1, hs1, hr1, hc1, ha1, hrm1⟩ :=
    queryHasEventsAdditions_spec ctx cache query query_id p evt evt.additions 0
      { st := st, count := count,
        event_results :=
          { index_properties :=
              some { id := some evt.indexID, index_id := none, dynamic_classification := none }
            addition := []
            removal := [] } } hq (by simp only; omega)
  obtain ⟨hs2, hr2, hc2, hrm2, ha2⟩ :=
    queryHasEventsRemovals_spec query_id p evt evt.removals w1 (by rw [hc1]; simp only; omega)
  refine ⟨queryHasEventsRemovals query_id p evt evt.removals w1, ?_,
    sameQueryMaps_trans hs1 hs2, hr2.trans hr1, ?_, ?_⟩
  · simp only [queryHasEventsEvent, hw1]
  · rw [hc2, hc1]; simp only; omega
  · unfold ProximityUpdate.seqnos
    rw [hrm2, ha2, ha1, hrm1, hc1]
    simp only [List.map_nil, List.nil_append]
    rw [List.range'_append_1]
    congr 1
    omega

theorem numRecords_cons (cache : LocationServiceCache) (evt : ProxQueryEvent)
    (evts : QueryEventList) :
    numRecords cache (evt :: evts) = evt.numRecords cache + numRecords cache evts := by
  simp [numRecords]

/-- The inner loop: it succeeds, consumes a prefix of the events (at least one
event when it starts with `count < max_count` on a non-empty list) and numbers
the records of the consumed events consecutively. -/
theorem queryHasEventsFrame_spec (ctx : Context) (cache : LocationServiceCache)
    (query : ProxQuery) (query_id : NodeID) (p : SeqNoPtr) (max_count : Nat)
    (evts : QueryEventList) :
    ∀ (st : State) (count : Nat) (update : List ProximityUpdate), query.ofHandlers st →
      st.seqNoValue p + numRecords cache evts < 2 ^ 64 →
      ∃ f, queryHasEventsFrame ctx cache query query_id p max_count evts st count update = .ok f ∧
        sameQueryMaps st f.st ∧ f.st.mOHResults = st.mOHResults ∧
        f.evts.length ≤ evts.length ∧
        (count < max_count → evts ≠ [] → f.evts.length < evts.length) ∧
        ∃ k, numRecords cache evts = k + numRecords cache f.evts ∧
          f.st.seqNoValue p = st.seqNoValue p + k ∧
          (f.update.map ProximityUpdate.seqnos).flatten =
            (update.map ProximityUpdate.seqnos).flatten ++ List.range' (st.seqNoValue p) k := by
  induction evts with
  | nil =>
    intro st count update _ _
    exact ⟨_, rfl, sameQueryMaps_refl _, rfl, Nat.le_refl _, fun _ h => absurd rfl h, 0,
      by simp, by simp, by simp⟩
  | cons evt rest ih =>
    intro st count update hq hwrap
    rw [numRecords_cons] at hwrap
    by_cases hc : count < max_count
    · obtain ⟨w, hw, hs1, hr1, hc1, hsq1⟩ :=
        queryHasEventsEvent_spec ctx cache query query_id p evt st count hq (by omega)
      obtain ⟨f, hf, hs2, hr2, hlen, -, k, hk, hc2, hsq2⟩ :=
        ih w.st w.count (update ++ [w.event_results]) (ofHandlers_of_same hs1 hq)
          (by rw [hc1]; omega)
      refine ⟨f, ?_, sameQueryMaps_trans hs1 hs2, hr2.trans hr1, ?_, ?_,
        evt.numRecords cache + k, ?_, ?_, ?_⟩
      · simp only [queryHasEventsFrame, hc, if_true, hw, hf]
      · simp only [List.length_cons]; omega
      · intro _ _
        simp only [List.length_cons]; omega
      · rw [numRecords_cons, hk]; omega
      · rw [hc2, hc1]; omega
      · rw [hsq2, hc1]
        simp only [List.map_append, List.map_cons, List.map_nil, List.flatten_append,
          List.flatten_cons, List.flatten_nil, List.append_nil, hsq1, List.append_assoc]
        rw [List.range'_append_1]
        congr 2
        omega
    · refine ⟨{ st := st, count := count, update := update, evts := evt :: rest },
        by simp only [queryHasEventsFrame, hc, if_false], sameQueryMaps_refl _, rfl,
        Nat.le_refl _, fun h => absurd h hc, 0, by simp, by simp, by simp⟩

theorem resultSeqnos_append (rs1 rs2 : List OHResult) :
    resultSeqnos (rs1 ++ rs2) = resultSeqnos rs1 ++ resultSeqnos rs2 := by
  simp [resultSeqnos]

/-- The outer loop: with `max_count ≥ 1` and as much fuel as there are events it
succeeds, appends result frames addressed to `query_id` to `mOHResults`, and the
records of these frames are numbered consecutively from the current value of
the counter. -/
theorem queryHasEventsLoop_spec (ctx : Context) (cache : LocationServiceCache)
    (query : ProxQuery) (query_id : NodeID) (p : SeqNoPtr) (max_count : Nat)
    (hmax : 1 ≤ max_count) (fuel : Nat) :
    ∀ (evts : QueryEventList) (st : State), evts.length ≤ fuel → query.ofHandlers st →
      st.seqNoValue p + numRecords cache evts < 2 ^ 64 →
      ∃ st2, queryHasEventsLoop ctx cache query query_id p max_count fuel evts st = .ok st2 ∧
        sameQueryMaps st st2 ∧
        st2.seqNoValue p = st.seqNoValue p + numRecords cache evts ∧
        ∃ frames, st2.mOHResults = st.mOHResults ++ frames ∧
          resultSeqnos frames = List.range' (st.seqNoValue p) (numRecords cache evts) ∧
          ∀ r ∈ frames, r.1 = query_id := by
  induction fuel with
  | zero =>
    intro evts st hlen _ _
    have hnil : evts = [] := List.length_eq_zero.1 (Nat.le_zero.1 hlen)
    subst hnil
    exact ⟨st, rfl, sameQueryMaps_refl _, by simp [numRecords], [], by simp,
      by simp [resultSeqnos, numRecords], by simp⟩
  | succ fuel ih =>
    intro evts st hlen hq hwrap
    cases evts with
    | nil =>
      exact ⟨st, rfl, sameQueryMaps_refl _, by simp [numRecords], [], by simp,
        by simp [resultSeqnos, numRecords], by simp⟩
    | cons evt rest =>
      obtain ⟨f, hf, hs1, hr1, -, hprog, k, hk, hc1, hsq1⟩ :=
        queryHasEventsFrame_spec ctx cache query query_id p max_count (evt :: rest) st 0 []
          hq hwrap
      have hlt := hprog (by omega) (by simp)
      have hs1b : sameQueryMaps st
          { f.st with
            mOHResults := f.st.mOHResults ++
              [(query_id, createObjectMessage ctx.id UUID.null OBJECT_PORT_PROXIMITY UUID.null
                OBJECT_PORT_PROXIMITY { t := ctx.simTime, update := f.update })] } :=
        ⟨hs1.1, hs1.2.1, hs1.2.2.1, hs1.2.2.2⟩
      obtain ⟨st2, hst2, hs2, hc2, frames, hfr, hsq2, hid⟩ :=
        ih f.evts
          { f.st with
            mOHResults := f.st.mOHResults ++
              [(query_id, createObjectMessage ctx.id UUID.null OBJECT_PORT_PROXIMITY UUID.null
                OBJECT_PORT_PROXIMITY { t := ctx.simTime, update := f.update })] }
          (by simp only [List.length_cons] at hlt hlen; omega)
          (ofHandlers_of_same hs1b hq)
          (by
            show f.st.seqNoValue p + numRecords cache f.evts < 2 ^ 64
            rw [hc1]; omega)
      refine ⟨st2, ?_, sameQueryMaps_trans hs1b hs2, ?_,
        (query_id, createObjectMessage ctx.id UUID.null OBJECT_PORT_PROXIMITY UUID.null
          OBJECT_PORT_PROXIMITY { t := ctx.simTime, update := f.update }) :: frames, ?_, ?_, ?_⟩
      · simp only [queryHasEventsLoop, hf]
        exact hst2
      · rw [hc2]
        show f.st.seqNoValue p + numRecords cache f.evts = _
        rw [hc1, hk]; omega
      · rw [hfr]
        show (f.st.mOHResults ++ _) ++ frames = _
        rw [hr1]
        simp
      · have hcons : resultSeqnos
            ((query_id, createObjectMessage ctx.id UUID.null OBJECT_PORT_PROXIMITY UUID.null
              OBJECT_PORT_PROXIMITY { t := ctx.simTime, update := f.update }) :: frames) =
            (f.update.map ProximityUpdate.seqnos).flatten ++ resultSeqnos frames := by
          simp [resultSeqnos, createObjectMessage]
        rw [hcons, hsq1, hsq2]
        show _ ++ List.range' (f.st.seqNoValue p) _ = _
        rw [hc1]
        simp only [List.map_nil, List.flatten_nil, List.nil_append]
        rw [List.range'_append_1, hk]
        congr 1
        omega
      · intro r hr
        rcases List.mem_cons.1 hr with rfl | hr
        · rfl
        · exact hid r hr

/-- One `queryHasEvents` call for a query of client `id` whose counter is `p`. -/
theorem queryHasEvents_spec (ctx : Context) (cache : LocationServiceCache) (fuel : Nat)
    (query : ProxQuery) (evts : QueryEventList) (st : State) (id : NodeID) (p : SeqNoPtr)
    (hmax : 1 ≤ ctx.PROX_MAX_PER_RESULT)
    (hinv : st.mInvertedOHQueries query.addr = some id) (hseq : st.mOHSeqNos id = some p)
    (hq : query.ofHandlers st) (hlen : evts.length ≤ fuel)
    (hwrap : st.seqNoValue p + numRecords cache evts < 2 ^ 64) :
    ∃ st2, queryHasEvents ctx cache fuel query evts st = .ok st2 ∧
      sameQueryMaps st st2 ∧
      st2.seqNoValue p = st.seqNoValue p + numRecords cache evts ∧
      ∃ frames, st2.mOHResults = st.mOHResults ++ frames ∧
        resultSeqnos frames = List.range' (st.seqNoValue p) (numRecords cache evts) ∧
        ∀ r ∈ frames, r.1 = id := by
  have h := queryHasEventsLoop_spec ctx cache query id p ctx.PROX_MAX_PER_RESULT hmax fuel evts
    st hlen hq hwrap
  simpa only [queryHasEvents, State.invertedOHQuery, getSeqNoInfo, hinv, hseq] using h

/-- A sequence of `queryHasEvents` calls for queries of client `id`. -/
theorem queryHasEventsCalls_spec (ctx : Context) (cache : LocationServiceCache)
    (id : NodeID) (p : SeqNoPtr) (hmax : 1 ≤ ctx.PROX_MAX_PER_RESULT)
    (calls : List (Nat × ProxQuery × QueryEventList)) :
    ∀ (st : State), st.mOHSeqNos id = some p →
      (∀ call ∈ calls, st.mInvertedOHQueries call.2.1.addr = some id ∧
        call.2.1.ofHandlers st ∧ call.2.2.length ≤ call.1) →
      st.seqNoValue p + numRecordsCalls cache calls < 2 ^ 64 →
      ∃ st2, queryHasEventsCalls ctx cache calls st = .ok st2 ∧
        st2.seqNoValue p = st.seqNoValue p + numRecordsCalls cache calls ∧
        ∃ frames, st2.mOHResults = st.mOHResults ++ frames ∧
          resultSeqnos frames = List.range' (st.seqNoValue p) (numRecordsCalls cache calls) ∧
          ∀ r ∈ frames, r.1 = id := by
  induction calls with
  | nil =>
    intro st _ _ _
    exact ⟨st, rfl, by simp [numRecordsCalls], [], by simp,
      by simp [resultSeqnos, numRecordsCalls], by simp⟩
  | cons call rest ih =>
    intro st hseq hcalls hwrap
    have hsum : numRecordsCalls cache (call :: rest) =
        numRecords cache call.2.2 + numRecordsCalls cache rest := by
      simp [numRecordsCalls]
    rw [hsum] at hwrap ⊢
    obtain ⟨hinv, hq, hlen⟩ := hcalls call (List.mem_cons_self _ _)
    obtain ⟨st1, hst1, hs1, hc1, frames1, hfr1, hsq1, hid1⟩ :=
      queryHasEvents_spec ctx cache call.1 call.2.1 call.2.2 st id p hmax hinv hseq hq hlen
        (by omega)
    obtain ⟨st2, hst2, hc2, frames2, hfr2, hsq2, hid2⟩ :=
      ih st1 (by rw [hs1.2.2.1]; exact hseq)
        (fun c hc => by
          obtain ⟨h1, h2, h3⟩ := hcalls c (List.mem_cons_of_mem _ hc)
          exact ⟨by rw [hs1.2.1]; exact h1, ofHandlers_of_same hs1 h2, h3⟩)
        (by rw [hc1]; omega)
    refine ⟨st2, ?_, ?_, frames1 ++ frames2, ?_, ?_, ?_⟩
    · simp only [queryHasEventsCalls, hst1, hst2]
    · rw [hc2, hc1]; omega
    · rw [hfr2, hfr1, List.append_assoc]
    · rw [resultSeqnos_append, hsq1, hsq2, hc1, List.range'_append_1]
      congr 1
      omega
    · intro r hr
      rcases List.mem_append.1 hr with h | h
      · exact hid1 r h
      · exact hid2 r h

theorem chain'_range'_succ (s k : Nat) :
    List.Chain' (fun r1 r2 => r2 = r1 + 1) (List.range' s k) := by
  cases k with
  | zero => simp
  | succ k =>
    rw [List.range'_succ]
    exact List.chain_succ_range' s k 1

/-! ## Query event pipeline: theorems -/

/-- C1: let `p` be the counter of client `id` and `max_per_result ≥ 1`.
(a) One `queryHasEvents` call for a query of `id` (registered with one of the two
handlers), with any event list and enough fuel, returns; if the counter holds
`s` and the call emits `k` records with `s + k < 2^64`, the records of the
frames it pushes, taken in emission order (events in list order, in each event
the tracked additions in index order, then the removals in index order), carry
the sequence numbers `s, s+1, ..., s+k-1`, and the counter is left at `s + k`.
(b) Hence over any sequence of such calls for queries of `id` the records of all
pushed frames carry `s, s+1, ...`: every two consecutive records `r1`, `r2`
satisfy `seqno r2 = seqno r1 + 1`. -/
theorem queryHasEvents_seqnos_dense (ctx : Context) (cache : LocationServiceCache)
    (st : State) (id : NodeID) (p : SeqNoPtr)
    (hmax : 1 ≤ ctx.PROX_MAX_PER_RESULT) (hseq : st.mOHSeqNos id = some p) :
    (∀ (fuel : Nat) (query : ProxQuery) (evts : QueryEventList),
      st.mInvertedOHQueries query.addr = some id → query.ofHandlers st →
      evts.length ≤ fuel → st.seqNoValue p + numRecords cache evts < 2 ^ 64 →
      ∃ st2 frames, queryHasEvents ctx cache fuel query evts st = .ok st2 ∧
        st2.mOHResults = st.mOHResults ++ frames ∧
        resultSeqnos frames = List.range' (st.seqNoValue p) (numRecords cache evts) ∧
        st2.seqNoValue p = st.seqNoValue p + numRecords cache evts) ∧
    (∀ calls : List (Nat × ProxQuery × QueryEventList),
      (∀ call ∈ calls, st.mInvertedOHQueries call.2.1.addr = some id ∧
        call.2.1.ofHandlers st ∧ call.2.2.length ≤ call.1) →
      st.seqNoValue p + numRecordsCalls cache calls < 2 ^ 64 →
      ∃ st2 frames, queryHasEventsCalls ctx cache calls st = .ok st2 ∧
        st2.mOHResults = st.mOHResults ++ frames ∧
        resultSeqnos frames = List.range' (st.seqNoValue p) (numRecordsCalls cache calls) ∧
        st2.seqNoValue p = st.seqNoValue p + numRecordsCalls cache calls ∧
        List.Chain' (fun r1 r2 => r2 = r1 + 1) (resultSeqnos frames)) := by
  constructor
  · intro fuel query evts hinv hq hlen hwrap
    obtain ⟨st2, hst2, -, hc, frames, hfr, hsq, -⟩ :=
      queryHasEvents_spec ctx cache fuel query evts st id p hmax hinv hseq hq hlen hwrap
    exact ⟨st2, frames, hst2, hfr, hsq, hc⟩
  · intro calls hcalls hwrap
    obtain ⟨st2, hst2, hc, frames, hfr, hsq, -⟩ :=
      queryHasEventsCalls_spec ctx cache id p hmax calls st hseq hcalls hwrap
    refine ⟨st2, frames, hst2, hfr, hsq, hc, ?_⟩
    rw [hsq]
    exact chain'_range'_succ _ _

/-- C1, at a concrete input: after the `init` of client `55`, whose counter holds
`10`, one call for its static query with the three events of `exampleEvents`
emits five records numbered `10` to `14` and leaves the counter at `15`. -/
theorem queryHasEvents_seqnos_dense_witness :
    ∃ st2 frames,
      queryHasEvents exampleContext exampleCache 3 ⟨1, 1⟩ exampleEvents exampleAfterInit
        = .ok st2 ∧
      st2.mOHResults = exampleAfterInit.mOHResults ++ frames ∧
      resultSeqnos frames = List.range' (exampleAfterInit.seqNoValue 77)
        (numRecords exampleCache exampleEvents) ∧
      st2.seqNoValue 77 = exampleAfterInit.seqNoValue 77 + numRecords exampleCache exampleEvents :=
  (queryHasEvents_seqnos_dense exampleContext exampleCache exampleAfterInit 55 77
    (by decide) (by decide)).1 3 ⟨1, 1⟩ exampleEvents (by decide) (Or.inl (by decide))
    (by decide) (by decide)

/-! ## Command dispatch: refine, coarsen and ignored messages -/

theorem withSeqNo_fields (st : State) (id : NodeID) (seqNo : SeqNoPtr) :
    (st.withSeqNo id seqNo).mOHQueryHandler = st.mOHQueryHandler ∧
    (st.withSeqNo id seqNo).mOHQueries = st.mOHQueries ∧
    (st.withSeqNo id seqNo).mInvertedOHQueries = st.mInvertedOHQueries ∧
    (st.withSeqNo id seqNo).nextQuery = st.nextQuery ∧
    (st.withSeqNo id seqNo).mOHSeqNos id =
      some (match st.mOHSeqNos id with
        | some p => p
        | none => seqNo) ∧
    (∀ id2, id2 ≠ id → (st.withSeqNo id seqNo).mOHSeqNos id2 = st.mOHSeqNos id2) := by
  unfold State.withSeqNo
  cases h : st.mOHSeqNos id with
  | none =>
    refine ⟨rfl, rfl, rfl, rfl, by simp, ?_⟩
    intro id2 hid
    simp [Function.update, hid]
  | some p => exact ⟨rfl, rfl, rfl, rfl, h, fun _ _ => rfl⟩

theorem parseNodes_strings (uuidOfString : String → UUID) (names : List String) :
    parseNodes uuidOfString (names.map JsonValue.str) = some (names.map uuidOfString) := by
  induction names with
  | nil => rfl
  | cons n rest ih => simp [parseNodes, ih]

theorem parseNodes_not_string (uuidOfString : String → UUID) (a : List JsonValue)
    (h : ∃ v ∈ a, v.isString = false) : parseNodes uuidOfString a = none := by
  induction a with
  | nil => simp at h
  | cons v rest ih =>
    cases v with
    | str s =>
      have h2 : ∃ v ∈ rest, v.isString = false := by
        obtain ⟨v, hv, hs⟩ := h
        rcases List.mem_cons.1 hv with rfl | hv
        · simp [JsonValue.isString] at hs
        · exact ⟨v, hv, hs⟩
      simp [parseNodes, ih h2]
    | null => rfl
    | bool b => rfl
    | int i => rfl
    | real r => rfl
    | array l => rfl
    | object o => rfl

/-- The calls of the loop of the refine and coarsen branches: for each query of
the client, in class order, one call per node in list order. -/
theorem refineQueryLoop_eq (coarsen : Bool) (id : NodeID) (nodes : List UUID) (st : State)
    (classes : List ObjectClass) :
    refineQueryLoop coarsen id nodes st classes =
      ((clientQueries st id classes).map (fun q =>
        nodes.map (fun n =>
          if coarsen then (QueryCall.coarsen q n : QueryCall State)
          else QueryCall.refine q n))).flatten := by
  induction classes with
  | nil => rfl
  | cons c rest ih =>
    simp only [refineQueryLoop, clientQueries, ih]
    cases (st.mOHQueryHandler.get c).handler with
    | none => simp
    | some h =>
      cases st.mOHQueries c id with
      | none => simp
      | some q => simp

theorem clientQueries_stored (st : State) (id : NodeID) (classes : List ObjectClass)
    (q : ProxQueryPtr) (hq : q ∈ clientQueries st id classes) :
    ∃ c, (st.mOHQueryHandler.get c).handler ≠ none ∧ st.mOHQueries c id = some q := by
  induction classes with
  | nil => simp [clientQueries] at hq
  | cons c rest ih =>
    simp only [clientQueries, List.mem_append] at hq
    rcases hq with hq | hq
    · cases hh : (st.mOHQueryHandler.get c).handler with
      | none => simp [hh] at hq
      | some h =>
        cases hs : st.mOHQueries c id with
        | none => simp [hh, hs] at hq
        | some q2 =>
          simp [hh, hs] at hq
          exact ⟨c, by simp [hh], by rw [hs, hq]⟩
    · exact ih hq

theorem clientQueries_withSeqNo (st : State) (id id2 : NodeID) (seqNo : SeqNoPtr)
    (classes : List ObjectClass) :
    clientQueries (st.withSeqNo id2 seqNo) id classes = clientQueries st id classes := by
  obtain ⟨h1, h2, -⟩ := withSeqNo_fields st id2 seqNo
  induction classes with
  | nil => rfl
  | cons c rest ih => simp only [clientQueries, ih, h1, h2]

/-- The refine and coarsen branches of `handleObjectHostProxMessage` once the
`nodes` field is known to be an array. -/
theorem handleObjectHostProxMessage_refine (uuidOfString : String → UUID) (ctx : Context)
    (id : NodeID) (params : JsonValue) (seqNo : SeqNoPtr) (st : State) (coarsen : Bool)
    (a : List JsonValue)
    (haction : params.getString "action" "" = if coarsen then "coarsen" else "refine")
    (hnodes : params.member "nodes" = some (.array a)) :
    handleObjectHostProxMessage uuidOfString ctx id (some params) seqNo st =
      match parseNodes uuidOfString a with
      | none => (st.withSeqNo id seqNo, [])
      | some nodes =>
        (st.withSeqNo id seqNo,
          refineQueryLoop coarsen id nodes (st.withSeqNo id seqNo) objectClasses) := by
  cases coarsen <;>
    simp only [handleObjectHostProxMessage, haction, JsonValue.contains, JsonValue.getArray,
      hnodes] <;> rfl

/-- The refine and coarsen branches of `handleObjectHostProxMessage` when the
`nodes` field is missing or is not an array. -/
theorem handleObjectHostProxMessage_refine_invalid (uuidOfString : String → UUID)
    (ctx : Context) (id : NodeID) (params : JsonValue) (seqNo : SeqNoPtr) (st : State)
    (coarsen : Bool)
    (haction : params.getString "action" "" = if coarsen then "coarsen" else "refine")
    (hnodes : params.member "nodes" = none ∨
      ∃ v, params.member "nodes" = some v ∧ v.isArray = false) :
    handleObjectHostProxMessage uuidOfString ctx id (some params) seqNo st =
      (st.withSeqNo id seqNo, []) := by
  rcases hnodes with h | ⟨v, h, hv⟩
  · cases coarsen <;>
      simp only [handleObjectHostProxMessage, haction, JsonValue.contains, h] <;> rfl
  · cases coarsen <;>
      simp only [handleObjectHostProxMessage, haction, JsonValue.contains, h, hv,
        Option.isSome_some, Option.elim_some, Bool.not_false, Bool.or_true, if_true] <;> rfl

/-- C11: for a well-formed `"refine"` command of client `id` whose `nodes` array is
the strings `n1..nk`, the calls made are, for each query of `id` in a class that
has a handler, in class order, `refine(n1), ..., refine(nk)` in list order; a
`"coarsen"` command makes the same calls with `coarsen` in place of `refine`.
The queries called are exactly the queries stored for `id` in `mOHQueries` (so
no query stored only for another client is called), and nothing is called if
`id` has no query. -/
theorem refine_calls_client_queries_in_order (uuidOfString : String → UUID) (ctx : Context)
    (id : NodeID) (params : JsonValue) (seqNo : SeqNoPtr) (st : State) (coarsen : Bool)
    (names : List String)
    (haction : params.getString "action" "" = if coarsen then "coarsen" else "refine")
    (hnodes : params.member "nodes" = some (.array (names.map JsonValue.str))) :
    (handleObjectHostProxMessage uuidOfString ctx id (some params) seqNo st).2 =
      ((clientQueries st id objectClasses).map (fun q =>
        names.map (fun n =>
          if coarsen then (QueryCall.coarsen q (uuidOfString n) : QueryCall State)
          else QueryCall.refine q (uuidOfString n)))).flatten ∧
    (∀ q, q ∈ clientQueries st id objectClasses ↔
      ∃ c, (st.mOHQueryHandler.get c).handler ≠ none ∧ st.mOHQueries c id = some q) ∧
    ((∀ c, st.mOHQueries c id = none) →
      (handleObjectHostProxMessage uuidOfString ctx id (some params) seqNo st).2 = []) := by
  have hlog : (handleObjectHostProxMessage uuidOfString ctx id (some params) seqNo st).2 =
      ((clientQueries st id objectClasses).map (fun q =>
        names.map (fun n =>
          if coarsen then (QueryCall.coarsen q (uuidOfString n) : QueryCall State)
          else QueryCall.refine q (uuidOfString n)))).flatten := by
    rw [handleObjectHostProxMessage_refine uuidOfString ctx id params seqNo st coarsen _
      haction hnodes, parseNodes_strings]
    simp only [refineQueryLoop_eq, clientQueries_withSeqNo, List.map_map]
    rfl
  refine ⟨hlog, ?_, ?_⟩
  · intro q
    constructor
    · exact clientQueries_stored st id objectClasses q
    · rintro ⟨c, hc, hq⟩
      cases hh : (st.mOHQueryHandler.get c).handler with
      | none => exact absurd hh hc
      | some h =>
        cases c <;> simp [clientQueries, objectClasses, hh, hq]
  · intro hnone
    rw [hlog]
    have : clientQueries st id objectClasses = [] := by
      simp only [clientQueries, objectClasses, hnone]
      cases (st.mOHQueryHandler.get OBJECT_CLASS_STATIC).handler <;>
        cases (st.mOHQueryHandler.get OBJECT_CLASS_DYNAMIC).handler <;> rfl
    rw [this]
    rfl

/-- C11, at a concrete input: client `55`, after its `init`, refines the nodes
`"a"` and `"b"`. -/
theorem refine_calls_client_queries_in_order_witness :
    (handleObjectHostProxMessage exampleUuidOfString exampleContext 55 (some exampleRefine) 77
        exampleAfterInit).2 =
      ((clientQueries exampleAfterInit 55 objectClasses).map (fun q =>
        ["a", "b"].map (fun n =>
          if false then (QueryCall.coarsen q (exampleUuidOfString n) : QueryCall State)
          else QueryCall.refine q (exampleUuidOfString n)))).flatten :=
  (refine_calls_client_queries_in_order exampleUuidOfString exampleContext 55 exampleRefine 77
    exampleAfterInit false ["a", "b"] (by decide) rfl).1

/-- C13: a `"refine"` or `"coarsen"` command is dropped as a whole on a type error:
if `nodes` is missing, is not an array, or holds an element that is not a string
(at any position), the handler makes no call at all and only the bookkeeping of
the sequence number pointer is done. -/
theorem refine_type_error_drops_command (uuidOfString : String → UUID) (ctx : Context)
    (id : NodeID) (params : JsonValue) (seqNo : SeqNoPtr) (st : State) (coarsen : Bool)
    (haction : params.getString "action" "" = if coarsen then "coarsen" else "refine")
    (hbad : params.member "nodes" = none ∨
      (∃ v, params.member "nodes" = some v ∧ v.isArray = false) ∨
      (∃ a, params.member "nodes" = some (.array a) ∧ ∃ v ∈ a, v.isString = false)) :
    handleObjectHostProxMessage uuidOfString ctx id (some params) seqNo st =
      (st.withSeqNo id seqNo, []) := by
  rcases hbad with h | h | ⟨a, h, hv⟩
  · exact handleObjectHostProxMessage_refine_invalid uuidOfString ctx id params seqNo st coarsen
      haction (Or.inl h)
  · exact handleObjectHostProxMessage_refine_invalid uuidOfString ctx id params seqNo st coarsen
      haction (Or.inr h)
  · rw [handleObjectHostProxMessage_refine uuidOfString ctx id params seqNo st coarsen a
      haction h, parseNodes_not_string uuidOfString a hv]

/-- C13, at a concrete input: a `"coarsen"` command whose second node is a number,
after a valid first node. -/
theorem refine_type_error_drops_command_witness :
    handleObjectHostProxMessage exampleUuidOfString exampleContext 55 (some exampleBadCoarsen) 77
        exampleAfterInit =
      (exampleAfterInit.withSeqNo 55 77, []) :=
  refine_type_error_drops_command exampleUuidOfString exampleContext 55 exampleBadCoarsen 77
    exampleAfterInit true (by decide)
    (Or.inr (Or.inr ⟨[.str "a", .int 1, .str "b"], rfl, .int 1, by simp, rfl⟩))

theorem withSeqNo_withSeqNo (st : State) (id : NodeID) (seqNo seqNo2 : SeqNoPtr) :
    (st.withSeqNo id seqNo).withSeqNo id seqNo2 = st.withSeqNo id seqNo := by
  unfold State.withSeqNo
  cases h : st.mOHSeqNos id with
  | none => simp
  | some p => simp [h]

theorem initQueryLoop_seqNos (ctx : Context) (id : NodeID) (st : State)
    (f : NodeID → Option SeqNoPtr) :
    (initQueryLoop ctx id objectClasses { st with mOHSeqNos := f }).1.mOHQueries =
      (initQueryLoop ctx id objectClasses st).1.mOHQueries ∧
    (initQueryLoop ctx id objectClasses { st with mOHSeqNos := f }).1.mInvertedOHQueries =
      (initQueryLoop ctx id objectClasses st).1.mInvertedOHQueries ∧
    (initQueryLoop ctx id objectClasses { st with mOHSeqNos := f }).1.mOHSeqNos = f ∧
    (∀ c, registeredQueries c (initQueryLoop ctx id objectClasses { st with mOHSeqNos := f }).2 =
      registeredQueries c (initQueryLoop ctx id objectClasses st).2) := by
  cases hS : (st.mOHQueryHandler.get OBJECT_CLASS_STATIC).handler <;>
    cases hD : (st.mOHQueryHandler.get OBJECT_CLASS_DYNAMIC).handler <;>
    simp [initQueryLoop, objectClasses, initQueryClass, hS, hD, registeredQueries]

theorem withSeqNo_eq_with (st : State) (id : NodeID) (seqNo : SeqNoPtr) :
    st.withSeqNo id seqNo = { st with mOHSeqNos := (st.withSeqNo id seqNo).mOHSeqNos } := by
  unfold State.withSeqNo
  cases h : st.mOHSeqNos id with
  | none => rfl
  | some p => rfl

/-- A message that is not valid JSON or whose action is none of the four known
actions only does the bookkeeping of the sequence number pointer. -/
theorem handleObjectHostProxMessage_ignored (uuidOfString : String → UUID) (ctx : Context)
    (id : NodeID) (query_params : Option JsonValue) (seqNo : SeqNoPtr) (st : State)
    (hign : isIgnoredMessage query_params = true) :
    handleObjectHostProxMessage uuidOfString ctx id query_params seqNo st =
      (st.withSeqNo id seqNo, []) := by
  cases query_params with
  | none => rfl
  | some params =>
    simp only [isIgnoredMessage, decide_eq_true_eq] at hign
    obtain ⟨h1, h2, h3, h4⟩ := hign
    simp only [handleObjectHostProxMessage, h1, h2, h3, h4, if_false]
    split <;> rfl

/-- C12: a message whose `query_parameters` is not valid JSON, or whose action is
missing, empty or none of `init`, `refine`, `coarsen`, `destroy`, is handled
without any call on a handler or a query and leaves `mOHQueries` and
`mInvertedOHQueries` (and the handlers) unchanged; a later well-formed `init` of
the same client registers the same queries and leaves the same `mOHQueries` and
`mInvertedOHQueries` as it would have without the bad message, and the whole
outcome is the same when both messages carry the same sequence number
pointer. -/
theorem ignored_message_then_init (uuidOfString : String → UUID) (ctx : Context)
    (id : NodeID) (query_params : Option JsonValue) (seqNo : SeqNoPtr) (st : State)
    (hign : isIgnoredMessage query_params = true) :
    (handleObjectHostProxMessage uuidOfString ctx id query_params seqNo st).2 = [] ∧
    (handleObjectHostProxMessage uuidOfString ctx id query_params seqNo st).1.mOHQueries =
      st.mOHQueries ∧
    (handleObjectHostProxMessage uuidOfString ctx id query_params seqNo st).1.mInvertedOHQueries =
      st.mInvertedOHQueries ∧
    (handleObjectHostProxMessage uuidOfString ctx id query_params seqNo st).1.mOHQueryHandler =
      st.mOHQueryHandler ∧
    (∀ (params : JsonValue) (seqNo2 : SeqNoPtr), params.getString "action" "" = "init" →
      (handleObjectHostProxMessage uuidOfString ctx id (some params) seqNo2
          (handleObjectHostProxMessage uuidOfString ctx id query_params seqNo st).1).1.mOHQueries =
        (handleObjectHostProxMessage uuidOfString ctx id (some params) seqNo2 st).1.mOHQueries ∧
      (handleObjectHostProxMessage uuidOfString ctx id (some params) seqNo2
          (handleObjectHostProxMessage uuidOfString ctx id query_params seqNo
            st).1).1.mInvertedOHQueries =
        (handleObjectHostProxMessage uuidOfString ctx id (some params) seqNo2
          st).1.mInvertedOHQueries ∧
      (∀ c, registeredQueries c
          (handleObjectHostProxMessage uuidOfString ctx id (some params) seqNo2
            (handleObjectHostProxMessage uuidOfString ctx id query_params seqNo st).1).2 =
        registeredQueries c
          (handleObjectHostProxMessage uuidOfString ctx id (some params) seqNo2 st).2) ∧
      (seqNo2 = seqNo →
        handleObjectHostProxMessage uuidOfString ctx id (some params) seqNo2
            (handleObjectHostProxMessage uuidOfString ctx id query_params seqNo st).1 =
          handleObjectHostProxMessage uuidOfString ctx id (some params) seqNo2 st)) := by
  rw [handleObjectHostProxMessage_ignored uuidOfString ctx id query_params seqNo st hign]
  obtain ⟨h1, h2, h3, -⟩ := withSeqNo_fields st id seqNo
  refine ⟨rfl, h2, h3, h1, ?_⟩
  intro params seqNo2 hinit
  have e1 : handleObjectHostProxMessage uuidOfString ctx id (some params) seqNo2
      (st.withSeqNo id seqNo) = initQueryLoop ctx id objectClasses (st.withSeqNo id seqNo) := by
    rw [handleObjectHostProxMessage_init uuidOfString ctx id params seqNo2 _ hinit]
    exact congrArg _ (withSeqNo_withSeqNo st id seqNo seqNo2)
  have e2 : handleObjectHostProxMessage uuidOfString ctx id (some params) seqNo2 st =
      initQueryLoop ctx id objectClasses (st.withSeqNo id seqNo2) :=
    handleObjectHostProxMessage_init uuidOfString ctx id params seqNo2 st hinit
  rw [e1, e2]
  have a1 := initQueryLoop_seqNos ctx id st (st.withSeqNo id seqNo).mOHSeqNos
  have a2 := initQueryLoop_seqNos ctx id st (st.withSeqNo id seqNo2).mOHSeqNos
  rw [← withSeqNo_eq_with] at a1 a2
  refine ⟨a1.1.trans a2.1.symm, a1.2.1.trans a2.2.1.symm,
    fun c => (a1.2.2.2 c).trans (a2.2.2.2 c).symm, ?_⟩
  intro h
  rw [h]

/-- C12, at a concrete input: client `55` sends a message that is not valid JSON
to the constructed proximity object. -/
theorem ignored_message_then_init_witness :
    (handleObjectHostProxMessage exampleUuidOfString exampleContext 55 none 77
      (construct true 2 (fun _ => 10))).2 = [] :=
  (ignored_message_then_init exampleUuidOfString exampleContext 55 none 77
    (construct true 2 (fun _ => 10)) rfl).1

/-! ## Command dispatch: the sequence number pointer of a client -/

theorem initQueryLoop_mOHSeqNos (ctx : Context) (id : NodeID) (st : State) :
    (initQueryLoop ctx id objectClasses st).1.mOHSeqNos = st.mOHSeqNos := by
  cases hS : (st.mOHQueryHandler.get OBJECT_CLASS_STATIC).handler <;>
    cases hD : (st.mOHQueryHandler.get OBJECT_CLASS_DYNAMIC).handler <;>
    simp [initQueryLoop, objectClasses, initQueryClass, hS, hD]

/-- A message other than a `"destroy"` command leaves `mOHSeqNos` as the first
statement of the handler set it. -/
theorem handleObjectHostProxMessage_mOHSeqNos (uuidOfString : String → UUID) (ctx : Context)
    (id : NodeID) (query_params : Option JsonValue) (seqNo : SeqNoPtr) (st : State)
    (hd : isDestroyMessage query_params = false) :
    (handleObjectHostProxMessage uuidOfString ctx id query_params seqNo st).1.mOHSeqNos =
      (st.withSeqNo id seqNo).mOHSeqNos := by
  cases query_params with
  | none => rfl
  | some params =>
    have hnd : ¬ params.getString "action" "" = "destroy" := by
      simpa [isDestroyMessage] using hd
    cases h : st.mOHSeqNos id <;>
      simp only [handleObjectHostProxMessage, State.withSeqNo, h, hnd, if_false] <;>
      split_ifs <;>
      first
      | rfl
      | exact initQueryLoop_mOHSeqNos ctx id _
      | (split <;> rfl)

/-- C14, as stated, fails for `"destroy"` commands: a first message of client `55`
that is a `destroy` leaves no entry for `55` in `mOHSeqNos`, and a `destroy`
that comes after an `init` removes the entry the `init` had stored. -/
theorem destroy_message_erases_seqno_bundle :
    (construct true 2 (fun _ => 10)).mOHSeqNos 55 = none ∧
    (handleObjectHostProxMessage exampleUuidOfString exampleContext 55 (some exampleDestroy) 77
      (construct true 2 (fun _ => 10))).1.mOHSeqNos 55 = none ∧
    exampleAfterInit.mOHSeqNos 55 = some 77 ∧
    (handleObjectHostProxMessage exampleUuidOfString exampleContext 55 (some exampleDestroy) 77
      exampleAfterInit).1.mOHSeqNos 55 = none := by
  decide

/-- C14, amended: after a message of client `id` that is not a `"destroy"` command
(an `init`, `refine`, `coarsen`, unknown or malformed message), the entry of
`id` in `mOHSeqNos` is the entry it had before if there was one, and the pointer
passed with the message otherwise, so an existing entry is never replaced by the
pointer of a later message; after a `"destroy"` command the client has no
entry; the entries of all other clients are never touched. -/
theorem seqno_bundle_first_contact (uuidOfString : String → UUID) (ctx : Context)
    (id : NodeID) (query_params : Option JsonValue) (seqNo : SeqNoPtr) (st : State) :
    (handleObjectHostProxMessage uuidOfString ctx id query_params seqNo st).1.mOHSeqNos id =
      (if isDestroyMessage query_params then none
        else some (match st.mOHSeqNos id with
          | some p => p
          | none => seqNo)) ∧
    (∀ id2, id2 ≠ id →
      (handleObjectHostProxMessage uuidOfString ctx id query_params seqNo st).1.mOHSeqNos id2 =
        st.mOHSeqNos id2) := by
  obtain ⟨-, -, -, -, hw1, hw2⟩ := withSeqNo_fields st id seqNo
  cases hd : isDestroyMessage query_params with
  | false =>
    rw [handleObjectHostProxMessage_mOHSeqNos uuidOfString ctx id query_params seqNo st hd]
    exact ⟨by simpa using hw1, hw2⟩
  | true =>
    cases query_params with
    | none => simp [isDestroyMessage] at hd
    | some params =>
      have haction : params.getString "action" "" = "destroy" := by
        simpa [isDestroyMessage] using hd
      have hdes := handleObjectHostProxMessage_destroy uuidOfString ctx id params seqNo st haction
      have hcd := destroyQuery_clientDestroyed id (st.withSeqNo id seqNo)
      have heq : handleObjectHostProxMessage uuidOfString ctx id (some params) seqNo st =
          destroyQuery id (st.withSeqNo id seqNo) := hdes
      rw [heq]
      refine ⟨by simpa using hcd.2.2.1, ?_⟩
      intro id2 hid
      rw [(hcd.2.2.2.1 id2 hid).2]
      exact hw2 id2 hid

/-! ## Introspection commands: theorems -/

/-- C20, as stated, fails: for a `force_rebuild` command that names the static
object host handler the error field of the result is a message that differs
from `"rebuilding not supported"`. -/
theorem commandForceRebuild_other_message :
    (parseHandlerName "oh-queries.static-objects").result = true ∧
    ∃ st msg, commandForceRebuild exampleForceRebuild exampleAfterInit =
        .ok (st, [("error", JsonValue.str msg)]) ∧
      msg ≠ "rebuilding not supported" :=
  ⟨by decide, exampleAfterInit,
    "Rebuilding manual proximity processors isn't supported yet.", rfl, by decide⟩

/-- C20, amended: for every `force_rebuild` command whose `handler` field is a
string that `parseHandlerName` accepts, `commandForceRebuild` returns a result
whose only field is `error`, with the value
`"Rebuilding manual proximity processors isn't supported yet."`, and the state
of the proximity object (handlers, queries, buckets) is unchanged. -/
theorem commandForceRebuild_not_supported (cmd : JsonValue) (st : State) (name : String)
    (hhandler : cmd.member "handler" = some (.str name))
    (hvalid : (parseHandlerName name).result = true) :
    commandForceRebuild cmd st =
      .ok (st, [("error",
        JsonValue.str "Rebuilding manual proximity processors isn't supported yet.")]) := by
  simp [commandForceRebuild, JsonValue.contains, JsonValue.getStringStrict, hhandler, hvalid,
    EmptyResult, CommandResult.put]

/-- C20 amended, at a concrete input: a `force_rebuild` of the static object host
handler. -/
theorem commandForceRebuild_not_supported_witness :
    commandForceRebuild exampleForceRebuild exampleAfterInit =
      .ok (exampleAfterInit, [("error",
        JsonValue.str "Rebuilding manual proximity processors isn't supported yet.")]) :=
  commandForceRebuild_not_supported exampleForceRebuild exampleAfterInit
    "oh-queries.static-objects" rfl (by decide)

/-! ## Query event pipeline: contents of the updates -/

/-- One iteration of the loop over the additions, whatever the values of the
counters: the posted task, the record apart from its sequence number, the
counter `count` and the index properties. -/
theorem queryHasEventsAddition_update (ctx : Context) (cache : LocationServiceCache)
    (query : ProxQuery) (query_id : NodeID) (p : SeqNoPtr) (evt : ProxQueryEvent) (aidx : Nat)
    (a : QueryEventAddition) (w : EventWork) (hq : query.ofHandlers w.st) :
    ∃ w2, queryHasEventsAddition ctx cache query query_id p evt aidx a w = .ok w2 ∧
      sameQueryMaps w.st w2.st ∧ w2.st.mOHResults = w.st.mOHResults ∧
      w2.st.mainStrand = w.st.mainStrand ++
        (if cache.tracking a.id then
          [MainStrandTask.handleAddOHLocSubscriptionWithID query_id a.id evt.indexID] else []) ∧
      w2.event_results.addition.map ObjectAddition.clearSeqno =
        w.event_results.addition.map ObjectAddition.clearSeqno ++
          (if cache.tracking a.id then [expectedAddition cache a] else []) ∧
      w2.event_results.removal = w.event_results.removal ∧
      w2.count = (if cache.tracking a.id then (w.count + 1) % 2 ^ 32 else w.count) ∧
      w2.event_results.index_properties =
        (if cache.tracking a.id = true ∧ a.parent = UUID.null ∧ aidx = 0 ∧
            evt.additions.length = 1 ∧ evt.removals.length = 0 then
          some
            { id := (match w.event_results.index_properties with
                | some ip => ip
                | none => { id := none, index_id := none, dynamic_classification := none }).id
              index_id := some (toString ctx.id)
              dynamic_classification :=
                some (if query.handler =
                    (w.st.mOHQueryHandler.get OBJECT_CLASS_STATIC).handlerAddr then
                  DynamicClassification.Static else DynamicClassification.Dynamic) }
        else w.event_results.index_properties) := by
  by_cases ht : cache.tracking a.id = true
  · have hS : query.handler ≠ (w.st.mOHQueryHandler.get OBJECT_CLASS_STATIC).handlerAddr →
        query.handler = (w.st.mOHQueryHandler.get OBJECT_CLASS_DYNAMIC).handlerAddr := by
      intro h1
      rcases hq with h | h
      · exact absurd h h1
      · exact h
    simp only [queryHasEventsAddition, State.post, State.postIncrSeqNo, ht, if_true, true_and]
    by_cases hp : a.parent ≠ UUID.null
    · have hc : ¬ (a.parent = UUID.null ∧ aidx = 0 ∧ evt.additions.length = 1 ∧
          evt.removals.length = 0) := fun h => hp h.1
      rw [if_pos hp, if_neg hc]
      refine ⟨_, rfl, ⟨rfl, rfl, rfl, rfl⟩, rfl, rfl, ?_, rfl, rfl, rfl⟩
      simp [ObjectAddition.clearSeqno, expectedAddition, hp]
    · rw [if_neg hp]
      have hp2 : a.parent = UUID.null := by
        by_contra h
        exact hp h
      by_cases hl : aidx = 0 ∧ evt.additions.length = 1 ∧ evt.removals.length = 0
      · have hc : a.parent = UUID.null ∧ aidx = 0 ∧ evt.additions.length = 1 ∧
            evt.removals.length = 0 := ⟨hp2, hl⟩
        rw [if_pos hl, if_pos hc]
        by_cases h1 : query.handler =
            (w.st.mOHQueryHandler.get OBJECT_CLASS_STATIC).handlerAddr
        · rw [if_pos h1, if_pos h1]
          refine ⟨_, rfl, ⟨rfl, rfl, rfl, rfl⟩, rfl, rfl, ?_, rfl, rfl, rfl⟩
          simp [ObjectAddition.clearSeqno, expectedAddition, hp2]
        · rw [if_neg h1, if_pos (hS h1), if_neg h1]
          refine ⟨_, rfl, ⟨rfl, rfl, rfl, rfl⟩, rfl, rfl, ?_, rfl, rfl, rfl⟩
          simp [ObjectAddition.clearSeqno, expectedAddition, hp2]
      · have hc : ¬ (a.parent = UUID.null ∧ aidx = 0 ∧ evt.additions.length = 1 ∧
            evt.removals.length = 0) := fun h => hl h.2
        rw [if_neg hl, if_neg hc]
        refine ⟨_, rfl, ⟨rfl, rfl, rfl, rfl⟩, rfl, rfl, ?_, rfl, rfl, rfl⟩
        simp [ObjectAddition.clearSeqno, expectedAddition, hp2]
  · simp only [queryHasEventsAddition, ht, if_false, false_and]
    refine ⟨w, rfl, sameQueryMaps_refl _, rfl, ?_, ?_, rfl, ?_, rfl⟩
    · simp
    · simp
    · simp

/-- The loop over the additions, whatever the values of the counters. -/
theorem queryHasEventsAdditions_update (ctx : Context) (cache : LocationServiceCache)
    (query : ProxQuery) (query_id : NodeID) (p : SeqNoPtr) (evt : ProxQueryEvent)
    (l : List QueryEventAddition) :
    ∀ (aidx : Nat) (w : EventWork), query.ofHandlers w.st →
      ∃ w2, queryHasEventsAdditions ctx cache query query_id p evt aidx l w = .ok w2 ∧
        sameQueryMaps w.st w2.st ∧ w2.st.mOHResults = w.st.mOHResults ∧
        w2.st.mainStrand = w.st.mainStrand ++
          (l.filter (fun a => cache.tracking a.id)).map
            (fun a => MainStrandTask.handleAddOHLocSubscriptionWithID query_id a.id evt.indexID) ∧
        w2.event_results.addition.map ObjectAddition.clearSeqno =
          w.event_results.addition.map ObjectAddition.clearSeqno ++
            (l.filter (fun a => cache.tracking a.id)).map (expectedAddition cache) ∧
        w2.event_results.removal = w.event_results.removal ∧
        (w.count + (l.filter (fun a => cache.tracking a.id)).length < 2 ^ 32 →
          w2.count = w.count + (l.filter (fun a => cache.tracking a.id)).length) ∧
        ((aidx ≠ 0 ∨ evt.additions.length ≠ 1 ∨ evt.removals.length ≠ 0 ∨
            ∀ a ∈ l, ¬ (cache.tracking a.id = true ∧ a.parent = UUID.null)) →
          w2.event_results.index_properties = w.event_results.index_properties) := by
  induction l with
  | nil =>
    intro aidx w _
    exact ⟨w, rfl, sameQueryMaps_refl _, rfl, by simp, by simp, rfl, fun _ => by simp,
      fun _ => rfl⟩
  | cons a l ih =>
    intro aidx w hq
    obtain ⟨w1, hw1, hs1, hr1, hm1, ha1, hrm1, hc1, hi1⟩ :=
      queryHasEventsAddition_update ctx cache query query_id p evt aidx a w hq
    obtain ⟨w2, hw2, hs2, hr2, hm2, ha2, hrm2, hc2, hi2⟩ :=
      ih (aidx + 1) w1 (ofHandlers_of_same hs1 hq)
    refine ⟨w2, ?_, sameQueryMaps_trans hs1 hs2, hr2.trans hr1, ?_, ?_, hrm2.trans hrm1, ?_, ?_⟩
    · simp [queryHasEventsAdditions, hw1, hw2]
    · rw [hm2, hm1]
      by_cases ht : cache.tracking a.id = true <;> simp [List.filter_cons, ht]
    · rw [ha2, ha1]
      by_cases ht : cache.tracking a.id = true <;> simp [List.filter_cons, ht]
    · by_cases ht : cache.tracking a.id = true
      · simp only [List.filter_cons, ht, if_true, List.length_cons] at hc1 hc2 ⊢
        intro hlt
        have e1 : w1.count = w.count + 1 := by
          rw [hc1]
          exact Nat.mod_eq_of_lt (by omega)
        rw [hc2 (by omega), e1]
        omega
      · have ht2 : cache.tracking a.id = false := by
          cases h : cache.tracking a.id
          · rfl
          · exact absurd h ht
        simp only [List.filter_cons, ht2, Bool.false_eq_true, if_false] at hc1 hc2 ⊢
        intro hlt
        rw [hc2 (by omega), hc1]
    · intro hno
      rw [hi2 (Or.inl (Nat.succ_ne_zero aidx)), hi1, if_neg]
      rintro ⟨h1, h2, h3, h4, h5⟩
      rcases hno with h | h | h | h
      · exact h h3
      · exact h h4
      · exact h h5
      · exact h a (List.mem_cons_self _ _) ⟨h1, h2⟩

/-- The loop over the removals, whatever the values of the counters. -/
theorem queryHasEventsRemovals_update (query_id : NodeID) (p : SeqNoPtr) (evt : ProxQueryEvent)
    (l : List QueryEventRemoval) :
    ∀ (w : EventWork),
      sameQueryMaps w.st (queryHasEventsRemovals query_id p evt l w).st ∧
      (queryHasEventsRemovals query_id p evt l w).st.mOHResults = w.st.mOHResults ∧
      (queryHasEventsRemovals query_id p evt l w).st.mainStrand = w.st.mainStrand ++
        l.map (fun r =>
          MainStrandTask.handleRemoveOHLocSubscriptionWithID query_id r.id evt.indexID) ∧
      (queryHasEventsRemovals query_id p evt l w).event_results.removal.map
          ObjectRemoval.clearSeqno =
        w.event_results.removal.map ObjectRemoval.clearSeqno ++ l.map expectedRemoval ∧
      (queryHasEventsRemovals query_id p evt l w).event_results.addition =
        w.event_results.addition ∧
      (queryHasEventsRemovals query_id p evt l w).event_results.index_properties =
        w.event_results.index_properties ∧
      (w.count + l.length < 2 ^ 32 →
        (queryHasEventsRemovals query_id p evt l w).count = w.count + l.length) := by
  induction l with
  | nil =>
    intro w
    exact ⟨sameQueryMaps_refl _, rfl, by simp [queryHasEventsRemovals],
      by simp [queryHasEventsRemovals], rfl, rfl, fun _ => rfl⟩
  | cons r l ih =>
    intro w
    obtain ⟨hs2, hr2, hm2, hrm2, ha2, hi2, hc2⟩ := ih (queryHasEventsRemoval query_id p evt r w)
    refine ⟨?_, ?_, ?_, ?_, ?_, ?_, ?_⟩
    · exact sameQueryMaps_trans ⟨rfl, rfl, rfl, rfl⟩ hs2
    · exact hr2
    · simp only [queryHasEventsRemovals, hm2]
      simp [queryHasEventsRemoval, State.post, State.postIncrSeqNo]
    · simp only [queryHasEventsRemovals, hrm2]
      simp [queryHasEventsRemoval, ObjectRemoval.clearSeqno, expectedRemoval]
    · exact ha2
    · exact hi2
    · intro hlt
      simp only [List.length_cons] at hlt
      have e1 : (queryHasEventsRemoval query_id p evt r w).count = w.count + 1 :=
        Nat.mod_eq_of_lt (by omega)
      simp only [queryHasEventsRemovals, List.length_cons]
      rw [hc2 (by rw [e1]; omega), e1]
      omega

theorem isLoneRootAddition_iff (cache : LocationServiceCache) (evt : ProxQueryEvent) :
    evt.isLoneRootAddition cache = true ↔
      ∃ a, evt.additions = [a] ∧ cache.tracking a.id = true ∧ a.parent = UUID.null ∧
        evt.removals.length = 0 := by
  unfold ProxQueryEvent.isLoneRootAddition
  cases h : evt.additions with
  | nil => simp
  | cons a rest =>
    cases rest with
    | nil => simp [and_assoc]
    | cons b rest => simp

/-- One event, whatever the values of the counters: the processing succeeds, and
apart from the sequence numbers the update built is the update described for
the event, and the tasks posted are the tasks described for the event. -/
theorem queryHasEventsEvent_update (ctx : Context) (cache : LocationServiceCache)
    (query : ProxQuery) (query_id : NodeID) (p : SeqNoPtr) (evt : ProxQueryEvent)
    (st : State) (count : Nat) (hq : query.ofHandlers st) :
    ∃ w, queryHasEventsEvent ctx cache query query_id p evt st count = .ok w ∧
      sameQueryMaps st w.st ∧ w.st.mOHResults = st.mOHResults ∧
      w.st.mainStrand = st.mainStrand ++ eventSubscriptions query_id cache evt ∧
      w.event_results.clearSeqnos = expectedUpdate ctx cache query st.mOHQueryHandler evt ∧
      (count + evt.numRecords cache < 2 ^ 32 → w.count = count + evt.numRecords cache) := by
  obtain ⟨w1, hw1, hs1, hr1, hm1, ha1, hrm1, hc1, hi1⟩ :=
    queryHasEventsAdditions_update ctx cache query query_id p evt evt.additions 0
      (EventWork.start st count evt) hq
  obtain ⟨hs2, hr2, hm2, hrm2, ha2, hi2, hc2⟩ :=
    queryHasEventsRemovals_update query_id p evt evt.removals w1
  have hip : w1.event_results.index_properties =
      (expectedUpdate ctx cache query st.mOHQueryHandler evt).index_properties := by
    by_cases hl : evt.isLoneRootAddition cache = true
    · obtain ⟨a, hadd, ht, hp, hrem⟩ := (isLoneRootAddition_iff cache evt).1 hl
      obtain ⟨w1b, hw1b, -, -, -, -, -, -, hi1b⟩ :=
        queryHasEventsAddition_update ctx cache query query_id p evt 0 a
          (EventWork.start st count evt) hq
      have hw : w1 = w1b := by
        rw [hadd] at hw1
        simp only [queryHasEventsAdditions, hw1b] at hw1
        exact (Except.ok.inj hw1).symm
      rw [hw, hi1b, if_pos ⟨ht, hp, rfl, by rw [hadd]; rfl, hrem⟩]
      simp [expectedUpdate, hl, EventWork.start]
    · have hno : (0 : Nat) ≠ 0 ∨ evt.additions.length ≠ 1 ∨ evt.removals.length ≠ 0 ∨
          ∀ a ∈ evt.additions, ¬ (cache.tracking a.id = true ∧ a.parent = UUID.null) := by
        by_cases h1 : evt.additions.length = 1
        · by_cases h2 : evt.removals.length = 0
          · refine Or.inr (Or.inr (Or.inr ?_))
            intro a ha hta
            apply hl
            rw [isLoneRootAddition_iff]
            obtain ⟨b, hb⟩ := List.length_eq_one.1 h1
            rw [hb] at ha
            have hab : a = b := List.mem_singleton.1 ha
            subst hab
            exact ⟨a, hb, hta.1, hta.2, h2⟩
          · exact Or.inr (Or.inr (Or.inl h2))
        · exact Or.inr (Or.inl h1)
      rw [hi1 hno]
      have hlf : evt.isLoneRootAddition cache = false := by
        cases h : evt.isLoneRootAddition cache
        · rfl
        · exact absurd h hl
      simp [expectedUpdate, hlf, EventWork.start]
  refine ⟨queryHasEventsRemovals query_id p evt evt.removals w1, ?_,
    sameQueryMaps_trans hs1 hs2, hr2.trans hr1, ?_, ?_, ?_⟩
  · have hw1b : queryHasEventsAdditions ctx cache query query_id p evt 0 evt.additions
        { st := st, count := count,
          event_results :=
            { index_properties :=
                some { id := some evt.indexID, index_id := none, dynamic_classification := none }
              addition := []
              removal := [] } } = .ok w1 := hw1
    simp only [queryHasEventsEvent, hw1b]
  · rw [hm2, hm1]
    simp [eventSubscriptions, EventWork.start]
  · have e1 : (queryHasEventsRemovals query_id p evt evt.removals w1).event_results.clearSeqnos =
        { index_properties :=
            (queryHasEventsRemovals query_id p evt evt.removals w1).event_results.index_properties
          addition :=
            (queryHasEventsRemovals query_id p evt evt.removals
              w1).event_results.addition.map ObjectAddition.clearSeqno
          removal :=
            (queryHasEventsRemovals query_id p evt evt.removals
              w1).event_results.removal.map ObjectRemoval.clearSeqno } := rfl
    rw [e1, hi2, hrm2, ha2, ha1, hrm1, hip]
    simp [expectedUpdate, EventWork.start]
  · intro hlt
    unfold ProxQueryEvent.numRecords at hlt ⊢
    have hcs : (EventWork.start st count evt).count = count := rfl
    rw [hcs] at hc1
    rw [hc2 (by rw [hc1 (by omega)]; omega), hc1 (by omega)]
    omega

theorem numEntries_clearSeqnos (u : ProximityUpdate) :
    u.clearSeqnos.numEntries = u.numEntries := by
  simp [ProximityUpdate.clearSeqnos, ProximityUpdate.numEntries]

theorem numEntries_expectedUpdate (ctx : Context) (cache : LocationServiceCache)
    (query : ProxQuery) (qh : HandlerArray) (evt : ProxQueryEvent) :
    (expectedUpdate ctx cache query qh evt).numEntries = evt.numRecords cache := by
  simp [expectedUpdate, ProximityUpdate.numEntries, ProxQueryEvent.numRecords]

theorem numRecords_append (cache : LocationServiceCache) (l1 l2 : QueryEventList) :
    numRecords cache (l1 ++ l2) = numRecords cache l1 + numRecords cache l2 := by
  simp [numRecords]

/-- The inner loop, whatever the values of the counters: it succeeds, consumes a
prefix of the events (a non-empty one when it starts below `max_count` on a
non-empty list) and adds one update per consumed event, in order; as long as
`count` does not wrap, the entries counted before the last update added are
fewer than `max_count`. -/
theorem queryHasEventsFrame_updates (ctx : Context) (cache : LocationServiceCache)
    (query : ProxQuery) (query_id : NodeID) (p : SeqNoPtr) (max_count : Nat)
    (evts : QueryEventList) :
    ∀ (st : State) (count : Nat) (update : List ProximityUpdate), query.ofHandlers st →
      ∃ f consumed added,
        queryHasEventsFrame ctx cache query query_id p max_count evts st count update = .ok f ∧
        sameQueryMaps st f.st ∧ f.st.mOHResults = st.mOHResults ∧
        evts = consumed ++ f.evts ∧
        (count < max_count → evts ≠ [] → consumed ≠ []) ∧
        f.update = update ++ added ∧
        added.map ProximityUpdate.clearSeqnos =
          consumed.map (expectedUpdate ctx cache query st.mOHQueryHandler) ∧
        f.st.mainStrand =
          st.mainStrand ++ (consumed.map (eventSubscriptions query_id cache)).flatten ∧
        (count + numRecords cache evts < 2 ^ 32 →
          added = [] ∨ ∃ ni nl, added = ni ++ [nl] ∧
            count + (ni.map ProximityUpdate.numEntries).sum < max_count) := by
  induction evts with
  | nil =>
    intro st count update _
    exact ⟨_, [], [], rfl, sameQueryMaps_refl _, rfl, rfl, fun _ h => absurd rfl h, by simp,
      rfl, by simp, fun _ => Or.inl rfl⟩
  | cons evt rest ih =>
    intro st count update hq
    by_cases hc : count < max_count
    · obtain ⟨w, hw, hs1, hr1, hm1, hu1, hc1⟩ :=
        queryHasEventsEvent_update ctx cache query query_id p evt st count hq
      obtain ⟨f, consumed, added, hf, hs2, hr2, hev, -, hup, hcl, hm2, hcnt⟩ :=
        ih w.st w.count (update ++ [w.event_results]) (ofHandlers_of_same hs1 hq)
      have hne : w.event_results.numEntries = evt.numRecords cache := by
        rw [← numEntries_clearSeqnos, hu1, numEntries_expectedUpdate]
      refine ⟨f, evt :: consumed, w.event_results :: added, ?_, sameQueryMaps_trans hs1 hs2,
        hr2.trans hr1, ?_, ?_, ?_, ?_, ?_, ?_⟩
      · simp only [queryHasEventsFrame, hc, if_true, hw, hf]
      · rw [List.cons_append, ← hev]
      · intro _ _
        simp
      · rw [hup, List.append_assoc]
        rfl
      · rw [List.map_cons, List.map_cons, hu1, hcl, hs1.1]
      · rw [hm2, hm1]
        simp
      · intro hlt
        rw [numRecords_cons] at hlt
        have hwc : w.count = count + evt.numRecords cache := hc1 (by omega)
        rcases hcnt (by rw [hwc]; omega) with h | ⟨ni, nl, h, hlt2⟩
        · refine Or.inr ⟨[], w.event_results, by rw [h]; rfl, ?_⟩
          simpa using hc
        · refine Or.inr ⟨w.event_results :: ni, nl, by rw [h]; rfl, ?_⟩
          simp only [List.map_cons, List.sum_cons, hne]
          rw [hwc] at hlt2
          omega
    · refine ⟨{ st := st, count := count, update := update, evts := evt :: rest }, [], [],
        by simp only [queryHasEventsFrame, hc, if_false], sameQueryMaps_refl _, rfl, rfl,
        fun h => absurd h hc, by simp, rfl, by simp, fun _ => Or.inl rfl⟩

theorem frameUpdates_cons (r : OHResult) (rs : List OHResult) :
    frameUpdates (r :: rs) = r.2.payload.update ++ frameUpdates rs := by
  simp [frameUpdates]

/-- The outer loop, whatever the values of the counters: with `max_count ≥ 1` and
as much fuel as there are events it succeeds; the frames it pushes hold, in
order, one update per event, which apart from the sequence numbers is the update
described for the event; the tasks posted are the tasks described for the
events, in order; every frame is addressed to `query_id`, stamped with the
simulation time and not empty; there are at most as many frames as events; and
as long as `count` does not wrap, the updates of a frame before its last one
hold fewer than `max_count` entries. -/
theorem queryHasEventsLoop_updates (ctx : Context) (cache : LocationServiceCache)
    (query : ProxQuery) (query_id : NodeID) (p : SeqNoPtr) (max_count : Nat)
    (hmax : 1 ≤ max_count) (fuel : Nat) :
    ∀ (evts : QueryEventList) (st : State), evts.length ≤ fuel → query.ofHandlers st →
      ∃ st2 frames,
        queryHasEventsLoop ctx cache query query_id p max_count fuel evts st = .ok st2 ∧
        sameQueryMaps st st2 ∧
        st2.mOHResults = st.mOHResults ++ frames ∧
        (frameUpdates frames).map ProximityUpdate.clearSeqnos =
          evts.map (expectedUpdate ctx cache query st.mOHQueryHandler) ∧
        st2.mainStrand =
          st.mainStrand ++ (evts.map (eventSubscriptions query_id cache)).flatten ∧
        (∀ r ∈ frames, r.1 = query_id ∧ r.2.payload.update ≠ [] ∧
          r.2 = createObjectMessage ctx.id UUID.null OBJECT_PORT_PROXIMITY UUID.null
            OBJECT_PORT_PROXIMITY { t := ctx.simTime, update := r.2.payload.update }) ∧
        frames.length ≤ evts.length ∧
        (numRecords cache evts < 2 ^ 32 →
          ∀ r ∈ frames, ∃ ni nl, r.2.payload.update = ni ++ [nl] ∧
            (ni.map ProximityUpdate.numEntries).sum < max_count) := by
  induction fuel with
  | zero =>
    intro evts st hlen _
    have hnil : evts = [] := List.length_eq_zero.1 (Nat.le_zero.1 hlen)
    subst hnil
    exact ⟨st, [], rfl, sameQueryMaps_refl _, by simp, by simp [frameUpdates], by simp,
      by simp, by simp, by simp⟩
  | succ fuel ih =>
    intro evts st hlen hq
    cases evts with
    | nil =>
      exact ⟨st, [], rfl, sameQueryMaps_refl _, by simp, by simp [frameUpdates], by simp,
        by simp, by simp, by simp⟩
    | cons evt rest =>
      obtain ⟨f, consumed, added, hf, hs1, hr1, hev, hprog, hup, hcl, hm1, hcnt⟩ :=
        queryHasEventsFrame_updates ctx cache query query_id p max_count (evt :: rest) st 0 []
          hq
      have hcne : consumed ≠ [] := hprog (by omega) (by simp)
      have hlenc : 0 < consumed.length := List.length_pos.2 hcne
      have hlen2 : (evt :: rest).length = consumed.length + f.evts.length := by
        rw [hev, List.length_append]
      have hadd : added ≠ [] := by
        intro h
        rw [h] at hcl
        have := congrArg List.length hcl
        simp at this
        omega
      have hs1b : sameQueryMaps st
          { f.st with
            mOHResults := f.st.mOHResults ++
              [(query_id, createObjectMessage ctx.id UUID.null OBJECT_PORT_PROXIMITY UUID.null
                OBJECT_PORT_PROXIMITY { t := ctx.simTime, update := f.update })] } :=
        ⟨hs1.1, hs1.2.1, hs1.2.2.1, hs1.2.2.2⟩
      obtain ⟨st2, frames, hst2, hs2, hfr, hcl2, hm2, hall, hnum, hcnt2⟩ :=
        ih f.evts
          { f.st with
            mOHResults := f.st.mOHResults ++
              [(query_id, createObjectMessage ctx.id UUID.null OBJECT_PORT_PROXIMITY UUID.null
                OBJECT_PORT_PROXIMITY { t := ctx.simTime, update := f.update })] }
          (by omega) (ofHandlers_of_same hs1b hq)
      have hfu : f.update = added := by rw [hup]; rfl
      refine ⟨st2,
        (query_id, createObjectMessage ctx.id UUID.null OBJECT_PORT_PROXIMITY UUID.null
          OBJECT_PORT_PROXIMITY { t := ctx.simTime, update := f.update }) :: frames,
        ?_, sameQueryMaps_trans hs1b hs2, ?_, ?_, ?_, ?_, ?_, ?_⟩
      · simp only [queryHasEventsLoop, hf]
        exact hst2
      · rw [hfr]
        show (f.st.mOHResults ++ _) ++ frames = _
        rw [hr1]
        simp
      · rw [frameUpdates_cons, List.map_append, hcl2]
        show List.map ProximityUpdate.clearSeqnos f.update ++
          List.map (expectedUpdate ctx cache query f.st.mOHQueryHandler) f.evts = _
        rw [hfu, hcl, hs1.1, ← List.map_append, ← hev]
      · rw [hm2]
        show (f.st.mainStrand ++ _) = _
        rw [hm1, List.append_assoc, ← List.flatten_append, ← List.map_append, ← hev]
      · intro r hr
        rcases List.mem_cons.1 hr with rfl | hr
        · refine ⟨rfl, ?_, rfl⟩
          show f.update ≠ []
          rw [hfu]
          exact hadd
        · exact hall r hr
      · simp only [List.length_cons] at hlen2 ⊢
        omega
      · intro hlt
        have hsplit : numRecords cache (evt :: rest) =
            numRecords cache consumed + numRecords cache f.evts := by
          rw [← numRecords_append, ← hev]
        intro r hr
        rcases List.mem_cons.1 hr with rfl | hr
        · rcases hcnt (by omega) with h | ⟨ni, nl, h, hlt2⟩
          · exact absurd h hadd
          · refine ⟨ni, nl, ?_, by omega⟩
            show f.update = _
            rw [hfu, h]
        · exact hcnt2 (by omega) r hr

/-- One `queryHasEvents` call for a registered query, whatever the values of the
counters. -/
theorem queryHasEvents_updates (ctx : Context) (cache : LocationServiceCache) (fuel : Nat)
    (query : ProxQuery) (evts : QueryEventList) (st : State) (id : NodeID) (p : SeqNoPtr)
    (hmax : 1 ≤ ctx.PROX_MAX_PER_RESULT)
    (hinv : st.mInvertedOHQueries query.addr = some id) (hseq : st.mOHSeqNos id = some p)
    (hq : query.ofHandlers st) (hlen : evts.length ≤ fuel) :
    ∃ st2 frames, queryHasEvents ctx cache fuel query evts st = .ok st2 ∧
      sameQueryMaps st st2 ∧
      st2.mOHResults = st.mOHResults ++ frames ∧
      (frameUpdates frames).map ProximityUpdate.clearSeqnos =
        evts.map (expectedUpdate ctx cache query st.mOHQueryHandler) ∧
      st2.mainStrand = st.mainStrand ++ (evts.map (eventSubscriptions id cache)).flatten ∧
      (∀ r ∈ frames, r.1 = id ∧ r.2.payload.update ≠ [] ∧
        r.2 = createObjectMessage ctx.id UUID.null OBJECT_PORT_PROXIMITY UUID.null
          OBJECT_PORT_PROXIMITY { t := ctx.simTime, update := r.2.payload.update }) ∧
      frames.length ≤ evts.length ∧
      (numRecords cache evts < 2 ^ 32 →
        ∀ r ∈ frames, ∃ ni nl, r.2.payload.update = ni ++ [nl] ∧
          (ni.map ProximityUpdate.numEntries).sum < ctx.PROX_MAX_PER_RESULT) := by
  have h := queryHasEventsLoop_updates ctx cache query id p ctx.PROX_MAX_PER_RESULT hmax fuel
    evts st hlen hq
  simpa only [queryHasEvents, State.invertedOHQuery, getSeqNoInfo, hinv, hseq] using h

theorem subscriptions_clearSeqnos (client : NodeID) (u : ProximityUpdate) :
    u.clearSeqnos.subscriptions client = u.subscriptions client := by
  simp [ProximityUpdate.subscriptions, ProximityUpdate.clearSeqnos, ProximityUpdate.indexID,
    ObjectAddition.clearSeqno, ObjectRemoval.clearSeqno, Function.comp_def]

theorem subscriptions_expectedUpdate (client : NodeID) (ctx : Context)
    (cache : LocationServiceCache) (query : ProxQuery) (qh : HandlerArray)
    (evt : ProxQueryEvent) :
    (expectedUpdate ctx cache query qh evt).subscriptions client =
      eventSubscriptions client cache evt := by
  simp [ProximityUpdate.subscriptions, expectedUpdate, eventSubscriptions,
    ProximityUpdate.indexID, expectedAddition, expectedRemoval, Function.comp_def]

/-- The update at position `i` of a list of updates that matches a list of events
apart from the sequence numbers. -/
theorem update_at_event {updates : List ProximityUpdate} {evts : QueryEventList}
    {expected : ProxQueryEvent → ProximityUpdate}
    (hmap : updates.map ProximityUpdate.clearSeqnos = evts.map expected) {i : Nat}
    {evt : ProxQueryEvent} (hevt : evts[i]? = some evt) :
    ∃ u, updates[i]? = some u ∧ u.clearSeqnos = expected evt := by
  have h := congrArg (fun l => l[i]?) hmap
  simp only [List.getElem?_map, hevt, Option.map_some'] at h
  cases hu : updates[i]? with
  | none => simp [hu] at h
  | some u =>
    simp only [hu, Option.map_some', Option.some.injEq] at h
    exact ⟨u, rfl, h⟩

theorem not_isLoneRootAddition (cache : LocationServiceCache) (evt : ProxQueryEvent)
    (hnon : evt.removals ≠ [] ∨ 1 < evt.additions.length ∨
      ∃ a, evt.additions = [a] ∧ a.parent ≠ UUID.null) :
    evt.isLoneRootAddition cache = false := by
  cases h : evt.isLoneRootAddition cache with
  | false => rfl
  | true =>
    obtain ⟨a, hadd, -, hp, hrem⟩ := (isLoneRootAddition_iff cache evt).1 h
    rcases hnon with h1 | h1 | ⟨b, hb, hpb⟩
    · exact absurd (List.length_eq_zero.1 hrem) h1
    · rw [hadd] at h1
      simp at h1
    · rw [hadd] at hb
      simp only [List.cons.injEq, and_true] at hb
      subst hb
      exact absurd hp hpb

/-! ## Query event pipeline: theorems on the contents of the frames -/

/-- C15, as stated, fails: with `max_per_result = 2` and the events of
`exampleEvents`, the first frame holds an update of one entry and an update of
three entries: the frame carries four entries and its second update three, more
than `max_per_result`. -/
theorem queryHasEvents_frame_exceeds_max :
    exampleContext.PROX_MAX_PER_RESULT = 2 ∧
    resultEntries
      (queryHasEvents exampleContext exampleCache 3 ⟨1, 1⟩ exampleEvents exampleAfterInit) =
      [[1, 3], [1]] := by
  decide

/-- C15, amended: for every event list (with fewer than `2^32` records, so that
the `uint32` counter does not wrap) and every `max_per_result ≥ 1`, a result frame
is closed as soon as the entries counted reach `max_per_result`, and an event is
never split: in every frame built by `queryHasEvents` the updates before the
last one carry fewer than `max_per_result` entries in total.  The last update,
and with it the frame, can exceed `max_per_result`. -/
theorem queryHasEvents_frame_entries (ctx : Context) (cache : LocationServiceCache)
    (fuel : Nat) (query : ProxQuery) (evts : QueryEventList) (st : State) (id : NodeID)
    (p : SeqNoPtr) (hmax : 1 ≤ ctx.PROX_MAX_PER_RESULT)
    (hinv : st.mInvertedOHQueries query.addr = some id) (hseq : st.mOHSeqNos id = some p)
    (hq : query.ofHandlers st) (hlen : evts.length ≤ fuel)
    (hcount : numRecords cache evts < 2 ^ 32) :
    ∃ st2 frames, queryHasEvents ctx cache fuel query evts st = .ok st2 ∧
      st2.mOHResults = st.mOHResults ++ frames ∧
      ∀ r ∈ frames, ∃ ni nl, r.2.payload.update = ni ++ [nl] ∧
        (ni.map ProximityUpdate.numEntries).sum < ctx.PROX_MAX_PER_RESULT := by
  obtain ⟨st2, frames, hst2, -, hfr, -, -, -, -, hcnt⟩ :=
    queryHasEvents_updates ctx cache fuel query evts st id p hmax hinv hseq hq hlen
  exact ⟨st2, frames, hst2, hfr, hcnt hcount⟩

/-- C15 amended, at a concrete input: the static query of client `55` and the
events of `exampleEvents`. -/
theorem queryHasEvents_frame_entries_witness :
    ∃ st2 frames,
      queryHasEvents exampleContext exampleCache 3 ⟨1, 1⟩ exampleEvents exampleAfterInit
        = .ok st2 ∧
      st2.mOHResults = exampleAfterInit.mOHResults ++ frames ∧
      ∀ r ∈ frames, ∃ ni nl, r.2.payload.update = ni ++ [nl] ∧
        (ni.map ProximityUpdate.numEntries).sum < exampleContext.PROX_MAX_PER_RESULT :=
  queryHasEvents_frame_entries exampleContext exampleCache 3 ⟨1, 1⟩ exampleEvents
    exampleAfterInit 55 77 (by decide) (by decide) (by decide) (Or.inl (by decide))
    (by decide) (by decide)

/-- C16: for every event list and every `max_per_result ≥ 1`, `queryHasEvents`
returns, and the updates of the frames it pushes to `mOHResults`, concatenated
in push order, correspond one to one and in order to the popped events: apart
from the sequence numbers each update is the update described for its event,
so its addition records are the additions of the event whose object is tracked,
in their order, and its removal records are the removals of the event, in their
order; nothing is lost and nothing is emitted twice. -/
theorem queryHasEvents_updates_match_events (ctx : Context) (cache : LocationServiceCache)
    (fuel : Nat) (query : ProxQuery) (evts : QueryEventList) (st : State) (id : NodeID)
    (p : SeqNoPtr) (hmax : 1 ≤ ctx.PROX_MAX_PER_RESULT)
    (hinv : st.mInvertedOHQueries query.addr = some id) (hseq : st.mOHSeqNos id = some p)
    (hq : query.ofHandlers st) (hlen : evts.length ≤ fuel) :
    ∃ st2 frames, queryHasEvents ctx cache fuel query evts st = .ok st2 ∧
      st2.mOHResults = st.mOHResults ++ frames ∧
      (frameUpdates frames).map ProximityUpdate.clearSeqnos =
        evts.map (expectedUpdate ctx cache query st.mOHQueryHandler) ∧
      (frameUpdates frames).map
          (fun u => (u.addition.map (fun a => a.object), u.removal.map (fun r => r.object))) =
        evts.map (fun evt =>
          ((evt.additions.filter (fun a => cache.tracking a.id)).map (fun a => a.id),
            evt.removals.map (fun r => r.id))) := by
  obtain ⟨st2, frames, hst2, -, hfr, hmap, -, -, -, -⟩ :=
    queryHasEvents_updates ctx cache fuel query evts st id p hmax hinv hseq hq hlen
  refine ⟨st2, frames, hst2, hfr, hmap, ?_⟩
  have h := congrArg
    (List.map (fun u : ProximityUpdate =>
      (u.addition.map (fun a => a.object), u.removal.map (fun r => r.object)))) hmap
  simp only [List.map_map] at h
  have e1 : ((fun u : ProximityUpdate =>
      (u.addition.map (fun a => a.object), u.removal.map (fun r => r.object))) ∘
        ProximityUpdate.clearSeqnos) =
      (fun u : ProximityUpdate =>
        (u.addition.map (fun a => a.object), u.removal.map (fun r => r.object))) := by
    funext u
    simp [ProximityUpdate.clearSeqnos, ObjectAddition.clearSeqno, ObjectRemoval.clearSeqno,
      Function.comp_def]
  have e2 : ((fun u : ProximityUpdate =>
      (u.addition.map (fun a => a.object), u.removal.map (fun r => r.object))) ∘
        expectedUpdate ctx cache query st.mOHQueryHandler) =
      (fun evt : ProxQueryEvent =>
        ((evt.additions.filter (fun a => cache.tracking a.id)).map (fun a => a.id),
          evt.removals.map (fun r => r.id))) := by
    funext evt
    simp [expectedUpdate, expectedAddition, expectedRemoval, Function.comp_def]
  rw [e1, e2] at h
  exact h

/-- C16, at a concrete input: the static query of client `55` and the events of
`exampleEvents`. -/
theorem queryHasEvents_updates_match_events_witness :
    ∃ st2 frames,
      queryHasEvents exampleContext exampleCache 3 ⟨1, 1⟩ exampleEvents exampleAfterInit
        = .ok st2 ∧
      st2.mOHResults = exampleAfterInit.mOHResults ++ frames ∧
      (frameUpdates frames).map ProximityUpdate.clearSeqnos =
        exampleEvents.map
          (expectedUpdate exampleContext exampleCache ⟨1, 1⟩ exampleAfterInit.mOHQueryHandler) ∧
      (frameUpdates frames).map
          (fun u => (u.addition.map (fun a => a.object), u.removal.map (fun r => r.object))) =
        exampleEvents.map (fun evt =>
          ((evt.additions.filter (fun a => exampleCache.tracking a.id)).map (fun a => a.id),
            evt.removals.map (fun r => r.id))) :=
  queryHasEvents_updates_match_events exampleContext exampleCache 3 ⟨1, 1⟩ exampleEvents
    exampleAfterInit 55 77 (by decide) (by decide) (by decide) (Or.inl (by decide))
    (by decide)

/-- C17: for every event that consists of exactly one addition with a null
parent and no removal, and whose object is tracked by the location cache,
`queryHasEvents` returns and the update emitted for the event (the update at the
position of the event) has one addition record, whose parent is unset, and
carries `index_properties` with `id` the index identifier of the event,
`index_id` the server identifier, and `dynamic_classification` `Static` when the
handler of the query is the static-class handler and `Dynamic` otherwise, when
it is the dynamic-class handler. -/
theorem lone_root_addition_index_properties (ctx : Context) (cache : LocationServiceCache)
    (fuel : Nat) (query : ProxQuery) (evts : QueryEventList) (st : State) (id : NodeID)
    (p : SeqNoPtr) (i : Nat) (evt : ProxQueryEvent) (hmax : 1 ≤ ctx.PROX_MAX_PER_RESULT)
    (hinv : st.mInvertedOHQueries query.addr = some id) (hseq : st.mOHSeqNos id = some p)
    (hq : query.ofHandlers st) (hlen : evts.length ≤ fuel)
    (hevt : evts[i]? = some evt) (hlone : evt.isLoneRootAddition cache = true) :
    ∃ st2 frames u c, queryHasEvents ctx cache fuel query evts st = .ok st2 ∧
      st2.mOHResults = st.mOHResults ++ frames ∧
      (frameUpdates frames)[i]? = some u ∧
      u.addition.map (fun a => (a.object, a.parent)) =
        evt.additions.map (fun a => (a.id, none)) ∧
      u.addition.length = 1 ∧
      u.index_properties = some
        { id := some evt.indexID
          index_id := some (toString ctx.id)
          dynamic_classification := some c } ∧
      (query.handler = (st.mOHQueryHandler.get OBJECT_CLASS_STATIC).handlerAddr →
        c = DynamicClassification.Static) ∧
      (query.handler ≠ (st.mOHQueryHandler.get OBJECT_CLASS_STATIC).handlerAddr →
        query.handler = (st.mOHQueryHandler.get OBJECT_CLASS_DYNAMIC).handlerAddr ∧
        c = DynamicClassification.Dynamic) := by
  obtain ⟨st2, frames, hst2, -, hfr, hmap, -, -, -, -⟩ :=
    queryHasEvents_updates ctx cache fuel query evts st id p hmax hinv hseq hq hlen
  obtain ⟨u, hu, hcl⟩ := update_at_event hmap hevt
  obtain ⟨a, hadd, htr, hpar, -⟩ := (isLoneRootAddition_iff cache evt).1 hlone
  have hadds : u.clearSeqnos.addition =
      (expectedUpdate ctx cache query st.mOHQueryHandler evt).addition :=
    congrArg ProximityUpdate.addition hcl
  change u.addition.map ObjectAddition.clearSeqno =
    (evt.additions.filter (fun a => cache.tracking a.id)).map (expectedAddition cache) at hadds
  have hip : u.clearSeqnos.index_properties =
      (expectedUpdate ctx cache query st.mOHQueryHandler evt).index_properties :=
    congrArg ProximityUpdate.index_properties hcl
  change u.index_properties = _ at hip
  rw [hadd] at hadds
  simp only [List.filter_cons, htr, if_true, List.filter_nil, List.map_cons, List.map_nil]
    at hadds
  refine ⟨st2, frames, u,
    if query.handler = (st.mOHQueryHandler.get OBJECT_CLASS_STATIC).handlerAddr then
      DynamicClassification.Static else DynamicClassification.Dynamic,
    hst2, hfr, hu, ?_, ?_, ?_, ?_, ?_⟩
  · have h := congrArg (List.map (fun a : ObjectAddition => (a.object, a.parent))) hadds
    simp only [List.map_map, List.map_cons, List.map_nil] at h
    have e : ((fun a : ObjectAddition => (a.object, a.parent)) ∘ ObjectAddition.clearSeqno) =
        (fun a : ObjectAddition => (a.object, a.parent)) := by
      funext b
      rfl
    rw [e] at h
    rw [h, hadd]
    simp [expectedAddition, hpar]
  · have h := congrArg List.length hadds
    simpa using h
  · rw [hip]
    simp only [expectedUpdate, hlone, if_true]
  · intro h
    rw [if_pos h]
  · intro h
    rw [if_neg h]
    rcases hq with h1 | h1
    · exact absurd h1 h
    · exact ⟨h1, rfl⟩

/-- C17, at a concrete input: the first event of `exampleEvents`, the lone
addition of the root `11`, for the static query of client `55`. -/
theorem lone_root_addition_index_properties_witness :
    ∃ st2 frames u c,
      queryHasEvents exampleContext exampleCache 3 ⟨1, 1⟩ exampleEvents exampleAfterInit
        = .ok st2 ∧
      st2.mOHResults = exampleAfterInit.mOHResults ++ frames ∧
      (frameUpdates frames)[0]? = some u ∧
      u.addition.map (fun a => (a.object, a.parent)) =
        ({ indexID := 3, additions := [⟨11, 0, .Normal⟩], removals := [] } :
          ProxQueryEvent).additions.map (fun a => (a.id, none)) ∧
      u.addition.length = 1 ∧
      u.index_properties = some
        { id := some ({ indexID := 3, additions := [⟨11, 0, .Normal⟩], removals := [] } :
            ProxQueryEvent).indexID
          index_id := some (toString exampleContext.id)
          dynamic_classification := some c } ∧
      ((⟨1, 1⟩ : ProxQuery).handler =
          (exampleAfterInit.mOHQueryHandler.get OBJECT_CLASS_STATIC).handlerAddr →
        c = DynamicClassification.Static) ∧
      ((⟨1, 1⟩ : ProxQuery).handler ≠
          (exampleAfterInit.mOHQueryHandler.get OBJECT_CLASS_STATIC).handlerAddr →
        (⟨1, 1⟩ : ProxQuery).handler =
          (exampleAfterInit.mOHQueryHandler.get OBJECT_CLASS_DYNAMIC).handlerAddr ∧
        c = DynamicClassification.Dynamic) :=
  lone_root_addition_index_properties exampleContext exampleCache 3 ⟨1, 1⟩ exampleEvents
    exampleAfterInit 55 77 0 { indexID := 3, additions := [⟨11, 0, .Normal⟩], removals := [] }
    (by decide) (by decide) (by decide) (Or.inl (by decide)) (by decide) (by decide)
    (by decide)

/-- C18, as stated, fails: the second event of `exampleEvents` has three
additions with a non-null parent and a removal, and the third event is a lone
removal, yet the updates built from them carry an `index_properties` field, with
`id = 3` set. -/
theorem non_initial_update_has_index_properties :
    resultIndexProperties
      (queryHasEvents exampleContext exampleCache 3 ⟨1, 1⟩ exampleEvents exampleAfterInit) =
      [[some { id := some 3, index_id := some "4",
               dynamic_classification := some DynamicClassification.Static },
        some { id := some 3, index_id := none, dynamic_classification := none }],
       [some { id := some 3, index_id := none, dynamic_classification := none }]] := by
  decide

/-- C18, amended: every update that `queryHasEvents` builds from an event that is
not an initial root announcement (the event has a removal, or more than one
addition, or its addition has a non-null parent) carries an `index_properties`
field whose `id` is the index identifier of the event; it omits the fields
`index_id` and `dynamic_classification`. -/
theorem non_initial_update_index_properties (ctx : Context) (cache : LocationServiceCache)
    (fuel : Nat) (query : ProxQuery) (evts : QueryEventList) (st : State) (id : NodeID)
    (p : SeqNoPtr) (i : Nat) (evt : ProxQueryEvent) (hmax : 1 ≤ ctx.PROX_MAX_PER_RESULT)
    (hinv : st.mInvertedOHQueries query.addr = some id) (hseq : st.mOHSeqNos id = some p)
    (hq : query.ofHandlers st) (hlen : evts.length ≤ fuel)
    (hevt : evts[i]? = some evt)
    (hnon : evt.removals ≠ [] ∨ 1 < evt.additions.length ∨
      ∃ a, evt.additions = [a] ∧ a.parent ≠ UUID.null) :
    ∃ st2 frames u, queryHasEvents ctx cache fuel query evts st = .ok st2 ∧
      st2.mOHResults = st.mOHResults ++ frames ∧
      (frameUpdates frames)[i]? = some u ∧
      u.index_properties = some
        { id := some evt.indexID, index_id := none, dynamic_classification := none } := by
  obtain ⟨st2, frames, hst2, -, hfr, hmap, -, -, -, -⟩ :=
    queryHasEvents_updates ctx cache fuel query evts st id p hmax hinv hseq hq hlen
  obtain ⟨u, hu, hcl⟩ := update_at_event hmap hevt
  have hip : u.clearSeqnos.index_properties =
      (expectedUpdate ctx cache query st.mOHQueryHandler evt).index_properties :=
    congrArg ProximityUpdate.index_properties hcl
  change u.index_properties = _ at hip
  refine ⟨st2, frames, u, hst2, hfr, hu, ?_⟩
  rw [hip]
  simp only [expectedUpdate, not_isLoneRootAddition cache evt hnon, Bool.false_eq_true,
    if_false]

/-- C18 amended, at a concrete input: the third event of `exampleEvents`, the
removal of `21`, for the static query of client `55`. -/
theorem non_initial_update_index_properties_witness :
    ∃ st2 frames u,
      queryHasEvents exampleContext exampleCache 3 ⟨1, 1⟩ exampleEvents exampleAfterInit
        = .ok st2 ∧
      st2.mOHResults = exampleAfterInit.mOHResults ++ frames ∧
      (frameUpdates frames)[2]? = some u ∧
      u.index_properties = some
        { id := some ({ indexID := 3, additions := [], removals := [⟨21, .Transient⟩] } :
            ProxQueryEvent).indexID,
          index_id := none, dynamic_classification := none } :=
  non_initial_update_index_properties exampleContext exampleCache 3 ⟨1, 1⟩ exampleEvents
    exampleAfterInit 55 77 2 { indexID := 3, additions := [], removals := [⟨21, .Transient⟩] }
    (by decide) (by decide) (by decide) (Or.inl (by decide)) (by decide) (by decide)
    (Or.inl (by decide))

/-- C19: in `queryHasEvents` the tasks posted to the main strand correspond one
to one and in order to the emitted records: the tasks appended to the main
strand are, for each update of the pushed frames in order, one add-subscription
`(client, x, i)` per addition record of object `x` and then one
remove-subscription `(client, x, i)` per removal record, with `i` the index
identifier of the update, which is that of its event; nothing else is posted,
and the subscription maps, which only the posted handlers change, are as before. -/
theorem queryHasEvents_subscriptions_match_records (ctx : Context)
    (cache : LocationServiceCache) (fuel : Nat) (query : ProxQuery) (evts : QueryEventList)
    (st : State) (id : NodeID) (p : SeqNoPtr) (hmax : 1 ≤ ctx.PROX_MAX_PER_RESULT)
    (hinv : st.mInvertedOHQueries query.addr = some id) (hseq : st.mOHSeqNos id = some p)
    (hq : query.ofHandlers st) (hlen : evts.length ≤ fuel) :
    ∃ st2 frames, queryHasEvents ctx cache fuel query evts st = .ok st2 ∧
      st2.mOHResults = st.mOHResults ++ frames ∧
      st2.mainStrand = st.mainStrand ++
        ((frameUpdates frames).map (ProximityUpdate.subscriptions id)).flatten ∧
      (frameUpdates frames).map ProximityUpdate.indexID = evts.map (fun evt => evt.indexID) := by
  obtain ⟨st2, frames, hst2, -, hfr, hmap, hms, -, -, -⟩ :=
    queryHasEvents_updates ctx cache fuel query evts st id p hmax hinv hseq hq hlen
  refine ⟨st2, frames, hst2, hfr, ?_, ?_⟩
  · rw [hms]
    congr 2
    have h := congrArg (List.map (ProximityUpdate.subscriptions id)) hmap
    simp only [List.map_map] at h
    have e1 : (ProximityUpdate.subscriptions id ∘ ProximityUpdate.clearSeqnos) =
        ProximityUpdate.subscriptions id := by
      funext u
      exact subscriptions_clearSeqnos id u
    have e2 : (ProximityUpdate.subscriptions id ∘
        expectedUpdate ctx cache query st.mOHQueryHandler) = eventSubscriptions id cache := by
      funext evt
      exact subscriptions_expectedUpdate id ctx cache query st.mOHQueryHandler evt
    rw [e1, e2] at h
    exact h.symm
  · have h := congrArg (List.map ProximityUpdate.indexID) hmap
    simp only [List.map_map] at h
    have e1 : (ProximityUpdate.indexID ∘ ProximityUpdate.clearSeqnos) =
        ProximityUpdate.indexID := by
      funext u
      rfl
    have e2 : (ProximityUpdate.indexID ∘ expectedUpdate ctx cache query st.mOHQueryHandler) =
        (fun evt : ProxQueryEvent => evt.indexID) := by
      funext evt
      rfl
    rw [e1, e2] at h
    exact h

/-- C19, at a concrete input: the static query of client `55` and the events of
`exampleEvents`. -/
theorem queryHasEvents_subscriptions_match_records_witness :
    ∃ st2 frames,
      queryHasEvents exampleContext exampleCache 3 ⟨1, 1⟩ exampleEvents exampleAfterInit
        = .ok st2 ∧
      st2.mOHResults = exampleAfterInit.mOHResults ++ frames ∧
      st2.mainStrand = exampleAfterInit.mainStrand ++
        ((frameUpdates frames).map (ProximityUpdate.subscriptions 55)).flatten ∧
      (frameUpdates frames).map ProximityUpdate.indexID =
        exampleEvents.map (fun evt => evt.indexID) :=
  queryHasEvents_subscriptions_match_records exampleContext exampleCache 3 ⟨1, 1⟩
    exampleEvents exampleAfterInit 55 77 (by decide) (by decide) (by decide)
    (Or.inl (by decide)) (by decide)

/-! ## Swap requests: unknown objects, recorded intent, repeated requests -/

theorem recordSwap_buckets (o : UUID) (is_static : Bool) (qh : HandlerArray) :
    ((recordSwap o is_static qh).get (swapOut is_static)).removals =
      (qh.get (swapOut is_static)).removals.insert o ∧
    ((recordSwap o is_static qh).get (swapIn is_static)).additions =
      (qh.get (swapIn is_static)).additions.insert o ∧
    ((recordSwap o is_static qh).get (swapIn is_static)).removals =
      (qh.get (swapIn is_static)).removals ∧
    ((recordSwap o is_static qh).get (swapOut is_static)).additions =
      (qh.get (swapOut is_static)).additions := by
  cases is_static <;>
    simp [recordSwap, swapIn, swapOut, HandlerArray.set, HandlerArray.get]

theorem recordSwap_of_pending (o : UUID) (is_static : Bool) (qh : HandlerArray)
    (hrem : o ∈ (qh.get (swapOut is_static)).removals)
    (hadd : o ∈ (qh.get (swapIn is_static)).additions) :
    recordSwap o is_static qh = qh := by
  cases is_static <;>
    simp_all [recordSwap, swapIn, swapOut, HandlerArray.set, HandlerArray.get,
      ObjectIDSet.insert]

/-- The outcome of `handleCheckObjectClassForHandlers` for an object that is in
neither handler, whether or not the handler slots are null: the call fails. -/
theorem handleCheck_unknown (o : UUID) (is_static : Bool) (qh : HandlerArray)
    (hS : o ∉ qh.objectsOf OBJECT_CLASS_STATIC) (hD : o ∉ qh.objectsOf OBJECT_CLASS_DYNAMIC) :
    ∃ e, handleCheckObjectClassForHandlers o is_static qh = .error e := by
  cases h0 : (qh.get OBJECT_CLASS_STATIC).handler <;>
    cases h1 : (qh.get OBJECT_CLASS_DYNAMIC).handler <;>
    cases is_static <;>
    simp_all [handleCheckObjectClassForHandlers, HandlerArray.containsObject, andThen, orElse,
      HandlerArray.objectsOf, ProxQueryHandler.containsObject]

/-- C21, as stated, fails: object `5` is in neither handler of `exampleHandlers`,
and a swap request for it, with either value of `is_static`, fails the assertion
that the other handler has the object. -/
theorem swap_request_for_unknown_object_asserts :
    5 ∉ exampleHandlers.objectsOf OBJECT_CLASS_STATIC ∧
    5 ∉ exampleHandlers.objectsOf OBJECT_CLASS_DYNAMIC ∧
    handleCheckObjectClassForHandlers 5 true exampleHandlers = .error .assertion ∧
    handleCheckObjectClassForHandlers 5 false exampleHandlers = .error .assertion ∧
    trySwapHandlers true 5 true exampleHandlers = .error .assertion :=
  ⟨by decide, by decide, rfl, rfl, rfl⟩

/-- C21, amended: for every object contained in neither the static nor the
dynamic handler and every `is_static`, `handleCheckObjectClassForHandlers` and
`trySwapHandlers` do not complete: the call fails, and when both handlers exist
it fails the assertion that the other handler has the object.  No handler array
is returned, so no bucket is changed by such a call. -/
theorem unknown_object_swap_request_fails (o : UUID) (is_static is_local : Bool)
    (qh : HandlerArray)
    (hS : o ∉ qh.objectsOf OBJECT_CLASS_STATIC) (hD : o ∉ qh.objectsOf OBJECT_CLASS_DYNAMIC) :
    (∃ e, handleCheckObjectClassForHandlers o is_static qh = .error e ∧
      trySwapHandlers is_local o is_static qh = .error e) ∧
    (∀ hs hd, (qh.get OBJECT_CLASS_STATIC).handler = some hs →
      (qh.get OBJECT_CLASS_DYNAMIC).handler = some hd →
      handleCheckObjectClassForHandlers o is_static qh = .error .assertion ∧
      trySwapHandlers is_local o is_static qh = .error .assertion) := by
  constructor
  · obtain ⟨e, he⟩ := handleCheck_unknown o is_static qh hS hD
    exact ⟨e, he, he⟩
  · intro hs hd h0 h1
    have h := handleCheck_eq o is_static qh h0 h1
    have e1 : o ∉ qh.objectsOf (swapIn is_static) := by
      cases is_static
      · exact hD
      · exact hS
    have e2 : o ∉ qh.objectsOf (swapOut is_static) := by
      cases is_static
      · exact hS
      · exact hD
    rw [if_neg e1, if_neg e2] at h
    exact ⟨h, h⟩

/-- C21 amended, at a concrete input: object `5`, which is in neither handler of
`exampleHandlers`. -/
theorem unknown_object_swap_request_fails_witness :
    (∃ e, handleCheckObjectClassForHandlers 5 true exampleHandlers = .error e ∧
      trySwapHandlers false 5 true exampleHandlers = .error e) ∧
    (∀ hs hd, (exampleHandlers.get OBJECT_CLASS_STATIC).handler = some hs →
      (exampleHandlers.get OBJECT_CLASS_DYNAMIC).handler = some hd →
      handleCheckObjectClassForHandlers 5 true exampleHandlers = .error .assertion ∧
      trySwapHandlers false 5 true exampleHandlers = .error .assertion) :=
  unknown_object_swap_request_fails 5 true false exampleHandlers (by decide) (by decide)

/-- C24: `handleCheckObjectClassForHandlers` only records intent.  With both
handlers present: a call that returns leaves both handlers as they were (no
object is added to or removed from a handler); if the object is in the handler
that matches `is_static`, the call returns the array unchanged, so all four
buckets are unchanged; if it is in the other handler only, the call returns an
array in which the object has been inserted into the removals of the swap-out
class and into the additions of the swap-in class, the other two buckets being
unchanged. -/
theorem handleCheck_only_records_intent (o : UUID) (is_static : Bool) (qh : HandlerArray)
    (hs hd : ProxQueryHandler)
    (hS : (qh.get OBJECT_CLASS_STATIC).handler = some hs)
    (hD : (qh.get OBJECT_CLASS_DYNAMIC).handler = some hd) :
    (∀ qh1, handleCheckObjectClassForHandlers o is_static qh = .ok qh1 →
      ∀ c, (qh1.get c).handler = (qh.get c).handler) ∧
    (o ∈ qh.objectsOf (swapIn is_static) →
      handleCheckObjectClassForHandlers o is_static qh = .ok qh) ∧
    (o ∉ qh.objectsOf (swapIn is_static) → o ∈ qh.objectsOf (swapOut is_static) →
      ∃ qh1, handleCheckObjectClassForHandlers o is_static qh = .ok qh1 ∧
        (qh1.get (swapOut is_static)).removals =
          (qh.get (swapOut is_static)).removals.insert o ∧
        (qh1.get (swapIn is_static)).additions =
          (qh.get (swapIn is_static)).additions.insert o ∧
        (qh1.get (swapIn is_static)).removals = (qh.get (swapIn is_static)).removals ∧
        (qh1.get (swapOut is_static)).additions = (qh.get (swapOut is_static)).additions) := by
  have h := handleCheck_eq o is_static qh hS hD
  refine ⟨?_, ?_, ?_⟩
  · intro qh1 hq c
    rw [h] at hq
    by_cases e1 : o ∈ qh.objectsOf (swapIn is_static)
    · rw [if_pos e1] at hq
      rw [← Except.ok.inj hq]
    · rw [if_neg e1] at hq
      by_cases e2 : o ∈ qh.objectsOf (swapOut is_static)
      · rw [if_pos e2] at hq
        rw [← Except.ok.inj hq]
        exact recordSwap_handler o is_static qh c
      · rw [if_neg e2] at hq
        cases hq
  · intro e1
    rw [h, if_pos e1]
  · intro e1 e2
    rw [h, if_neg e1, if_pos e2]
    exact ⟨_, rfl, recordSwap_buckets o is_static qh⟩

/-- C24, at a concrete input: object `9` of the dynamic handler of
`exampleHandlers` is asked to be static. -/
theorem handleCheck_only_records_intent_witness :
    (∀ qh1, handleCheckObjectClassForHandlers 9 true exampleHandlers = .ok qh1 →
      ∀ c, (qh1.get c).handler = (exampleHandlers.get c).handler) ∧
    (9 ∈ exampleHandlers.objectsOf (swapIn true) →
      handleCheckObjectClassForHandlers 9 true exampleHandlers = .ok exampleHandlers) ∧
    (9 ∉ exampleHandlers.objectsOf (swapIn true) →
      9 ∈ exampleHandlers.objectsOf (swapOut true) →
      ∃ qh1, handleCheckObjectClassForHandlers 9 true exampleHandlers = .ok qh1 ∧
        (qh1.get (swapOut true)).removals =
          (exampleHandlers.get (swapOut true)).removals.insert 9 ∧
        (qh1.get (swapIn true)).additions =
          (exampleHandlers.get (swapIn true)).additions.insert 9 ∧
        (qh1.get (swapIn true)).removals = (exampleHandlers.get (swapIn true)).removals ∧
        (qh1.get (swapOut true)).additions =
          (exampleHandlers.get (swapOut true)).additions) :=
  handleCheck_only_records_intent 9 true exampleHandlers exampleStaticHandler
    exampleDynamicHandler rfl rfl

/-- C28: once a swap of object `o` is pending, every further
`handleCheckObjectClassForHandlers` call for `o`, with either value of
`is_static`, returns the handler array unchanged, and so does every sequence of
such calls: the same request again changes no bucket, and the opposite request
neither cancels the pending swap nor schedules another one. -/
theorem further_requests_leave_pending_swap (o : UUID) (is_static : Bool) (qh : HandlerArray)
    (hs hd : ProxQueryHandler)
    (hS : (qh.get OBJECT_CLASS_STATIC).handler = some hs)
    (hD : (qh.get OBJECT_CLASS_DYNAMIC).handler = some hd)
    (hpending : swapPending o is_static qh) :
    (∀ b, handleCheckObjectClassForHandlers o b qh = .ok qh) ∧
    (∀ bs : List Bool, handleCheckCalls (bs.map (fun b => (o, b))) qh = .ok qh) := by
  obtain ⟨hout, hin, hrem, hadd⟩ := hpending
  have step : ∀ b, handleCheckObjectClassForHandlers o b qh = .ok qh := by
    intro b
    rw [handleCheck_eq o b qh hS hD]
    by_cases hb : b = is_static
    · subst hb
      rw [if_neg hin, if_pos hout, recordSwap_of_pending o b qh hrem hadd]
    · have hin2 : swapIn b = swapOut is_static := by
        cases b <;> cases is_static <;> simp_all [swapIn, swapOut]
      rw [hin2, if_pos hout]
  refine ⟨step, ?_⟩
  intro bs
  induction bs with
  | nil => rfl
  | cons b bs ih =>
    simp only [List.map_cons, handleCheckCalls, step b]
    exact ih

/-- C28, at a concrete input: the swap of object `7` to the dynamic handler is
pending in `examplePendingToDynamic`. -/
theorem further_requests_leave_pending_swap_witness :
    (∀ b, handleCheckObjectClassForHandlers 7 b examplePendingToDynamic =
      .ok examplePendingToDynamic) ∧
    (∀ bs : List Bool, handleCheckCalls (bs.map (fun b => (7, b))) examplePendingToDynamic =
      .ok examplePendingToDynamic) :=
  further_requests_leave_pending_swap 7 false examplePendingToDynamic exampleStaticHandler
    exampleDynamicHandler rfl rfl ⟨by decide, by decide, by decide, by decide⟩

/-! ## Shipping the results: theorems -/

theorem pollSendLoop_eq (q : List OHResult) : pollSendLoop q = ([], q) := by
  induction q with
  | nil => rfl
  | cons r q ih => simp [pollSendLoop, ih]

/-- C23: `poll` ships the results in FIFO order and drains its queues: the
`sendObjectHostResult` calls are, in order, the results that were left in
`mOHResultsToSend` and then the results that were in `mOHResults`, each group in
queue order and each result passed once; after `poll` both `mOHResultsToSend`
and `mOHResults` are empty. -/
theorem poll_ships_fifo (st : State) :
    (poll st).2 = st.mOHResultsToSend ++ st.mOHResults ∧
    (poll st).1.mOHResultsToSend = [] ∧
    (poll st).1.mOHResults = [] := by
  simp [poll, pollSendLoop_eq]

/-! ## Handler names: theorems -/

theorem findChar_split (c : Char) :
    ∀ (l : List Char) (i : Nat), findChar c l = some i →
      l = l.take i ++ c :: l.drop (i + 1) := by
  intro l
  induction l with
  | nil => intro i h; simp [findChar] at h
  | cons x rest ih =>
    intro i h
    simp only [findChar] at h
    by_cases hx : x = c
    · rw [if_pos hx] at h
      have hi : i = 0 := (Option.some.inj h).symm
      subst hi
      simp [hx]
    · rw [if_neg hx] at h
      cases hr : findChar c rest with
      | none => simp [hr] at h
      | some j =>
        simp only [hr, Option.map_some', Option.some.injEq] at h
        subst h
        have := ih j hr
        simp only [List.take_succ_cons, List.drop_succ_cons, List.cons_append, List.cons.injEq,
          true_and]
        exact this

/-- C30: `parseHandlerName(name)` returns `true` if and only if `name` is exactly
`"oh-queries.static-objects"` or `"oh-queries.dynamic-objects"`; for these two
names it sets the class output to `OBJECT_CLASS_STATIC` and
`OBJECT_CLASS_DYNAMIC` respectively and the handlers output to the object host
handler array; every other name, so every name with no dot, with more than one
dot, with another prefix or with another class part, is rejected. -/
theorem parseHandlerName_accepts_iff (name : String) :
    ((parseHandlerName name).result = true ↔
      name = "oh-queries.static-objects" ∨ name = "oh-queries.dynamic-objects") ∧
    parseHandlerName "oh-queries.static-objects" =
      { result := true, handlers_out := some HandlerArrayRef.mOHQueryHandler,
        class_out := some OBJECT_CLASS_STATIC } ∧
    parseHandlerName "oh-queries.dynamic-objects" =
      { result := true, handlers_out := some HandlerArrayRef.mOHQueryHandler,
        class_out := some OBJECT_CLASS_DYNAMIC } ∧
    (name.toList.count '.' ≠ 1 → (parseHandlerName name).result = false) := by
  have hiff : (parseHandlerName name).result = true ↔
      name = "oh-queries.static-objects" ∨ name = "oh-queries.dynamic-objects" := by
    constructor
    · intro h
      unfold parseHandlerName at h
      cases hf : findChar '.' name.toList with
      | none =>
        rw [hf] at h
        simp at h
      | some dot_pos =>
        have hl := findChar_split '.' name.toList dot_pos hf
        have hname : name = String.mk name.toList := rfl
        rw [hf] at h
        dsimp only at h
        split_ifs at h with h0 h1 h2 h3
        · have ht : name.toList.take dot_pos = "oh-queries".data := congrArg String.data h1
          have hd : name.toList.drop (dot_pos + 1) = "dynamic-objects".data :=
            congrArg String.data h2
          right
          rw [hname, hl, ht, hd]
          rfl
        · have ht : name.toList.take dot_pos = "oh-queries".data := congrArg String.data h1
          have hd : name.toList.drop (dot_pos + 1) = "static-objects".data :=
            congrArg String.data h3
          left
          rw [hname, hl, ht, hd]
          rfl
    · rintro (rfl | rfl) <;> decide
  refine ⟨hiff, by decide, by decide, ?_⟩
  intro hcount
  cases hr : (parseHandlerName name).result with
  | false => rfl
  | true =>
    exfalso
    apply hcount
    rcases hiff.1 hr with rfl | rfl <;> decide

/-! ## Sequence number entries of the clients of the registered queries -/

/-- C29, the code at the failing input: client `55` sends `init`, `init`,
`destroy`.  In the state reached, the query `2` that the first `init` registered
with the dynamic handler is still in `mInvertedOHQueries`, for client `55`, and
client `55` has no entry in `mOHSeqNos`: `getSeqNoInfo` fails its assertion for
the client, and so does `queryHasEvents` when the query reports events. -/
theorem inverted_query_without_seqno_entry :
    exampleAfterDoubleInit.mInvertedOHQueries 2 = some 55 ∧
    exampleAfterDoubleInit.mOHSeqNos 55 = none ∧
    getSeqNoInfo 55 exampleAfterDoubleInit = .error .assertion ∧
    queryHasEvents exampleContext exampleCache 3 ⟨2, 2⟩ exampleEvents exampleAfterDoubleInit =
      .error .assertion :=
  ⟨by decide, by decide, rfl, rfl⟩

/-! ## Query event pipeline: untracked objects, termination, removal records -/

theorem queryHasEventsAddition_untracked (ctx : Context) (cache : LocationServiceCache)
    (query : ProxQuery) (query_id : NodeID) (seqNoPtr : SeqNoPtr) (evt : ProxQueryEvent)
    (aidx : Nat) (a : QueryEventAddition) (w : EventWork)
    (ht : cache.tracking a.id = false) :
    queryHasEventsAddition ctx cache query query_id seqNoPtr evt aidx a w = .ok w := by
  simp [queryHasEventsAddition, ht]

/-- C25: `queryHasEvents` tolerates an object that has left the location cache.
The loop body for an addition whose object is not tracked returns its working
state as it was: no addition record, no sequence number taken, no task posted,
`count` not incremented.  For the whole call (query of a client with a counter,
`max_per_result ≥ 1`, enough fuel, no wrap of the 64-bit counter): the call
returns; apart from the sequence numbers the update of each event holds the
records of its
tracked additions, in order, and of all its removals; the tasks posted are those
of the tracked additions and of the removals; the sequence numbers taken are as
many as there are tracked additions and removals, and they are consecutive; and
the entries counted against `max_per_result` are the emitted records. -/
theorem untracked_addition_is_skipped (ctx : Context) (cache : LocationServiceCache)
    (fuel : Nat) (query : ProxQuery) (evts : QueryEventList) (st : State) (id : NodeID)
    (p : SeqNoPtr) (hmax : 1 ≤ ctx.PROX_MAX_PER_RESULT)
    (hinv : st.mInvertedOHQueries query.addr = some id) (hseq : st.mOHSeqNos id = some p)
    (hq : query.ofHandlers st) (hlen : evts.length ≤ fuel)
    (hwrap : st.seqNoValue p + numRecords cache evts < 2 ^ 64) :
    (∀ query_id seqNoPtr evt aidx a w, cache.tracking a.id = false →
      queryHasEventsAddition ctx cache query query_id seqNoPtr evt aidx a w = .ok w) ∧
    ∃ st2 frames, queryHasEvents ctx cache fuel query evts st = .ok st2 ∧
      st2.mOHResults = st.mOHResults ++ frames ∧
      (frameUpdates frames).map ProximityUpdate.clearSeqnos =
        evts.map (expectedUpdate ctx cache query st.mOHQueryHandler) ∧
      st2.mainStrand = st.mainStrand ++ (evts.map (eventSubscriptions id cache)).flatten ∧
      st2.seqNoValue p = st.seqNoValue p + numRecords cache evts ∧
      resultSeqnos frames = List.range' (st.seqNoValue p) (numRecords cache evts) ∧
      (numRecords cache evts < 2 ^ 32 →
        ∀ r ∈ frames, ∃ ni nl, r.2.payload.update = ni ++ [nl] ∧
          (ni.map ProximityUpdate.numEntries).sum < ctx.PROX_MAX_PER_RESULT) := by
  refine ⟨fun query_id seqNoPtr evt aidx a w ht =>
    queryHasEventsAddition_untracked ctx cache query query_id seqNoPtr evt aidx a w ht, ?_⟩
  obtain ⟨st2, frames, hst2, -, hfr, hmap, hms, -, -, hcnt⟩ :=
    queryHasEvents_updates ctx cache fuel query evts st id p hmax hinv hseq hq hlen
  obtain ⟨st3, hst3, -, hc, frames3, hfr3, hsq, -⟩ :=
    queryHasEvents_spec ctx cache fuel query evts st id p hmax hinv hseq hq hlen hwrap
  have e : st3 = st2 := by
    rw [hst2] at hst3
    exact (Except.ok.inj hst3).symm
  subst e
  have e2 : frames3 = frames := by
    rw [hfr] at hfr3
    exact (List.append_cancel_left hfr3).symm
  subst e2
  exact ⟨st3, frames3, hst2, hfr, hmap, hms, hc, hsq, hcnt⟩

/-- C25, at a concrete input: the second event of `exampleEvents` holds an addition
of object `13`, which `exampleCache` does not track. -/
theorem untracked_addition_is_skipped_witness :
    (∀ query_id seqNoPtr evt aidx a w, exampleCache.tracking a.id = false →
      queryHasEventsAddition exampleContext exampleCache ⟨1, 1⟩ query_id seqNoPtr evt aidx a w
        = .ok w) ∧
    ∃ st2 frames,
      queryHasEvents exampleContext exampleCache 3 ⟨1, 1⟩ exampleEvents exampleAfterInit
        = .ok st2 ∧
      st2.mOHResults = exampleAfterInit.mOHResults ++ frames ∧
      (frameUpdates frames).map ProximityUpdate.clearSeqnos =
        exampleEvents.map
          (expectedUpdate exampleContext exampleCache ⟨1, 1⟩ exampleAfterInit.mOHQueryHandler) ∧
      st2.mainStrand = exampleAfterInit.mainStrand ++
        (exampleEvents.map (eventSubscriptions 55 exampleCache)).flatten ∧
      st2.seqNoValue 77 = exampleAfterInit.seqNoValue 77 + numRecords exampleCache exampleEvents ∧
      resultSeqnos frames =
        List.range' (exampleAfterInit.seqNoValue 77) (numRecords exampleCache exampleEvents) ∧
      (numRecords exampleCache exampleEvents < 2 ^ 32 →
        ∀ r ∈ frames, ∃ ni nl, r.2.payload.update = ni ++ [nl] ∧
          (ni.map ProximityUpdate.numEntries).sum < exampleContext.PROX_MAX_PER_RESULT) :=
  untracked_addition_is_skipped exampleContext exampleCache 3 ⟨1, 1⟩ exampleEvents
    exampleAfterInit 55 77 (by decide) (by decide) (by decide) (Or.inl (by decide))
    (by decide) (by decide)

/-- C26: for every event list and every `max_per_result ≥ 1`, `queryHasEvents`
terminates: with one unit of fuel per event (each iteration of the outer loop
pops at least one event) the call returns; it pushes at most as many frames as
there are events, every pushed frame holds at least one update, and every event
has been popped and turned into an update when it returns. -/
theorem queryHasEvents_terminates (ctx : Context) (cache : LocationServiceCache)
    (fuel : Nat) (query : ProxQuery) (evts : QueryEventList) (st : State) (id : NodeID)
    (p : SeqNoPtr) (hmax : 1 ≤ ctx.PROX_MAX_PER_RESULT)
    (hinv : st.mInvertedOHQueries query.addr = some id) (hseq : st.mOHSeqNos id = some p)
    (hq : query.ofHandlers st) (hlen : evts.length ≤ fuel) :
    ∃ st2 frames, queryHasEvents ctx cache fuel query evts st = .ok st2 ∧
      st2.mOHResults = st.mOHResults ++ frames ∧
      frames.length ≤ evts.length ∧
      (∀ r ∈ frames, r.2.payload.update ≠ []) ∧
      (frameUpdates frames).length = evts.length := by
  obtain ⟨st2, frames, hst2, -, hfr, hmap, -, hne, hle, -⟩ :=
    queryHasEvents_updates ctx cache fuel query evts st id p hmax hinv hseq hq hlen
  refine ⟨st2, frames, hst2, hfr, hle, fun r hr => (hne r hr).2.1, ?_⟩
  have h := congrArg List.length hmap
  simpa using h

/-- C26, at a concrete input: the three events of `exampleEvents` with three units
of fuel. -/
theorem queryHasEvents_terminates_witness :
    ∃ st2 frames,
      queryHasEvents exampleContext exampleCache 3 ⟨1, 1⟩ exampleEvents exampleAfterInit
        = .ok st2 ∧
      st2.mOHResults = exampleAfterInit.mOHResults ++ frames ∧
      frames.length ≤ exampleEvents.length ∧
      (∀ r ∈ frames, r.2.payload.update ≠ []) ∧
      (frameUpdates frames).length = exampleEvents.length :=
  queryHasEvents_terminates exampleContext exampleCache 3 ⟨1, 1⟩ exampleEvents
    exampleAfterInit 55 77 (by decide) (by decide) (by decide) (Or.inl (by decide))
    (by decide)

/-- The `removeObject` calls of `tickQueryHandler` after a swap of `o` has been
scheduled: the call returns, its log holds `removeObject(o, true)` on the
swap-out handler, and every `removeObject` call in the log has `true` as its
second argument.  What a handler does with that argument is not part of this
function. -/
theorem tickQueryHandler_removeObject_calls (simT : Time) (expired : List (Bool × UUID))
    (qh qh1 : HandlerArray) (o : UUID) (is_static : Bool)
    (hcheck : handleCheckObjectClassForHandlers o is_static qh = .ok qh1)
    (hsched : o ∉ qh.objectsOf (swapIn is_static))
    (hknown : ∀ x ∈ expired,
      x.2 ∈ qh.objectsOf OBJECT_CLASS_STATIC ∨ x.2 ∈ qh.objectsOf OBJECT_CLASS_DYNAMIC) :
    ∃ qh2 log, tickQueryHandler simT expired qh1 = .ok (qh2, log) ∧
      HandlerCall.removeObject (swapOut is_static) o true ∈ log ∧
      ∀ c x f, HandlerCall.removeObject c x f ∈ log → f = true := by
  obtain ⟨hs, hd, hS, hD, rfl, -⟩ := handleCheck_scheduled hcheck hsched
  have hS1 : ((recordSwap o is_static qh).get OBJECT_CLASS_STATIC).handler = some hs := by
    rw [recordSwap_handler]; exact hS
  have hD1 : ((recordSwap o is_static qh).get OBJECT_CLASS_DYNAMIC).handler = some hd := by
    rw [recordSwap_handler]; exact hD
  rw [objectsOf_of_handler hS, objectsOf_of_handler hD] at hknown
  obtain ⟨qh2, hq2, hh2, hr2, -, -⟩ := processExpired_ok expired _ hs hd hS1 hD1 hknown
  have hrem : o ∈ (qh2.get (swapOut is_static)).removals :=
    hr2 _ _ ((recordSwap_removals _ _ _ _ _).2 (Or.inr ⟨rfl, rfl⟩))
  have hS2 : (qh2.get OBJECT_CLASS_STATIC).handler = some hs := by rw [hh2]; exact hS1
  have hD2 : (qh2.get OBJECT_CLASS_DYNAMIC).handler = some hd := by rw [hh2]; exact hD1
  refine ⟨(tickQueryHandlerLoop simT objectClasses qh2).1,
    (tickQueryHandlerLoop simT objectClasses qh2).2, by simp [tickQueryHandler, hq2], ?_, ?_⟩
  · rw [tickQueryHandlerLoop_log]
    cases is_static
    · have hrem2 : o ∈ (qh2.get OBJECT_CLASS_STATIC).removals := hrem
      simp [swapOut, classCalls, hS2, hD2, hrem2]
    · have hrem2 : o ∈ (qh2.get OBJECT_CLASS_DYNAMIC).removals := hrem
      simp [swapOut, classCalls, hS2, hD2, hrem2]
  · intro c x f hmem
    rw [tickQueryHandlerLoop_log] at hmem
    simp only [classCalls, hS2, hD2, List.mem_append, List.mem_map, List.mem_singleton]
      at hmem
    rcases hmem with ((⟨y, -, hy⟩ | hy) | ⟨y, -, hy⟩) | ((⟨y, -, hy⟩ | hy) | ⟨y, -, hy⟩) <;>
      first
      | (cases hy; rfl)
      | cases hy

/-- The removal records of `queryHasEvents`: the removal records of the update of
an event are, in order, the objects of the removals of the event, each with the
permanence the event gives it (`Permanent` for a permanent removal, `Transient`
otherwise). -/
theorem queryHasEvents_removal_records (ctx : Context) (cache : LocationServiceCache)
    (fuel : Nat) (query : ProxQuery) (evts : QueryEventList) (st : State) (id : NodeID)
    (p : SeqNoPtr) (i : Nat) (evt : ProxQueryEvent) (hmax : 1 ≤ ctx.PROX_MAX_PER_RESULT)
    (hinv : st.mInvertedOHQueries query.addr = some id) (hseq : st.mOHSeqNos id = some p)
    (hq : query.ofHandlers st) (hlen : evts.length ≤ fuel) (hevt : evts[i]? = some evt) :
    ∃ st2 frames u, queryHasEvents ctx cache fuel query evts st = .ok st2 ∧
      st2.mOHResults = st.mOHResults ++ frames ∧
      (frameUpdates frames)[i]? = some u ∧
      u.removal.map (fun r => (r.object, r.type)) =
        evt.removals.map (fun r => (r.id,
          if r.permanent = QueryEventPermanence.Permanent then RemovalType.Permanent
          else RemovalType.Transient)) := by
  obtain ⟨st2, frames, hst2, -, hfr, hmap, -, -, -, -⟩ :=
    queryHasEvents_updates ctx cache fuel query evts st id p hmax hinv hseq hq hlen
  obtain ⟨u, hu, hcl⟩ := update_at_event hmap hevt
  have hrems : u.clearSeqnos.removal =
      (expectedUpdate ctx cache query st.mOHQueryHandler evt).removal :=
    congrArg ProximityUpdate.removal hcl
  change u.removal.map ObjectRemoval.clearSeqno = evt.removals.map expectedRemoval at hrems
  refine ⟨st2, frames, u, hst2, hfr, hu, ?_⟩
  have h := congrArg (List.map (fun r : ObjectRemoval => (r.object, r.type))) hrems
  simp only [List.map_map] at h
  have e1 : ((fun r : ObjectRemoval => (r.object, r.type)) ∘ ObjectRemoval.clearSeqno) =
      (fun r : ObjectRemoval => (r.object, r.type)) := by
    funext r
    rfl
  have e2 : ((fun r : ObjectRemoval => (r.object, r.type)) ∘ expectedRemoval) =
      (fun r : QueryEventRemoval => (r.id,
        if r.permanent = QueryEventPermanence.Permanent then RemovalType.Permanent
        else RemovalType.Transient)) := by
    funext r
    rfl
  rw [e1, e2] at h
  exact h

/-! ## Consistency of the swap buckets -/

theorem insert_nodup (s : ObjectIDSet) (o : UUID) (h : s.Nodup) : (s.insert o).Nodup := by
  unfold ObjectIDSet.insert
  split
  · exact h
  · rename_i ho
    exact List.Nodup.append h (List.nodup_singleton o)
      (by
        intro x hx hx2
        rw [List.mem_singleton] at hx2
        subst hx2
        exact ho hx)

theorem other_swapIn (is_static : Bool) : (swapIn is_static).other = swapOut is_static := by
  cases is_static <;> rfl

theorem other_swapOut (is_static : Bool) : (swapOut is_static).other = swapIn is_static := by
  cases is_static <;> rfl

theorem swapIn_ne_swapOut (is_static : Bool) : swapIn is_static ≠ swapOut is_static := by
  cases is_static <;> simp [swapIn, swapOut]

theorem recordSwap_consistent (o : UUID) (is_static : Bool) (qh : HandlerArray)
    (hc : bucketsConsistent qh) (hin : o ∉ qh.objectsOf (swapIn is_static))
    (hout : o ∈ qh.objectsOf (swapOut is_static)) :
    bucketsConsistent (recordSwap o is_static qh) := by
  intro c
  obtain ⟨ha, hr, hd⟩ := hc c
  refine ⟨?_, ?_, ?_⟩
  · intro x hx
    rw [recordSwap_objectsOf, recordSwap_objectsOf]
    rcases (recordSwap_additions o is_static qh c x).1 hx with h | ⟨rfl, rfl⟩
    · exact ha x h
    · rw [other_swapIn]
      exact ⟨hin, hout⟩
  · intro x hx
    rw [recordSwap_objectsOf]
    rcases (recordSwap_removals o is_static qh c x).1 hx with h | ⟨rfl, rfl⟩
    · exact hr x h
    · exact hout
  · rintro x ⟨hx1, hx2⟩
    rcases (recordSwap_additions o is_static qh c x).1 hx1 with h1 | ⟨rfl, rfl⟩
    · rcases (recordSwap_removals o is_static qh c x).1 hx2 with h2 | ⟨rfl, rfl⟩
      · exact hd x ⟨h1, h2⟩
      · exact (ha x h1).1 hout
    · rcases (recordSwap_removals x is_static qh _ x).1 hx2 with h2 | ⟨-, h2⟩
      · exact hin (hr x h2)
      · exact swapIn_ne_swapOut is_static h2

theorem recordSwap_nodup (o : UUID) (is_static : Bool) (qh : HandlerArray)
    (hn : ∀ c, (qh.get c).additions.Nodup) :
    ∀ c, ((recordSwap o is_static qh).get c).additions.Nodup := by
  intro c
  obtain ⟨-, h2, -, h4⟩ := recordSwap_buckets o is_static qh
  have hcases : c = swapIn is_static ∨ c = swapOut is_static := by
    cases c <;> cases is_static <;> simp [swapIn, swapOut]
  rcases hcases with rfl | rfl
  · rw [h2]
    exact insert_nodup _ _ (hn _)
  · rw [h4]
    exact hn _

/-- One swap request for an object held by a handler returns and keeps the
buckets consistent. -/
theorem handleCheck_consistent (o : UUID) (is_static : Bool) (qh : HandlerArray)
    (hs hd : ProxQueryHandler)
    (hS : (qh.get OBJECT_CLASS_STATIC).handler = some hs)
    (hD : (qh.get OBJECT_CLASS_DYNAMIC).handler = some hd)
    (hc : bucketsConsistent qh) (hn : ∀ c, (qh.get c).additions.Nodup)
    (hknown : o ∈ hs.objects ∨ o ∈ hd.objects) :
    ∃ qh1, handleCheckObjectClassForHandlers o is_static qh = .ok qh1 ∧
      (∀ c, (qh1.get c).handler = (qh.get c).handler) ∧
      bucketsConsistent qh1 ∧ (∀ c, (qh1.get c).additions.Nodup) := by
  rw [handleCheck_eq o is_static qh hS hD]
  by_cases e1 : o ∈ qh.objectsOf (swapIn is_static)
  · rw [if_pos e1]
    exact ⟨qh, rfl, fun _ => rfl, hc, hn⟩
  · rw [if_neg e1]
    have e2 : o ∈ qh.objectsOf (swapOut is_static) := by
      rw [← objectsOf_of_handler hS, ← objectsOf_of_handler hD] at hknown
      cases is_static
      · rcases hknown with h | h
        · exact h
        · exact absurd h e1
      · rcases hknown with h | h
        · exact absurd h e1
        · exact h
    rw [if_pos e2]
    exact ⟨_, rfl, recordSwap_handler o is_static qh, recordSwap_consistent o is_static qh hc e1 e2,
      recordSwap_nodup o is_static qh hn⟩

theorem handleCheckCalls_consistent (hs hd : ProxQueryHandler) (calls : List (UUID × Bool)) :
    ∀ qh : HandlerArray,
      (qh.get OBJECT_CLASS_STATIC).handler = some hs →
      (qh.get OBJECT_CLASS_DYNAMIC).handler = some hd →
      bucketsConsistent qh → (∀ c, (qh.get c).additions.Nodup) →
      (∀ call ∈ calls, call.1 ∈ hs.objects ∨ call.1 ∈ hd.objects) →
      ∃ qh1, handleCheckCalls calls qh = .ok qh1 ∧
        (∀ c, (qh1.get c).handler = (qh.get c).handler) ∧
        bucketsConsistent qh1 ∧ (∀ c, (qh1.get c).additions.Nodup) := by
  induction calls with
  | nil =>
    intro qh _ _ hc hn _
    exact ⟨qh, rfl, fun _ => rfl, hc, hn⟩
  | cons call rest ih =>
    intro qh hS hD hc hn hknown
    obtain ⟨o, b⟩ := call
    obtain ⟨qh1, h1, hh1, hc1, hn1⟩ := handleCheck_consistent o b qh hs hd hS hD hc hn
      (hknown (o, b) (List.mem_cons_self _ _))
    obtain ⟨qh2, h2, hh2, hc2, hn2⟩ := ih qh1 (by rw [hh1]; exact hS) (by rw [hh1]; exact hD)
      hc1 hn1 (fun call hcall => hknown call (List.mem_cons_of_mem _ hcall))
    refine ⟨qh2, ?_, fun c => (hh2 c).trans (hh1 c), hc2, hn2⟩
    simp only [handleCheckCalls, h1]
    exact h2

theorem processExpired_consistent (hs hd : ProxQueryHandler) (expired : List (Bool × UUID)) :
    ∀ qh : HandlerArray,
      (qh.get OBJECT_CLASS_STATIC).handler = some hs →
      (qh.get OBJECT_CLASS_DYNAMIC).handler = some hd →
      bucketsConsistent qh → (∀ c, (qh.get c).additions.Nodup) →
      (∀ x ∈ expired, x.2 ∈ hs.objects ∨ x.2 ∈ hd.objects) →
      ∃ qh1, processExpiredStaticObjectTimeouts expired qh = .ok qh1 ∧
        (∀ c, (qh1.get c).handler = (qh.get c).handler) ∧
        bucketsConsistent qh1 ∧ (∀ c, (qh1.get c).additions.Nodup) := by
  induction expired with
  | nil =>
    intro qh _ _ hc hn _
    exact ⟨qh, rfl, fun _ => rfl, hc, hn⟩
  | cons e rest ih =>
    intro qh hS hD hc hn hknown
    obtain ⟨l, o⟩ := e
    obtain ⟨qh1, h1, hh1, hc1, hn1⟩ := handleCheck_consistent o true qh hs hd hS hD hc hn
      (hknown (l, o) (List.mem_cons_self _ _))
    obtain ⟨qh2, h2, hh2, hc2, hn2⟩ := ih qh1 (by rw [hh1]; exact hS) (by rw [hh1]; exact hD)
      hc1 hn1 (fun x hx => hknown x (List.mem_cons_of_mem _ hx))
    refine ⟨qh2, ?_, fun c => (hh2 c).trans (hh1 c), hc2, hn2⟩
    simp only [processExpiredStaticObjectTimeouts, trySwapHandlers, h1]
    exact h2

theorem addsOnlyAbsent_removes (simT : Time) (c : ObjectClass) (rest : List HandlerCall)
    (rems : List UUID) :
    ∀ (H : ObjectClass → Option ProxQueryHandler) (h : ProxQueryHandler), H c = some h →
      addsOnlyAbsent simT H (rems.map (fun o => HandlerCall.removeObject c o true) ++ rest) =
        addsOnlyAbsent simT
          (Function.update H c (some (rems.foldl (fun hh o => hh.removeObject o true) h))) rest := by
  induction rems with
  | nil =>
    intro H h hH
    simp only [List.map_nil, List.nil_append, List.foldl_nil]
    rw [← hH, Function.update_eq_self]
  | cons o rems ih =>
    intro H h hH
    simp only [List.map_cons, List.cons_append, List.foldl_cons]
    simp only [addsOnlyAbsent, Bool.true_and, HandlerCall.apply, hH, Option.map_some']
    rw [ih _ (h.removeObject o true) (Function.update_same _ _ _), Function.update_idem]

theorem addsOnlyAbsent_adds (simT : Time) (c : ObjectClass) (rest : List HandlerCall)
    (adds : List UUID) :
    ∀ (H : ObjectClass → Option ProxQueryHandler) (h : ProxQueryHandler), H c = some h →
      adds.Nodup → (∀ x ∈ adds, x ∉ h.objects) →
      addsOnlyAbsent simT H (adds.map (fun o => HandlerCall.addObject c o) ++ rest) =
        addsOnlyAbsent simT
          (Function.update H c (some (adds.foldl (fun hh o => hh.addObject o) h))) rest := by
  induction adds with
  | nil =>
    intro H h hH _ _
    simp only [List.map_nil, List.nil_append, List.foldl_nil]
    rw [← hH, Function.update_eq_self]
  | cons o adds ih =>
    intro H h hH hnd hfresh
    have ho : o ∉ h.objects := hfresh o (List.mem_cons_self _ _)
    have hnd2 := List.nodup_cons.1 hnd
    simp only [List.map_cons, List.cons_append, List.foldl_cons]
    simp only [addsOnlyAbsent, HandlerCall.apply, hH, Option.map_some',
      ProxQueryHandler.containsObject, ho, decide_False, Bool.not_false, Bool.true_and]
    rw [ih _ (h.addObject o) (Function.update_same _ _ _) hnd2.2, Function.update_idem]
    intro x hx
    simp only [ProxQueryHandler.addObject, ho, if_false, List.mem_append, List.mem_singleton,
      not_or]
    refine ⟨hfresh x (List.mem_cons_of_mem _ hx), ?_⟩
    rintro rfl
    exact hnd2.1 hx

theorem addsOnlyAbsent_tick (simT : Time) (c : ObjectClass) (rest : List HandlerCall)
    (H : ObjectClass → Option ProxQueryHandler) :
    addsOnlyAbsent simT H (HandlerCall.tick c :: rest) = addsOnlyAbsent simT H rest := by
  simp only [addsOnlyAbsent, Bool.true_and, HandlerCall.apply]
  congr 1
  cases hH : H c with
  | none => rw [Option.map_none', ← hH, Function.update_eq_self]
  | some h =>
    simp only [Option.map_some', ProxQueryHandler.tick]
    rw [← hH, Function.update_eq_self]

/-- The calls of `tickQueryHandler` on one slot, replayed: no `addObject` call
meets an object its handler contains, when the pending additions are distinct
objects that the handler does not contain. -/
theorem addsOnlyAbsent_classCalls (simT : Time) (c : ObjectClass) (rest : List HandlerCall)
    (d : ProxQueryHandlerData) (h : ProxQueryHandler)
    (H : ObjectClass → Option ProxQueryHandler) (hd : d.handler = some h) (hH : H c = some h)
    (hnd : d.additions.Nodup) (hfresh : ∀ x ∈ d.additions, x ∉ h.objects) :
    ∃ h2, addsOnlyAbsent simT H (classCalls d c ++ rest) =
      addsOnlyAbsent simT (Function.update H c (some h2)) rest := by
  refine ⟨d.additions.foldl (fun hh o => hh.addObject o)
    (d.removals.foldl (fun hh o => hh.removeObject o true) h), ?_⟩
  simp only [classCalls, hd, List.append_assoc, List.singleton_append, List.cons_append,
    List.nil_append]
  rw [addsOnlyAbsent_removes simT c _ d.removals H h hH, addsOnlyAbsent_tick,
    addsOnlyAbsent_adds simT c rest d.additions _ _ (Function.update_same _ _ _) hnd,
    Function.update_idem]
  intro x hx hmem
  exact hfresh x hx ((mem_foldl_removeObject d.removals x h).1 hmem).1

theorem handlers_eq_of_same {qh qh1 : HandlerArray}
    (h : ∀ c, (qh1.get c).handler = (qh.get c).handler) : qh1.handlers = qh.handlers := by
  funext c
  exact h c

/-- C27: start from empty buckets with both handlers present, and make any
sequence of `handleCheckObjectClassForHandlers` calls for objects held by a
handler (each object is in exactly one handler; it is enough that it is in one).
Then every call returns, the handlers are as they were, and the buckets are
consistent: every object in the additions bucket of a class is absent from the
handler of the class and present in the other handler, every object in the
removals bucket of a class is present in the handler of the class, and no
object is in both buckets of a class.  Consequently the next `tickQueryHandler`
call (whose timeout processing requests swaps of objects held by a handler)
returns, and replaying its log of handler calls from the handlers, no
`addObject` call is made for an object that its handler contains at that time;
the call leaves all buckets empty. -/
theorem buckets_consistent_after_requests (qh : HandlerArray) (hs hd : ProxQueryHandler)
    (calls : List (UUID × Bool))
    (hS : (qh.get OBJECT_CLASS_STATIC).handler = some hs)
    (hD : (qh.get OBJECT_CLASS_DYNAMIC).handler = some hd)
    (hempty : ∀ c, (qh.get c).additions = [] ∧ (qh.get c).removals = [])
    (hknown : ∀ call ∈ calls, call.1 ∈ hs.objects ∨ call.1 ∈ hd.objects) :
    ∃ qh1, handleCheckCalls calls qh = .ok qh1 ∧
      (∀ c, (qh1.get c).handler = (qh.get c).handler) ∧
      bucketsConsistent qh1 ∧
      ∀ (simT : Time) (expired : List (Bool × UUID)),
        (∀ x ∈ expired, x.2 ∈ hs.objects ∨ x.2 ∈ hd.objects) →
        ∃ qh2 log, tickQueryHandler simT expired qh1 = .ok (qh2, log) ∧
          addsOnlyAbsent simT qh1.handlers log = true ∧
          ∀ c, (qh2.get c).additions = [] ∧ (qh2.get c).removals = [] := by
  have hc0 : bucketsConsistent qh := by
    intro c
    rw [(hempty c).1, (hempty c).2]
    simp
  have hn0 : ∀ c, (qh.get c).additions.Nodup := by
    intro c
    rw [(hempty c).1]
    exact List.nodup_nil
  obtain ⟨qh1, h1, hh1, hc1, hn1⟩ :=
    handleCheckCalls_consistent hs hd calls qh hS hD hc0 hn0 hknown
  refine ⟨qh1, h1, hh1, hc1, ?_⟩
  intro simT expired hexp
  have hS1 : (qh1.get OBJECT_CLASS_STATIC).handler = some hs := by rw [hh1]; exact hS
  have hD1 : (qh1.get OBJECT_CLASS_DYNAMIC).handler = some hd := by rw [hh1]; exact hD
  obtain ⟨qh2, h2, hh2, hc2, hn2⟩ :=
    processExpired_consistent hs hd expired qh1 hS1 hD1 hc1 hn1 hexp
  have hS2 : (qh2.get OBJECT_CLASS_STATIC).handler = some hs := by rw [hh2]; exact hS1
  have hD2 : (qh2.get OBJECT_CLASS_DYNAMIC).handler = some hd := by rw [hh2]; exact hD1
  refine ⟨(tickQueryHandlerLoop simT objectClasses qh2).1,
    (tickQueryHandlerLoop simT objectClasses qh2).2, by simp [tickQueryHandler, h2], ?_, ?_⟩
  · rw [tickQueryHandlerLoop_log, ← handlers_eq_of_same hh2]
    have hfS : ∀ x ∈ (qh2.get OBJECT_CLASS_STATIC).additions, x ∉ hs.objects := by
      intro x hx
      have := ((hc2 OBJECT_CLASS_STATIC).1 x hx).1
      rwa [objectsOf_of_handler hS2] at this
    have hfD : ∀ x ∈ (qh2.get OBJECT_CLASS_DYNAMIC).additions, x ∉ hd.objects := by
      intro x hx
      have := ((hc2 OBJECT_CLASS_DYNAMIC).1 x hx).1
      rwa [objectsOf_of_handler hD2] at this
    obtain ⟨h3, e3⟩ := addsOnlyAbsent_classCalls simT OBJECT_CLASS_STATIC
      (classCalls (qh2.get OBJECT_CLASS_DYNAMIC) OBJECT_CLASS_DYNAMIC)
      (qh2.get OBJECT_CLASS_STATIC) hs qh2.handlers hS2 hS2 (hn2 _) hfS
    rw [e3]
    have hD3 : Function.update qh2.handlers OBJECT_CLASS_STATIC (some h3) OBJECT_CLASS_DYNAMIC
        = some hd := by
      rw [Function.update_noteq (by decide)]
      exact hD2
    obtain ⟨h4, e4⟩ := addsOnlyAbsent_classCalls simT OBJECT_CLASS_DYNAMIC []
      (qh2.get OBJECT_CLASS_DYNAMIC) hd _ hD2 hD3 (hn2 _) hfD
    rw [List.append_nil] at e4
    rw [e4]
    rfl
  · intro c
    cases c
    · exact ⟨(tickQueryHandlerLoop_state simT qh2 OBJECT_CLASS_STATIC hS2).1,
        (tickQueryHandlerLoop_state simT qh2 OBJECT_CLASS_STATIC hS2).2.1⟩
    · exact ⟨(tickQueryHandlerLoop_state simT qh2 OBJECT_CLASS_DYNAMIC hD2).1,
        (tickQueryHandlerLoop_state simT qh2 OBJECT_CLASS_DYNAMIC hD2).2.1⟩

/-- C27, at a concrete input: from `exampleHandlers`, object `9` is asked to be
static, object `7` to be dynamic, and object `9` to be dynamic again. -/
theorem buckets_consistent_after_requests_witness :
    ∃ qh1, handleCheckCalls [(9, true), (7, false), (9, false)] exampleHandlers = .ok qh1 ∧
      (∀ c, (qh1.get c).handler = (exampleHandlers.get c).handler) ∧
      bucketsConsistent qh1 ∧
      ∀ (simT : Time) (expired : List (Bool × UUID)),
        (∀ x ∈ expired, x.2 ∈ exampleStaticHandler.objects ∨
          x.2 ∈ exampleDynamicHandler.objects) →
        ∃ qh2 log, tickQueryHandler simT expired qh1 = .ok (qh2, log) ∧
          addsOnlyAbsent simT qh1.handlers log = true ∧
          ∀ c, (qh2.get c).additions = [] ∧ (qh2.get c).removals = [] :=
  buckets_consistent_after_requests exampleHandlers exampleStaticHandler exampleDynamicHandler
    [(9, true), (7, false), (9, false)] rfl rfl (fun c => by cases c <;> exact ⟨rfl, rfl⟩)
    (by decide)

end Sirikata
